import Mathlib

/-!
Verification development for the MatchX-HFT matching-engine core
(order book, matching engine, SPSC ring buffer), shallowly embedded
from the C++ sources.  Machine prices are the raw signed 64-bit tick
counts (modelled as Int, never overflowing in any reachable state);
quantities are unsigned counts (modelled as Nat).

The repository ships only matching_engine.cpp, order_book.cpp and the
memory headers; the core type header (Order, PriceLevel, Trade,
MatchResult, OrderRequest and the class declarations) is not present.
Those record layouts and the PriceLevel queue operations are modelled
from the specification (sections 3 and 4.4) and are marked as such;
every function body below them is translated from the .cpp sources.
-/

namespace NanoTrader

/-!
Machine types: the C++ Int wraps an int64 raw tick count, written Int
below (all Int comparisons in the source compare raw values);
Nat, Nat, Nat and Nat are unsigned integers, written
Nat.  The names are spelled out rather than aliased because the
arithmetic automation only recognizes the primitive types.
-/

/-- Modelled from the spec: Side is the sum type Buy | Sell (the header
declaring it is not in the repository sources). -/
inductive Side where
  | Buy
  | Sell
deriving DecidableEq, Repr

/-- Modelled from the spec: OrderType is the sum type Limit | Market. -/
inductive OrderType where
  | Limit
  | Market
deriving DecidableEq, Repr

/-- Modelled from the spec: the Order record (section 3) with id, symbol,
price, original and remaining quantity, side, type, IOC/FOK flags and
arrival timestamp.  The intrusive prev/next level links live in the
level queue of the book model instead of inside the record. -/
structure Order where
  id : Nat
  symbol : Nat
  price : Int
  quantity : Nat
  remaining_quantity : Nat
  side : Side
  type : OrderType
  timestamp : Nat
  ioc : Bool
  fok : Bool
deriving DecidableEq, Repr

/-- Modelled from the spec: the Order constructor used throughout the
drivers and tests sets remaining = quantity and leaves both TIF flags
false. -/
def Order.mk7 (id : Nat) (symbol : Nat) (price : Int)
    (quantity : Nat) (side : Side) (type : OrderType)
    (timestamp : Nat) : Order :=
  ⟨id, symbol, price, quantity, quantity, side, type, timestamp, false, false⟩

def Order.is_buy (o : Order) : Bool := o.side = Side.Buy
def Order.is_sell (o : Order) : Bool := o.side = Side.Sell
def Order.is_market (o : Order) : Bool := o.type = OrderType.Market
def Order.is_limit (o : Order) : Bool := o.type = OrderType.Limit
def Order.is_ioc (o : Order) : Bool := o.ioc
def Order.is_fok (o : Order) : Bool := o.fok
def Order.is_filled (o : Order) : Bool := o.remaining_quantity = 0

/-- Modelled from the spec and test_suite.cpp: fill decrements the
remaining quantity (callers always pass at most the remaining). -/
def Order.fill (o : Order) (q : Nat) : Order :=
  { o with remaining_quantity := o.remaining_quantity - q }

/-- Modelled from the spec (section 4.4): a price level is a FIFO queue
of resting orders at one price with a cached aggregate size and count.
The intrusive doubly linked list is rendered as the list of member
order ids, head first; the orders themselves live in the book's id
map, mirroring the single shared Order object behind each pointer. -/
structure PriceLevel where
  price : Int
  queue : List Nat
  total_quantity : Int
  order_count : Nat
deriving DecidableEq, Repr

/-- Modelled from the spec: the default-constructed PriceLevel produced
by unordered_map operator[] (zero price, empty queue). -/
def PriceLevel.default : PriceLevel := ⟨0, [], 0, 0⟩

def PriceLevel.is_empty (l : PriceLevel) : Bool := l.order_count = 0

/-- Modelled from the spec (4.4): append links the order at the tail,
adds its remaining quantity to the total and increments the count. -/
def PriceLevel.add_order (l : PriceLevel) (o : Order) : PriceLevel :=
  { l with queue := l.queue ++ [o.id],
           total_quantity := l.total_quantity + (o.remaining_quantity : Int),
           order_count := l.order_count + 1 }

/-- Modelled from the spec (4.4): unlink removes the order from its
position, subtracts its remaining quantity from the total and
decrements the count. -/
def PriceLevel.remove_order (l : PriceLevel) (o : Order) : PriceLevel :=
  { l with queue := l.queue.erase o.id,
           total_quantity := l.total_quantity - (o.remaining_quantity : Int),
           order_count := l.order_count - 1 }

/-- Modelled from the spec (4.4): update_quantity adjusts the cached
total by new minus old; the queue position is unchanged. -/
def PriceLevel.update_quantity (l : PriceLevel) (o : Order)
    (old : Nat) : PriceLevel :=
  { l with total_quantity :=
      l.total_quantity + (o.remaining_quantity : Int) - (old : Int) }

/-- Modelled from the spec (4.4): the head of the queue is the next
order to be matched at this level. -/
def PriceLevel.head (l : PriceLevel) : Option Nat := l.queue.head?

/-- Trade record: maker id, taker id, symbol, execution price, quantity,
timestamp (modelled from the spec, section 3). -/
structure Trade where
  maker_id : Nat
  taker_id : Nat
  symbol : Nat
  price : Int
  quantity : Nat
  timestamp : Nat
deriving DecidableEq, Repr

/-- Modelled from the spec: the MatchResult status sum type. -/
inductive MatchResult.Status where
  | Added
  | Matched
  | Cancelled
  | Modified
  | Rejected
deriving DecidableEq, Repr

/-- Modelled from the spec: the response record pushed to egress. -/
structure MatchResult where
  status : MatchResult.Status
  order_id : Nat
  trades : List Trade
deriving DecidableEq, Repr

/-- Modelled from the spec: the request tag. -/
inductive OrderRequest.Type where
  | Add
  | Cancel
  | Modify
deriving DecidableEq, Repr

/-- Modelled from the spec: the request record pushed to ingress. -/
structure OrderRequest where
  type : OrderRequest.Type
  order : Order
  new_quantity : Nat
deriving DecidableEq, Repr

/-! Association-list rendering of the unordered_map members.  findA is
lookup, setA is insert-or-assign (also the write part of operator[]),
eraseA removes the entry; under the no-duplicate-key invariant these
match the C++ map semantics exactly. -/

variable {κ α : Type}

def findA [DecidableEq κ] : List (κ × α) → κ → Option α
  | [], _ => none
  | (k, a) :: rest, key => if k = key then some a else findA rest key

def setA [DecidableEq κ] : List (κ × α) → κ → α → List (κ × α)
  | [], key, a => [(key, a)]
  | (k, b) :: rest, key, a =>
      if k = key then (key, a) :: rest else (k, b) :: setA rest key a

def eraseA [DecidableEq κ] : List (κ × α) → κ → List (κ × α)
  | [], _ => []
  | (k, b) :: rest, key => if k = key then rest else (k, b) :: eraseA rest key

def keysA : List (κ × α) → List κ := List.map Prod.fst

/-- OrderBook state: symbol, price-keyed bid and ask level maps, the
id-to-order map (the map owns the Order values, standing for the shared
pooled objects all pointers alias), and the cached best prices with
their presence flags (order_book.cpp constructor). -/
structure OrderBook where
  symbol : Nat
  buy_levels : List (Int × PriceLevel)
  sell_levels : List (Int × PriceLevel)
  orders : List (Nat × Order)
  best_bid : Int
  best_ask : Int
  has_best_bid : Bool
  has_best_ask : Bool
deriving DecidableEq, Repr

/-- OrderBook constructor (order_book.cpp lines 7-16): empty maps,
zero best prices, both presence flags false. -/
def OrderBook.new (s : Nat) : OrderBook := ⟨s, [], [], [], 0, 0, false, false⟩

/-- OrderBook::update_best_bid (order_book.cpp lines 18-34): scan all
bid levels, track the maximum price among non-empty ones. -/
def OrderBook.update_best_bid (b : OrderBook) : OrderBook :=
  let r := b.buy_levels.foldl
    (fun (acc : Int × Bool) pl =>
      if !pl.2.is_empty then
        (if !acc.2 || pl.1 > acc.1 then (pl.1, true) else acc)
      else acc)
    ((0 : Int), false)
  { b with best_bid := r.1, has_best_bid := r.2 }

/-- OrderBook::update_best_ask (order_book.cpp lines 36-52): scan all
ask levels, track the minimum price among non-empty ones. -/
def OrderBook.update_best_ask (b : OrderBook) : OrderBook :=
  let r := b.sell_levels.foldl
    (fun (acc : Int × Bool) pl =>
      if !pl.2.is_empty then
        (if !acc.2 || pl.1 < acc.1 then (pl.1, true) else acc)
      else acc)
    ((0 : Int), false)
  { b with best_ask := r.1, has_best_ask := r.2 }

/-- OrderBook::cleanup_empty_level (order_book.cpp lines 54-59). -/
def cleanup_empty_level (levels : List (Int × PriceLevel)) (p : Int) :
    List (Int × PriceLevel) :=
  match findA levels p with
  | some l => if l.is_empty then eraseA levels p else levels
  | none => levels

/-- OrderBook::add_order (order_book.cpp lines 61-89): reject duplicate
ids, insert into the id map, append to the (possibly fresh) level on
the order's side, and raise the cached best monotonically. -/
def OrderBook.add_order (b : OrderBook) (o : Order) : Bool × OrderBook :=
  if (findA b.orders o.id).isSome then (false, b)
  else
    let b1 := { b with orders := setA b.orders o.id o }
    if o.is_buy then
      let level0 := (findA b1.buy_levels o.price).getD PriceLevel.default
      let level1 := { level0 with price := o.price }
      let level2 := level1.add_order o
      let b2 := { b1 with buy_levels := setA b1.buy_levels o.price level2 }
      if !b2.has_best_bid || o.price > b2.best_bid then
        (true, { b2 with best_bid := o.price, has_best_bid := true })
      else (true, b2)
    else
      let level0 := (findA b1.sell_levels o.price).getD PriceLevel.default
      let level1 := { level0 with price := o.price }
      let level2 := level1.add_order o
      let b2 := { b1 with sell_levels := setA b1.sell_levels o.price level2 }
      if !b2.has_best_ask || o.price < b2.best_ask then
        (true, { b2 with best_ask := o.price, has_best_ask := true })
      else (true, b2)

/-- OrderBook::remove_order (order_book.cpp lines 91-123): look the
order up, erase it from the id map, unlink it from its level, drop the
level if it became empty, and rescan the best price when the removed
price equalled the cached best. -/
def OrderBook.remove_order (b : OrderBook) (oid : Nat) : Bool × OrderBook :=
  match findA b.orders oid with
  | none => (false, b)
  | some o =>
    let b1 := { b with orders := eraseA b.orders oid }
    if o.is_buy then
      let level := ((findA b1.buy_levels o.price).getD PriceLevel.default).remove_order o
      let b2 := { b1 with buy_levels := setA b1.buy_levels o.price level }
      if level.is_empty then
        let b3 := { b2 with buy_levels := cleanup_empty_level b2.buy_levels o.price }
        if b3.has_best_bid && o.price = b3.best_bid then (true, b3.update_best_bid)
        else (true, b3)
      else (true, b2)
    else
      let level := ((findA b1.sell_levels o.price).getD PriceLevel.default).remove_order o
      let b2 := { b1 with sell_levels := setA b1.sell_levels o.price level }
      if level.is_empty then
        let b3 := { b2 with sell_levels := cleanup_empty_level b2.sell_levels o.price }
        if b3.has_best_ask && o.price = b3.best_ask then (true, b3.update_best_ask)
        else (true, b3)
      else (true, b2)

/-- OrderBook::update_order_quantity (order_book.cpp lines 125-140). -/
def OrderBook.update_order_quantity (b : OrderBook) (oid : Nat)
    (old : Nat) : OrderBook :=
  match findA b.orders oid with
  | none => b
  | some o =>
    if o.is_buy then
      let level := ((findA b.buy_levels o.price).getD PriceLevel.default).update_quantity o old
      { b with buy_levels := setA b.buy_levels o.price level }
    else
      let level := ((findA b.sell_levels o.price).getD PriceLevel.default).update_quantity o old
      { b with sell_levels := setA b.sell_levels o.price level }

/-- OrderBook::get_order (order_book.cpp lines 142-145). -/
def OrderBook.get_order (b : OrderBook) (oid : Nat) : Option Order :=
  findA b.orders oid

/-- OrderBook::get_best_bid (order_book.cpp lines 147-149): the default
Int (raw 0) when no best is cached. -/
def OrderBook.get_best_bid (b : OrderBook) : Int :=
  if b.has_best_bid then b.best_bid else 0

/-- OrderBook::get_best_ask (order_book.cpp lines 151-153). -/
def OrderBook.get_best_ask (b : OrderBook) : Int :=
  if b.has_best_ask then b.best_ask else 0

/-- OrderBook::get_buy_level (order_book.cpp lines 163-166). -/
def OrderBook.get_buy_level (b : OrderBook) (p : Int) : Option PriceLevel :=
  findA b.buy_levels p

/-- OrderBook::get_sell_level (order_book.cpp lines 168-171). -/
def OrderBook.get_sell_level (b : OrderBook) (p : Int) : Option PriceLevel :=
  findA b.sell_levels p

/-- OrderBook::get_order_count (order_book.cpp lines 177-179). -/
def OrderBook.get_order_count (b : OrderBook) : Nat := b.orders.length

/-- OrderBook::clear (order_book.cpp lines 223-229). -/
def OrderBook.clear (b : OrderBook) : OrderBook :=
  { b with buy_levels := [], sell_levels := [], orders := [],
           has_best_bid := false, has_best_ask := false }

/-- Direct mutation of a pooled Order object through an Order* held by
the matching loop (sell_order->fill and the Modify handler's field
writes).  All pointers to one order alias the single entry of the id
map, so the write is an update of that entry. -/
def OrderBook.write_order (b : OrderBook) (oid : Nat) (o : Order) : OrderBook :=
  { b with orders := setA b.orders oid o }

/-- MatchingEngine state (matching_engine.hpp members are not in the
repository sources; the member list follows the spec, section 4.6):
the symbol-keyed book map, the pool free-slot count (the free list of
PoolAllocator, initial size 1,000,000), the running flag, the processed
counter, and the ingress/egress channels.  A channel, proved FIFO with
usable capacity Size - 1 in the ring-buffer section below, is carried
as its queue contents plus that usable capacity. -/
structure MatchingEngine where
  order_books : List (Nat × OrderBook)
  available : Nat
  running : Bool
  processed_orders : Nat
  input_buffer : List OrderRequest
  output_buffer : List MatchResult
  input_capacity : Nat
  output_capacity : Nat
deriving DecidableEq, Repr

/-- MatchingEngine constructor (matching_engine.cpp line 7): pool of
1,000,000 slots, everything else empty.  The channel capacities are the
template sizes minus one, kept as parameters since the header fixing
them is not in the sources. -/
def MatchingEngine.new (inCap outCap : Nat) : MatchingEngine :=
  ⟨[], 1000000, false, 0, [], [], inCap, outCap⟩

/-- MatchingEngine::get_or_create_book (matching_engine.cpp lines
10-20): return the existing book or install a fresh one. -/
def MatchingEngine.get_or_create_book (e : MatchingEngine) (s : Nat) :
    OrderBook × MatchingEngine :=
  match findA e.order_books s with
  | some b => (b, e)
  | none =>
    let b := OrderBook.new s
    (b, { e with order_books := setA e.order_books s b })

/-- Write-back of the book mutations a handler performed through the
OrderBook* returned by get_or_create_book. -/
def MatchingEngine.set_book (e : MatchingEngine) (s : Nat) (b : OrderBook) :
    MatchingEngine :=
  { e with order_books := setA e.order_books s b }

/-- One result of a matching loop: final book, final incoming order,
trades in emission order, number of resting orders destroyed (their
pool slots freed). -/
abbrev MatchOut := OrderBook × Order × List Trade × Nat

/-- MatchingEngine::match_buy_order (matching_engine.cpp lines 30-65),
with fuel making the while loop structurally recursive; every
iteration that recurses has removed one resting order from the book,
so orders-count-plus-one fuel (supplied by the wrapper) never runs
out.  now() is wall clock, outside the model, so the trade timestamp
is a parameter.  The impossible dangling-head reads (a level or head
the id map does not know) stop the loop like the null checks of lines
36-43. -/
def matchBuyFuel (ts : Nat) : Nat → OrderBook → Order → MatchOut
  | 0, book, o => (book, o, [], 0)
  | fuel + 1, book, o =>
    if o.remaining_quantity > 0 && book.has_best_ask then
      let best_ask := book.get_best_ask
      if o.is_market || decide (best_ask ≤ o.price) then
        match book.get_sell_level best_ask with
        | none => (book, o, [], 0)
        | some level =>
          if level.is_empty then (book, o, [], 0)
          else
            match level.head with
            | none => (book, o, [], 0)
            | some sid =>
              match book.get_order sid with
              | none => (book, o, [], 0)
              | some sell_order =>
                let fill_quantity :=
                  min o.remaining_quantity sell_order.remaining_quantity
                let t : Trade :=
                  ⟨sell_order.id, o.id, o.symbol, best_ask, fill_quantity, ts⟩
                let old_sell_qty := sell_order.remaining_quantity
                let sell2 := sell_order.fill fill_quantity
                let o2 := o.fill fill_quantity
                let book2 := book.write_order sid sell2
                let step :=
                  if sell2.is_filled then ((book2.remove_order sid).2, 1)
                  else (book2.update_order_quantity sid old_sell_qty, 0)
                let rest := matchBuyFuel ts fuel step.1 o2
                (rest.1, rest.2.1, t :: rest.2.2.1, step.2 + rest.2.2.2)
      else (book, o, [], 0)
    else (book, o, [], 0)

/-- MatchingEngine::match_sell_order (matching_engine.cpp lines
67-102), mirror of the buy loop against the bid side. -/
def matchSellFuel (ts : Nat) : Nat → OrderBook → Order → MatchOut
  | 0, book, o => (book, o, [], 0)
  | fuel + 1, book, o =>
    if o.remaining_quantity > 0 && book.has_best_bid then
      let best_bid := book.get_best_bid
      if o.is_market || decide (o.price ≤ best_bid) then
        match book.get_buy_level best_bid with
        | none => (book, o, [], 0)
        | some level =>
          if level.is_empty then (book, o, [], 0)
          else
            match level.head with
            | none => (book, o, [], 0)
            | some bid =>
              match book.get_order bid with
              | none => (book, o, [], 0)
              | some buy_order =>
                let fill_quantity :=
                  min o.remaining_quantity buy_order.remaining_quantity
                let t : Trade :=
                  ⟨buy_order.id, o.id, o.symbol, best_bid, fill_quantity, ts⟩
                let old_buy_qty := buy_order.remaining_quantity
                let buy2 := buy_order.fill fill_quantity
                let o2 := o.fill fill_quantity
                let book2 := book.write_order bid buy2
                let step :=
                  if buy2.is_filled then ((book2.remove_order bid).2, 1)
                  else (book2.update_order_quantity bid old_buy_qty, 0)
                let rest := matchSellFuel ts fuel step.1 o2
                (rest.1, rest.2.1, t :: rest.2.2.1, step.2 + rest.2.2.2)
      else (book, o, [], 0)
    else (book, o, [], 0)

def MatchingEngine.match_buy_order (book : OrderBook) (o : Order)
    (ts : Nat) : MatchOut :=
  matchBuyFuel ts (book.orders.length + 1) book o

def MatchingEngine.match_sell_order (book : OrderBook) (o : Order)
    (ts : Nat) : MatchOut :=
  matchSellFuel ts (book.orders.length + 1) book o

/-- MatchingEngine::match_order (matching_engine.cpp lines 22-28). -/
def MatchingEngine.match_order (book : OrderBook) (o : Order)
    (ts : Nat) : MatchOut :=
  if o.is_buy then MatchingEngine.match_buy_order book o ts
  else MatchingEngine.match_sell_order book o ts

/-- Crossing test of matching_engine.cpp lines 114-118 (the condition
guarding the call to match_order in process_add_order). -/
def crossesBook (book : OrderBook) (o : Order) : Bool :=
  o.is_market
    || (o.is_buy && book.has_best_ask && decide (book.get_best_ask ≤ o.price))
    || (o.is_sell && book.has_best_bid && decide (o.price ≤ book.get_best_bid))

/-- MatchingEngine::process_add_order (matching_engine.cpp lines
104-138): allocate the pooled copy (Rejected on exhaustion), match if
the incoming crosses, then apply the residual policy; note that the
add_order return value is ignored (line 128) and that the FOK branch
clears the trades only after matching has mutated the book. -/
def MatchingEngine.process_add_order (e : MatchingEngine)
    (request : OrderRequest) (ts : Nat) : MatchResult × MatchingEngine :=
  let s := request.order.symbol
  let be := e.get_or_create_book s
  let book := be.1
  let e1 := be.2
  if e1.available = 0 then
    (⟨MatchResult.Status.Rejected, request.order.id, []⟩, e1)
  else
    let e2 := { e1 with available := e1.available - 1 }
    let m :=
      if crossesBook book request.order then
        MatchingEngine.match_order book request.order ts
      else (book, request.order, [], 0)
    let book1 := m.1
    let order := m.2.1
    let trades := m.2.2.1
    let freed := m.2.2.2
    let status :=
      if trades.isEmpty then MatchResult.Status.Added
      else MatchResult.Status.Matched
    if order.remaining_quantity > 0 && !order.is_ioc && !order.is_fok then
      let book2 := (book1.add_order order).2
      (⟨status, request.order.id, trades⟩,
        { e2.set_book s book2 with available := e2.available + freed })
    else if order.is_fok && decide (order.remaining_quantity > 0) then
      (⟨MatchResult.Status.Rejected, request.order.id, []⟩,
        { e2.set_book s book1 with available := e2.available + freed + 1 })
    else if order.remaining_quantity = 0 || order.is_ioc then
      (⟨status, request.order.id, trades⟩,
        { e2.set_book s book1 with available := e2.available + freed + 1 })
    else
      (⟨status, request.order.id, trades⟩,
        { e2.set_book s book1 with available := e2.available + freed })

/-- MatchingEngine::process_cancel_order (matching_engine.cpp lines
140-152): note the unconditional get_or_create_book. -/
def MatchingEngine.process_cancel_order (e : MatchingEngine)
    (request : OrderRequest) : MatchResult × MatchingEngine :=
  let s := request.order.symbol
  let be := e.get_or_create_book s
  let book := be.1
  let e1 := be.2
  match book.get_order request.order.id with
  | none => (⟨MatchResult.Status.Rejected, request.order.id, []⟩, e1)
  | some _ =>
    let book2 := (book.remove_order request.order.id).2
    (⟨MatchResult.Status.Cancelled, request.order.id, []⟩,
      { e1.set_book s book2 with available := e1.available + 1 })

/-- MatchingEngine::process_modify_order (matching_engine.cpp lines
154-175): zero new quantity cancels; otherwise both quantity fields
are overwritten through the pointer and the level total adjusted. -/
def MatchingEngine.process_modify_order (e : MatchingEngine)
    (request : OrderRequest) : MatchResult × MatchingEngine :=
  let s := request.order.symbol
  let be := e.get_or_create_book s
  let book := be.1
  let e1 := be.2
  match book.get_order request.order.id with
  | none => (⟨MatchResult.Status.Rejected, request.order.id, []⟩, e1)
  | some order =>
    if request.new_quantity = 0 then
      let book2 := (book.remove_order request.order.id).2
      (⟨MatchResult.Status.Cancelled, request.order.id, []⟩,
        { e1.set_book s book2 with available := e1.available + 1 })
    else
      let old_quantity := order.remaining_quantity
      let order2 := { order with remaining_quantity := request.new_quantity,
                                 quantity := request.new_quantity }
      let book2 := book.write_order request.order.id order2
      let book3 := book2.update_order_quantity order2.id old_quantity
      (⟨MatchResult.Status.Modified, request.order.id, []⟩, e1.set_book s book3)

/-- Request dispatch (matching_engine.cpp lines 191-201). -/
def MatchingEngine.dispatch (e : MatchingEngine) (request : OrderRequest)
    (ts : Nat) : MatchResult × MatchingEngine :=
  match request.type with
  | OrderRequest.Type.Add => e.process_add_order request ts
  | OrderRequest.Type.Cancel => e.process_cancel_order request
  | OrderRequest.Type.Modify => e.process_modify_order request

/-- Drain loop of MatchingEngine::process_orders (matching_engine.cpp
lines 186-210): pop a request, dispatch it, try to push the result to
egress; on a full egress break out of the loop (the popped request and
its result are simply dropped); the processed counter advances only
after a successful push. -/
def processLoop (ts : Nat) : List OrderRequest → MatchingEngine →
    MatchingEngine
  | [], e => e
  | request :: rest, e =>
    let re := MatchingEngine.dispatch { e with input_buffer := rest } request ts
    let result := re.1
    let e1 := re.2
    if e1.output_buffer.length = e1.output_capacity then e1
    else
      processLoop ts rest
        { e1 with output_buffer := e1.output_buffer ++ [result],
                  processed_orders := e1.processed_orders + 1 }

/-- MatchingEngine::process_orders (matching_engine.cpp lines 186-210). -/
def MatchingEngine.process_orders (e : MatchingEngine) (ts : Nat) :
    MatchingEngine :=
  processLoop ts e.input_buffer e

/-- MatchingEngine::submit_order (matching_engine.cpp lines 178-180):
try_push on ingress. -/
def MatchingEngine.submit_order (e : MatchingEngine) (request : OrderRequest) :
    Bool × MatchingEngine :=
  if e.input_buffer.length = e.input_capacity then (false, e)
  else (true, { e with input_buffer := e.input_buffer ++ [request] })

/-- MatchingEngine::get_result (matching_engine.cpp lines 182-184):
try_pop on egress. -/
def MatchingEngine.get_result (e : MatchingEngine) :
    Option (MatchResult × MatchingEngine) :=
  match e.output_buffer with
  | [] => none
  | r :: rest => some (r, { e with output_buffer := rest })

/-- MatchingEngine::start (matching_engine.cpp lines 212-214). -/
def MatchingEngine.start (e : MatchingEngine) : MatchingEngine :=
  { e with running := true }

/-- MatchingEngine::stop (matching_engine.cpp lines 216-218). -/
def MatchingEngine.stop (e : MatchingEngine) : MatchingEngine :=
  { e with running := false }

/-- MatchingEngine::get_processed_orders (matching_engine.cpp 224-226). -/
def MatchingEngine.get_processed_orders (e : MatchingEngine) : Nat :=
  e.processed_orders

/-- MatchingEngine::get_order_book (matching_engine.cpp lines 228-236). -/
def MatchingEngine.get_order_book (e : MatchingEngine) (s : Nat) :
    Option OrderBook :=
  findA e.order_books s

/-- MatchingEngine::get_order_book_count (matching_engine.cpp 238-240). -/
def MatchingEngine.get_order_book_count (e : MatchingEngine) : Nat :=
  e.order_books.length

/-- MatchingEngine::get_total_orders (matching_engine.cpp lines 242-248). -/
def MatchingEngine.get_total_orders (e : MatchingEngine) : Nat :=
  (e.order_books.map (fun sb => sb.2.get_order_count)).sum

/-- MatchingEngine::get_available_order_capacity (lines 250-252). -/
def MatchingEngine.get_available_order_capacity (e : MatchingEngine) : Nat :=
  e.available

/-- MatchingEngine::clear_all_books (matching_engine.cpp lines
254-257): drops every book and stores zero to the processed counter. -/
def MatchingEngine.clear_all_books (e : MatchingEngine) : MatchingEngine :=
  { e with order_books := [], processed_orders := 0 }

/-! SPSC ring buffer (include/nanotrader/memory/ring_buffer.hpp).
Size is a power of two (static_assert line 13), so the mask arithmetic
(x + 1) AND (Size - 1) is exactly (x + 1) % Size, written with an
explicit mod below.  The cached_head_/cached_tail_ members are a
performance cache: whenever the cached value would cause a rejection
the code reloads the true atomic and re-checks (lines 32-37, 48-53),
so in any single-producer single-consumer execution the accept/reject
outcome and all writes equal those of the direct check; the cache is
therefore not part of the state model.  The slot array is a total
function indexed modulo Size. -/
structure SPSCRingBuffer (α : Type) (Size : Nat) where
  head : Nat
  tail : Nat
  buffer : Nat → α

/-- SPSCRingBuffer::try_push (ring_buffer.hpp lines 27-43): reject when
the ring is full (one slot always kept empty), else write at tail and
advance it. -/
def SPSCRingBuffer.try_push {α : Type} {Size : Nat}
    (rb : SPSCRingBuffer α Size) (v : α) : Option (SPSCRingBuffer α Size) :=
  let next_tail := (rb.tail + 1) % Size
  if next_tail = rb.head then none
  else some { rb with
    buffer := fun i => if i = rb.tail then v else rb.buffer i,
    tail := next_tail }

/-- SPSCRingBuffer::try_pop (ring_buffer.hpp lines 45-64): reject when
empty, else read at head and advance it (the destructor call on the
vacated slot does not change the slot contents observably). -/
def SPSCRingBuffer.try_pop {α : Type} {Size : Nat}
    (rb : SPSCRingBuffer α Size) : Option (α × SPSCRingBuffer α Size) :=
  if rb.head = rb.tail then none
  else some (rb.buffer rb.head, { rb with head := (rb.head + 1) % Size })

/-- SPSCRingBuffer::size (ring_buffer.hpp lines 105-109): the size_t
wrap-around subtraction (tail - head) AND (Size - 1). -/
def SPSCRingBuffer.size {α : Type} {Size : Nat}
    (rb : SPSCRingBuffer α Size) : Nat :=
  (rb.tail + Size - rb.head) % Size

/-- SPSCRingBuffer::capacity (ring_buffer.hpp lines 111-113). -/
def SPSCRingBuffer.capacity {α : Type} {Size : Nat}
    (_rb : SPSCRingBuffer α Size) : Nat := Size - 1

/-- SPSCRingBuffer::empty (ring_buffer.hpp lines 94-97). -/
def SPSCRingBuffer.emptyFlag {α : Type} {Size : Nat}
    (rb : SPSCRingBuffer α Size) : Bool := rb.head = rb.tail

/-- SPSCRingBuffer::full (ring_buffer.hpp lines 99-103). -/
def SPSCRingBuffer.full {α : Type} {Size : Nat}
    (rb : SPSCRingBuffer α Size) : Bool := (rb.tail + 1) % Size = rb.head

/-- Queued contents of the ring, head first: the abstraction the FIFO
statement is made against. -/
def SPSCRingBuffer.toList {α : Type} {Size : Nat}
    (rb : SPSCRingBuffer α Size) : List α :=
  (List.range rb.size).map (fun i => rb.buffer ((rb.head + i) % Size))

/-- Index well-formedness: both cursors stay below Size, as maintained
by the masked increments. -/
def SPSCRingBuffer.wf {α : Type} {Size : Nat}
    (rb : SPSCRingBuffer α Size) : Prop :=
  rb.head < Size ∧ rb.tail < Size

/-- Freshly constructed ring: zero cursors, default-initialized slots
(ring_buffer.hpp lines 17-19). -/
def SPSCRingBuffer.init {α : Type} (Size : Nat) (a : α) :
    SPSCRingBuffer α Size := ⟨0, 0, fun _ => a⟩

/-- One endpoint action of a single-producer single-consumer history:
the producer attempts a push, or the consumer attempts a pop. -/
inductive RingOp (α : Type) where
  | push (v : α)
  | pop
deriving DecidableEq, Repr

/-- Run a history against the ring, collecting the popped values in
order (failed operations are the rejected non-blocking calls). -/
def runRing {α : Type} {Size : Nat} :
    SPSCRingBuffer α Size → List (RingOp α) → SPSCRingBuffer α Size × List α
  | rb, [] => (rb, [])
  | rb, RingOp.push v :: ops =>
    match rb.try_push v with
    | some rb2 => runRing rb2 ops
    | none => runRing rb ops
  | rb, RingOp.pop :: ops =>
    match rb.try_pop with
    | some xrb => let r := runRing xrb.2 ops; (r.1, xrb.1 :: r.2)
    | none => runRing rb ops

/-- Reference bounded FIFO queue with usable capacity cap: the model
the ring is proved to implement. -/
def runQueue {α : Type} (cap : Nat) : List α → List (RingOp α) → List α × List α
  | q, [] => (q, [])
  | q, RingOp.push v :: ops =>
    if q.length = cap then runQueue cap q ops else runQueue cap (q ++ [v]) ops
  | q, RingOp.pop :: ops =>
    match q with
    | [] => runQueue cap [] ops
    | x :: rest => let r := runQueue cap rest ops; (r.1, x :: r.2)

/-! Well-formedness of an order book, the inductive invariant shared by
the best-price and matching-loop theorems.  All clauses are decidable,
so concrete witnesses can discharge it by evaluation. -/

/-- Level map of the side an order rests on. -/
def sideLevels (b : OrderBook) (s : Side) : List (Int × PriceLevel) :=
  match s with
  | Side.Buy => b.buy_levels
  | Side.Sell => b.sell_levels

/-- Every mapped order carries its own key as id and sits in the queue
of the level keyed by its price on its side. -/
def ordersLinked (b : OrderBook) : Prop :=
  ∀ p ∈ b.orders, p.2.id = p.1 ∧
    (match findA (sideLevels b p.2.side) p.2.price with
     | some l => p.1 ∈ l.queue
     | none => False)

/-- Every id queued in a level of the given map resolves through the id
map to an order with that id, the level price, and the given side. -/
def levelsLinked (levels : List (Int × PriceLevel))
    (orders : List (Nat × Order)) (s : Side) : Prop :=
  ∀ pl ∈ levels, ∀ oid ∈ pl.2.queue,
    (match findA orders oid with
     | some o => o.id = oid ∧ o.price = pl.1 ∧ o.side = s
     | none => False)

/-- Cached counts agree with the queues and queues hold no duplicate
ids. -/
def levelsCounted (levels : List (Int × PriceLevel)) : Prop :=
  ∀ pl ∈ levels, pl.2.order_count = pl.2.queue.length ∧ pl.2.queue.Nodup

/-- The cached best price of one side is present exactly when some
level of that side is non-empty and then bounds every non-empty level
with the side's extremal order (max for bids, min for asks). -/
def bestBidOK (b : OrderBook) : Prop :=
  (b.has_best_bid = true ↔ ∃ pl ∈ b.buy_levels, pl.2.is_empty = false) ∧
  (b.has_best_bid = true →
    (∃ pl ∈ b.buy_levels, pl.2.is_empty = false ∧ pl.1 = b.best_bid) ∧
    ∀ pl ∈ b.buy_levels, pl.2.is_empty = false → pl.1 ≤ b.best_bid)

def bestAskOK (b : OrderBook) : Prop :=
  (b.has_best_ask = true ↔ ∃ pl ∈ b.sell_levels, pl.2.is_empty = false) ∧
  (b.has_best_ask = true →
    (∃ pl ∈ b.sell_levels, pl.2.is_empty = false ∧ pl.1 = b.best_ask) ∧
    ∀ pl ∈ b.sell_levels, pl.2.is_empty = false → pl.1 ≥ b.best_ask)

/-- Full book invariant. -/
def wfBook (b : OrderBook) : Prop :=
  (keysA b.orders).Nodup ∧
  (keysA b.buy_levels).Nodup ∧
  (keysA b.sell_levels).Nodup ∧
  ordersLinked b ∧
  levelsLinked b.buy_levels b.orders Side.Buy ∧
  levelsLinked b.sell_levels b.orders Side.Sell ∧
  levelsCounted b.buy_levels ∧
  levelsCounted b.sell_levels ∧
  bestBidOK b ∧
  bestAskOK b

/-- One OrderBook mutator call, for quantifying over arbitrary call
sequences. -/
inductive BookOp where
  | addOp (o : Order)
  | removeOp (oid : Nat)
  | updateOp (oid : Nat) (old : Nat)
  | clearOp
deriving Repr

def applyBookOp (b : OrderBook) : BookOp → OrderBook
  | BookOp.addOp o => (b.add_order o).2
  | BookOp.removeOp oid => (b.remove_order oid).2
  | BookOp.updateOp oid old => b.update_order_quantity oid old
  | BookOp.clearOp => b.clear

def applyBookOps (b : OrderBook) (ops : List BookOp) : OrderBook :=
  ops.foldl applyBookOp b

/-! Helper observations used in claim statements. -/

/-- Sum of the trade quantities of a result. -/
def sumQty (ts : List Trade) : Nat := (ts.map Trade.quantity).sum

/-- Remaining quantity of the incoming order when the matching loop of
process_add_order stops (the pipeline of matching_engine.cpp lines
114-125 up to but not including the residual policy). -/
def addFinalRemaining (book : OrderBook) (o : Order) (ts : Nat) : Nat :=
  if crossesBook book o then
    (MatchingEngine.match_order book o ts).2.1.remaining_quantity
  else o.remaining_quantity

/-- Maker ids of the trades executed at one price, in emission order. -/
def makerIdsAt (p : Int) (ts : List Trade) : List Nat :=
  (ts.filter (fun t => t.price = p)).map Trade.maker_id

/-- Resting queue (head first) at one ask price. -/
def askQueueAt (b : OrderBook) (p : Int) : List Nat :=
  match findA b.sell_levels p with
  | some l => l.queue
  | none => []

/-- Resting queue (head first) at one bid price. -/
def bidQueueAt (b : OrderBook) (p : Int) : List Nat :=
  match findA b.buy_levels p with
  | some l => l.queue
  | none => []

/-! Concrete scenario states used by the counterexample and failing
input theorems (raw prices use the 1e6 scale of the sources). -/

def demoEngine : MatchingEngine := MatchingEngine.new 100 100

def addReqOf (o : Order) : OrderRequest := ⟨OrderRequest.Type.Add, o, 0⟩

/-- Scenario S5 of the spec: Sell id=7 @101.00 qty 100 rests. -/
def s5Setup : MatchingEngine :=
  (demoEngine.process_add_order
    (addReqOf (Order.mk7 7 1 101000000 100 Side.Sell OrderType.Limit 0)) 0).2

/-- Scenario S5 incoming order: Buy FOK id=8 @101.00 qty 500. -/
def s5FokOrder : Order :=
  { Order.mk7 8 1 101000000 500 Side.Buy OrderType.Limit 1 with fok := true }

def s5Run : MatchResult × MatchingEngine :=
  s5Setup.process_add_order (addReqOf s5FokOrder) 1

/-- Duplicate-id input: Buy id=1 rests, then a second Add with id=1 at
a non-crossing price. -/
def dupSetup : MatchingEngine :=
  (demoEngine.process_add_order
    (addReqOf (Order.mk7 1 1 100000000 10 Side.Buy OrderType.Limit 0)) 0).2

def dupOrder : Order := Order.mk7 1 1 90000000 5 Side.Buy OrderType.Limit 1

def dupRun : MatchResult × MatchingEngine :=
  dupSetup.process_add_order (addReqOf dupOrder) 1

/-- IOC order with no opposing liquidity: Buy IOC id=1 on a fresh book. -/
def iocNoFillOrder : Order :=
  { Order.mk7 1 1 100000000 10 Side.Buy OrderType.Limit 0 with ioc := true }

def iocNoFillRun : MatchResult × MatchingEngine :=
  demoEngine.process_add_order (addReqOf iocNoFillOrder) 0

/-- Egress saturated: usable egress capacity 1, already holding one
result, with one Add request queued on ingress. -/
def egressFullEngine : MatchingEngine :=
  { MatchingEngine.new 100 1 with
    output_buffer := [⟨MatchResult.Status.Added, 99, []⟩],
    input_buffer :=
      [addReqOf (Order.mk7 1 1 100000000 10 Side.Buy OrderType.Limit 0)] }

def egressFullRun : MatchingEngine := egressFullEngine.process_orders 0

/-- Book with a single resting sell, used as a well-formed witness
book: Sell id=7 @101.00 qty 100. -/
def wfWitnessBook : OrderBook :=
  (OrderBook.new 1).add_order
    (Order.mk7 7 1 101000000 100 Side.Sell OrderType.Limit 0) |>.2

/-- Book inside the engine after the S5 setup (the single resting
sell). -/
def s5SetupBook : OrderBook := (s5Setup.get_or_create_book 1).1

/-- Plain-limit variant of the S5 incoming order (id=8, Buy 500 at
101.00, no TIF flags), used as a conservation witness. -/
def s5PlainOrder : Order := Order.mk7 8 1 101000000 500 Side.Buy OrderType.Limit 1

/-- Cancel for an id and symbol the engine has never seen. -/
def cancelUnknownReq : OrderRequest :=
  ⟨OrderRequest.Type.Cancel, Order.mk7 9999 42 0 0 Side.Buy OrderType.Limit 0, 0⟩

/-- Book state holding the first id=1 order of the duplicate scenario. -/
def dupBook : OrderBook :=
  ((OrderBook.new 1).add_order
    (Order.mk7 1 1 100000000 10 Side.Buy OrderType.Limit 0)).2

/-! Association-list lemmas shared by the proofs below. -/

theorem findA_setA_self [DecidableEq κ] (l : List (κ × α)) (k : κ) (a : α) :
    findA (setA l k a) k = some a := by
  induction l with
  | nil => simp [setA, findA]
  | cons hd tl ih =>
    by_cases h : hd.1 = k
    · simp [setA, h, findA]
    · simp [setA, h, findA, ih]

theorem findA_setA_ne [DecidableEq κ] (l : List (κ × α)) (k k' : κ) (a : α)
    (h : k' ≠ k) : findA (setA l k a) k' = findA l k' := by
  induction l with
  | nil => simp [setA, findA, Ne.symm h]
  | cons hd tl ih =>
    by_cases hh : hd.1 = k
    · subst hh
      simp [setA, findA, Ne.symm h]
    · by_cases hh2 : hd.1 = k'
      · simp [setA, findA, hh, hh2, h]
      · simp [setA, findA, hh, hh2, ih]

theorem setA_eq_of_findA [DecidableEq κ] (l : List (κ × α)) (k : κ) (a : α)
    (h : findA l k = some a) : setA l k a = l := by
  induction l with
  | nil => simp [findA] at h
  | cons hd tl ih =>
    by_cases hh : hd.1 = k
    · simp only [findA, hh, if_pos] at h
      cases h
      obtain ⟨k1, a1⟩ := hd
      simp at hh
      simp [setA, hh]
    · simp only [findA, hh, if_neg, ne_eq, not_false_iff] at h
      simp [setA, hh, ih h]

theorem length_setA_none [DecidableEq κ] (l : List (κ × α)) (k : κ) (a : α)
    (h : findA l k = none) : (setA l k a).length = l.length + 1 := by
  induction l with
  | nil => simp [setA]
  | cons hd tl ih =>
    by_cases hh : hd.1 = k
    · simp [findA, hh] at h
    · simp only [findA, hh, if_neg, ne_eq, not_false_iff] at h
      simp [setA, hh, ih h]

theorem length_setA_some [DecidableEq κ] (l : List (κ × α)) (k : κ) (a b : α)
    (h : findA l k = some b) : (setA l k a).length = l.length := by
  induction l with
  | nil => simp [findA] at h
  | cons hd tl ih =>
    by_cases hh : hd.1 = k
    · simp [setA, hh]
    · simp only [findA, hh, if_neg, ne_eq, not_false_iff] at h
      simp [setA, hh, ih h]

theorem findA_eraseA_ne [DecidableEq κ] (l : List (κ × α)) (k k' : κ)
    (h : k' ≠ k) : findA (eraseA l k) k' = findA l k' := by
  induction l with
  | nil => simp [eraseA]
  | cons hd tl ih =>
    by_cases hh : hd.1 = k
    · subst hh
      simp [eraseA, findA, Ne.symm h]
    · by_cases hh2 : hd.1 = k'
      · simp [eraseA, findA, hh, hh2, h]
      · simp [eraseA, findA, hh, hh2, ih]

theorem findA_eraseA_none [DecidableEq κ] (l : List (κ × α)) (k k' : κ)
    (h : findA l k' = none) : findA (eraseA l k) k' = none := by
  induction l with
  | nil => simp [eraseA, findA]
  | cons hd tl ih =>
    by_cases hh : hd.1 = k
    · by_cases hh2 : hd.1 = k'
      · simp [findA, hh2] at h
      · simp only [findA, hh2, if_neg, ne_eq, not_false_iff] at h
        simp [eraseA, hh, h]
    · by_cases hh2 : hd.1 = k'
      · simp [findA, hh2] at h
      · simp only [findA, hh2, if_neg, ne_eq, not_false_iff] at h
        simp [eraseA, findA, hh, hh2, ih h]

theorem findA_none_of_not_mem_keys [DecidableEq κ] (l : List (κ × α)) (k : κ)
    (h : k ∉ keysA l) : findA l k = none := by
  induction l with
  | nil => simp [findA]
  | cons hd tl ih =>
    simp only [keysA, List.map_cons, List.mem_cons, not_or] at h
    have : hd.1 ≠ k := fun he => h.1 he.symm
    simpa [findA, this] using ih (by simpa [keysA] using h.2)

theorem not_mem_keysA_of_findA_none [DecidableEq κ] (l : List (κ × α)) (k : κ)
    (h : findA l k = none) : k ∉ keysA l := by
  induction l with
  | nil => simp [keysA]
  | cons hd tl ih =>
    by_cases hh : hd.1 = k
    · simp [findA, hh] at h
    · simp only [findA, hh, if_neg, ne_eq, not_false_iff] at h
      simp only [keysA, List.map_cons, List.mem_cons, not_or]
      exact ⟨fun he => hh he.symm, by simpa [keysA] using ih h⟩

theorem findA_eraseA_self [DecidableEq κ] (l : List (κ × α)) (k : κ)
    (hnd : (keysA l).Nodup) : findA (eraseA l k) k = none := by
  induction l with
  | nil => simp [eraseA, findA]
  | cons hd tl ih =>
    simp only [keysA, List.map_cons, List.nodup_cons] at hnd
    by_cases hh : hd.1 = k
    · subst hh
      have he : eraseA (hd :: tl) hd.1 = tl := by simp [eraseA]
      rw [he]
      exact findA_none_of_not_mem_keys tl hd.1 hnd.1
    · simpa [eraseA, findA, hh] using ih hnd.2

theorem mem_of_findA_eq_some [DecidableEq κ] (l : List (κ × α)) (k : κ) (a : α)
    (h : findA l k = some a) : (k, a) ∈ l := by
  induction l with
  | nil => simp [findA] at h
  | cons hd tl ih =>
    obtain ⟨k1, a1⟩ := hd
    by_cases hh : k1 = k
    · subst hh
      simp only [findA, if_pos] at h
      cases h
      exact List.mem_cons_self _ _
    · simp only [findA, hh, if_neg, ne_eq, not_false_iff] at h
      exact List.mem_cons_of_mem _ (ih h)

theorem findA_eq_some_of_mem [DecidableEq κ] (l : List (κ × α)) (k : κ) (a : α)
    (hnd : (keysA l).Nodup) (hm : (k, a) ∈ l) : findA l k = some a := by
  induction l with
  | nil => simp at hm
  | cons hd tl ih =>
    simp only [keysA, List.map_cons, List.nodup_cons] at hnd
    rcases List.mem_cons.mp hm with he | hm2
    · subst he
      simp [findA]
    · have hne : hd.1 ≠ k := by
        intro he
        exact hnd.1 (he ▸ List.mem_map_of_mem Prod.fst hm2)
      simp [findA, hne, ih hnd.2 hm2]

theorem keysA_setA_some [DecidableEq κ] (l : List (κ × α)) (k : κ) (a b : α)
    (h : findA l k = some b) : keysA (setA l k a) = keysA l := by
  induction l with
  | nil => simp [findA] at h
  | cons hd tl ih =>
    by_cases hh : hd.1 = k
    · simp [setA, hh, keysA]
    · simp only [findA, hh, if_neg, ne_eq, not_false_iff] at h
      simp [setA, hh, keysA] at ih ⊢
      exact ih h

theorem keysA_setA_none [DecidableEq κ] (l : List (κ × α)) (k : κ) (a : α)
    (h : findA l k = none) : keysA (setA l k a) = keysA l ++ [k] := by
  induction l with
  | nil => simp [setA, keysA]
  | cons hd tl ih =>
    by_cases hh : hd.1 = k
    · simp [findA, hh] at h
    · simp only [findA, hh, if_neg, ne_eq, not_false_iff] at h
      simp [setA, hh, keysA] at ih ⊢
      exact ih h

theorem nodup_keysA_setA [DecidableEq κ] (l : List (κ × α)) (k : κ) (a : α)
    (hnd : (keysA l).Nodup) : (keysA (setA l k a)).Nodup := by
  cases hfa : findA l k with
  | some b =>
    rw [keysA_setA_some l k a b hfa]
    exact hnd
  | none =>
    rw [keysA_setA_none l k a hfa]
    have hk : k ∉ keysA l := not_mem_keysA_of_findA_none l k hfa
    simp [List.nodup_append, hnd, hk]

theorem keysA_eraseA_sublist [DecidableEq κ] (l : List (κ × α)) (k : κ) :
    List.Sublist (keysA (eraseA l k)) (keysA l) := by
  induction l with
  | nil => simp [eraseA, keysA]
  | cons hd tl ih =>
    by_cases hh : hd.1 = k
    · simp only [eraseA, hh, if_pos, keysA, List.map_cons]
      exact List.sublist_cons_of_sublist _ (List.Sublist.refl _)
    · simp only [eraseA, hh, if_neg, ne_eq, not_false_iff, keysA, List.map_cons]
      exact List.Sublist.cons₂ _ ih

theorem nodup_keysA_eraseA [DecidableEq κ] (l : List (κ × α)) (k : κ)
    (hnd : (keysA l).Nodup) : (keysA (eraseA l k)).Nodup := by
  exact hnd.sublist (keysA_eraseA_sublist l k)

theorem length_eraseA_some [DecidableEq κ] (l : List (κ × α)) (k : κ) (b : α)
    (h : findA l k = some b) : l.length = (eraseA l k).length + 1 := by
  induction l with
  | nil => simp [findA] at h
  | cons hd tl ih =>
    by_cases hh : hd.1 = k
    · simp [eraseA, hh]
    · simp only [findA, hh, if_neg, ne_eq, not_false_iff] at h
      simp [eraseA, hh, ih h]

/-! Structural facts about which fields each book operation touches. -/

theorem write_order_orders (b : OrderBook) (i : Nat) (o : Order) :
    (b.write_order i o).orders = setA b.orders i o := rfl

theorem update_best_bid_orders (b : OrderBook) :
    b.update_best_bid.orders = b.orders := rfl

theorem update_best_ask_orders (b : OrderBook) :
    b.update_best_ask.orders = b.orders := rfl

theorem update_order_quantity_orders (b : OrderBook) (i : Nat)
    (old : Nat) : (b.update_order_quantity i old).orders = b.orders := by
  unfold OrderBook.update_order_quantity
  cases hfa : findA b.orders i with
  | none => rfl
  | some o =>
    by_cases hb : o.is_buy
    · simp [hb]
    · simp [hb]

theorem remove_order_of_none (b : OrderBook) (i : Nat)
    (h : findA b.orders i = none) : b.remove_order i = (false, b) := by
  unfold OrderBook.remove_order
  rw [h]

theorem remove_order_orders_some (b : OrderBook) (i : Nat) (o : Order)
    (h : findA b.orders i = some o) :
    (b.remove_order i).2.orders = eraseA b.orders i := by
  unfold OrderBook.remove_order
  simp only [h]
  dsimp only
  split <;> first
  | rfl
  | (split <;> first
      | rfl
      | (split <;> rfl))

/-- Matching never introduces a new order id into the book: the buy
loop only rewrites and erases existing entries. -/
theorem matchBuyFuel_no_new_id (ts : Nat) (fuel : Nat)
    (book : OrderBook) (o : Order) (i : Nat)
    (h : findA book.orders i = none) :
    findA (matchBuyFuel ts fuel book o).1.orders i = none := by
  induction fuel generalizing book o with
  | zero => simpa [matchBuyFuel] using h
  | succ n ih =>
    rw [matchBuyFuel]
    dsimp only
    split
    case isFalse => simpa using h
    case isTrue =>
      split
      case isFalse => simpa using h
      case isTrue =>
        split
        case h_1 => simpa using h
        case h_2 level hlevel =>
          split
          case isTrue => simpa using h
          case isFalse =>
            split
            case h_1 => simpa using h
            case h_2 sid hsid =>
              split
              case h_1 => simpa using h
              case h_2 sell_order hsell =>
                simp only []
                apply ih
                have hne : i ≠ sid := by
                  intro he
                  have hg : findA book.orders sid = some sell_order := hsell
                  rw [he, hg] at h
                  cases h
                have h2 : findA (book.write_order sid (sell_order.fill
                    (min o.remaining_quantity sell_order.remaining_quantity))).orders i
                    = none := by
                  rw [write_order_orders, findA_setA_ne _ _ _ _ hne]
                  exact h
                split
                · rw [remove_order_orders_some _ sid
                    (sell_order.fill (min o.remaining_quantity
                      sell_order.remaining_quantity)) (by
                        rw [write_order_orders]
                        exact findA_setA_self _ _ _)]
                  exact findA_eraseA_none _ _ _ h2
                · rw [update_order_quantity_orders]
                  exact h2

/-- Mirror fact for the sell loop. -/
theorem matchSellFuel_no_new_id (ts : Nat) (fuel : Nat)
    (book : OrderBook) (o : Order) (i : Nat)
    (h : findA book.orders i = none) :
    findA (matchSellFuel ts fuel book o).1.orders i = none := by
  induction fuel generalizing book o with
  | zero => simpa [matchSellFuel] using h
  | succ n ih =>
    rw [matchSellFuel]
    dsimp only
    split
    case isFalse => simpa using h
    case isTrue =>
      split
      case isFalse => simpa using h
      case isTrue =>
        split
        case h_1 => simpa using h
        case h_2 level hlevel =>
          split
          case isTrue => simpa using h
          case isFalse =>
            split
            case h_1 => simpa using h
            case h_2 bid hbid =>
              split
              case h_1 => simpa using h
              case h_2 buy_order hbuy =>
                simp only []
                apply ih
                have hne : i ≠ bid := by
                  intro he
                  have hg : findA book.orders bid = some buy_order := hbuy
                  rw [he, hg] at h
                  cases h
                have h2 : findA (book.write_order bid (buy_order.fill
                    (min o.remaining_quantity buy_order.remaining_quantity))).orders i
                    = none := by
                  rw [write_order_orders, findA_setA_ne _ _ _ _ hne]
                  exact h
                split
                · rw [remove_order_orders_some _ bid
                    (buy_order.fill (min o.remaining_quantity
                      buy_order.remaining_quantity)) (by
                        rw [write_order_orders]
                        exact findA_setA_self _ _ _)]
                  exact findA_eraseA_none _ _ _ h2
                · rw [update_order_quantity_orders]
                  exact h2

theorem match_order_no_new_id (book : OrderBook) (o : Order) (ts : Nat)
    (i : Nat) (h : findA book.orders i = none) :
    findA (MatchingEngine.match_order book o ts).1.orders i = none := by
  unfold MatchingEngine.match_order MatchingEngine.match_buy_order
    MatchingEngine.match_sell_order
  split
  · exact matchBuyFuel_no_new_id _ _ _ _ _ h
  · exact matchSellFuel_no_new_id _ _ _ _ _ h

/-- Resolution of get_or_create_book when the book exists. -/
theorem get_or_create_book_of_some (e : MatchingEngine) (s : Nat)
    (b : OrderBook) (h : findA e.order_books s = some b) :
    e.get_or_create_book s = (b, e) := by
  unfold MatchingEngine.get_or_create_book
  rw [h]

/-- Resolution of get_or_create_book when the book is created. -/
theorem get_or_create_book_of_none (e : MatchingEngine) (s : Nat)
    (h : findA e.order_books s = none) :
    e.get_or_create_book s = (OrderBook.new s,
      { e with order_books := setA e.order_books s (OrderBook.new s) }) := by
  unfold MatchingEngine.get_or_create_book
  rw [h]

/-- Matching mutates the incoming order only through fill: the final
incoming order is the original with an updated remaining quantity. -/
theorem matchBuyFuel_incoming_eq (ts : Nat) (fuel : Nat)
    (book : OrderBook) (o : Order) :
    (matchBuyFuel ts fuel book o).2.1 =
      { o with remaining_quantity :=
          (matchBuyFuel ts fuel book o).2.1.remaining_quantity } := by
  induction fuel generalizing book o with
  | zero => rfl
  | succ n ih =>
    rw [matchBuyFuel]
    dsimp only
    split
    case isFalse => rfl
    case isTrue =>
      split
      case isFalse => rfl
      case isTrue =>
        split
        case h_1 => rfl
        case h_2 level hlevel =>
          split
          case isTrue => rfl
          case isFalse =>
            split
            case h_1 => rfl
            case h_2 sid hsid =>
              split
              case h_1 => rfl
              case h_2 sell_order hsell =>
                exact ih _ _

/-- Mirror fact for the sell loop. -/
theorem matchSellFuel_incoming_eq (ts : Nat) (fuel : Nat)
    (book : OrderBook) (o : Order) :
    (matchSellFuel ts fuel book o).2.1 =
      { o with remaining_quantity :=
          (matchSellFuel ts fuel book o).2.1.remaining_quantity } := by
  induction fuel generalizing book o with
  | zero => rfl
  | succ n ih =>
    rw [matchSellFuel]
    dsimp only
    split
    case isFalse => rfl
    case isTrue =>
      split
      case isFalse => rfl
      case isTrue =>
        split
        case h_1 => rfl
        case h_2 level hlevel =>
          split
          case isTrue => rfl
          case isFalse =>
            split
            case h_1 => rfl
            case h_2 bid hbid =>
              split
              case h_1 => rfl
              case h_2 buy_order hbuy =>
                exact ih _ _

theorem match_order_incoming_eq (book : OrderBook) (o : Order)
    (ts : Nat) :
    (MatchingEngine.match_order book o ts).2.1 =
      { o with remaining_quantity :=
          (MatchingEngine.match_order book o ts).2.1.remaining_quantity } := by
  unfold MatchingEngine.match_order MatchingEngine.match_buy_order
    MatchingEngine.match_sell_order
  split
  · exact matchBuyFuel_incoming_eq _ _ _ _
  · exact matchSellFuel_incoming_eq _ _ _ _

/-- Core behavior of an IOC Add (matching_engine.cpp lines 104-138):
no rest, Matched exactly when some trade was emitted, Added otherwise. -/
theorem process_add_ioc_spec (e e1 : MatchingEngine) (req : OrderRequest)
    (ts : Nat) (book : OrderBook)
    (hbe : e.get_or_create_book req.order.symbol = (book, e1))
    (hnz : ¬ e1.available = 0)
    (hioc : req.order.is_ioc = true)
    (hfok : req.order.is_fok = false)
    (hnone : findA book.orders req.order.id = none) :
    ((e.process_add_order req ts).1.trades = [] →
      (e.process_add_order req ts).1.status = MatchResult.Status.Added) ∧
    ((e.process_add_order req ts).1.trades ≠ [] →
      (e.process_add_order req ts).1.status = MatchResult.Status.Matched) ∧
    (∀ book2, (e.process_add_order req ts).2.get_order_book
        req.order.symbol = some book2 →
      findA book2.orders req.order.id = none) := by
  simp only [Order.is_ioc] at hioc
  simp only [Order.is_fok] at hfok
  unfold MatchingEngine.process_add_order
  dsimp only
  rw [hbe]
  dsimp only
  rw [if_neg hnz]
  cases hcr : crossesBook book req.order with
  | false =>
    simp only [hcr, Bool.false_eq_true, if_false, Order.is_ioc, Order.is_fok,
      hioc, hfok, Bool.not_true, Bool.not_false, Bool.and_false, Bool.false_and,
      Bool.and_true, Bool.true_and, Bool.or_true, if_true]
    refine ⟨?_, ?_, ?_⟩
    · intro _
      rfl
    · intro ht
      exact absurd rfl ht
    · intro book2 hb2
      simp only [MatchingEngine.get_order_book, MatchingEngine.set_book] at hb2
      rw [findA_setA_self] at hb2
      cases hb2
      exact hnone
  | true =>
    have hq := match_order_incoming_eq book req.order ts
    simp only [hcr, if_true]
    rw [hq]
    simp only [Order.is_ioc, Order.is_fok, hioc, hfok, Bool.not_true,
      Bool.not_false, Bool.and_false, Bool.false_and, Bool.and_true,
      Bool.true_and, Bool.or_true, Bool.false_eq_true, if_false, if_true]
    refine ⟨?_, ?_, ?_⟩
    · intro ht
      simp only [ht, List.isEmpty_nil, if_true]
    · intro ht
      cases hemp : (MatchingEngine.match_order book req.order ts).2.2.1 with
      | nil => exact absurd hemp ht
      | cons a l => simp [hemp]
    · intro book2 hb2
      simp only [MatchingEngine.get_order_book, MatchingEngine.set_book] at hb2
      rw [findA_setA_self] at hb2
      cases hb2
      exact match_order_no_new_id book req.order ts _ hnone

/-- Nat monotonicity of the buy loop. -/
theorem matchBuyFuel_remaining_le (ts : Nat) (fuel : Nat)
    (book : OrderBook) (o : Order) :
    (matchBuyFuel ts fuel book o).2.1.remaining_quantity ≤
      o.remaining_quantity := by
  induction fuel generalizing book o with
  | zero => exact le_refl _
  | succ n ih =>
    rw [matchBuyFuel]
    dsimp only
    split
    case isFalse => exact le_refl _
    case isTrue =>
      split
      case isFalse => exact le_refl _
      case isTrue =>
        split
        case h_1 => exact le_refl _
        case h_2 level hlevel =>
          split
          case isTrue => exact le_refl _
          case isFalse =>
            split
            case h_1 => exact le_refl _
            case h_2 sid hsid =>
              split
              case h_1 => exact le_refl _
              case h_2 sell_order hsell =>
                refine le_trans (ih _ _) ?_
                simp only [Order.fill]
                exact Nat.sub_le _ _

/-- Nat monotonicity of the sell loop. -/
theorem matchSellFuel_remaining_le (ts : Nat) (fuel : Nat)
    (book : OrderBook) (o : Order) :
    (matchSellFuel ts fuel book o).2.1.remaining_quantity ≤
      o.remaining_quantity := by
  induction fuel generalizing book o with
  | zero => exact le_refl _
  | succ n ih =>
    rw [matchSellFuel]
    dsimp only
    split
    case isFalse => exact le_refl _
    case isTrue =>
      split
      case isFalse => exact le_refl _
      case isTrue =>
        split
        case h_1 => exact le_refl _
        case h_2 level hlevel =>
          split
          case isTrue => exact le_refl _
          case isFalse =>
            split
            case h_1 => exact le_refl _
            case h_2 bid hbid =>
              split
              case h_1 => exact le_refl _
              case h_2 buy_order hbuy =>
                refine le_trans (ih _ _) ?_
                simp only [Order.fill]
                exact Nat.sub_le _ _

/-- Conservation for the buy loop: the trade quantities it emits sum to
the decrease of the incoming order's remaining quantity. -/
theorem matchBuyFuel_qty_conservation (ts : Nat) (fuel : Nat)
    (book : OrderBook) (o : Order) :
    sumQty (matchBuyFuel ts fuel book o).2.2.1 =
      o.remaining_quantity -
        (matchBuyFuel ts fuel book o).2.1.remaining_quantity := by
  induction fuel generalizing book o with
  | zero => simp [matchBuyFuel, sumQty]
  | succ n ih =>
    rw [matchBuyFuel]
    dsimp only
    split
    case isFalse => simp [sumQty]
    case isTrue =>
      split
      case isFalse => simp [sumQty]
      case isTrue =>
        split
        case h_1 => simp [sumQty]
        case h_2 level hlevel =>
          split
          case isTrue => simp [sumQty]
          case isFalse =>
            split
            case h_1 => simp [sumQty]
            case h_2 sid hsid =>
              split
              case h_1 => simp [sumQty]
              case h_2 sell_order hsell =>
                simp only [sumQty, List.map_cons, List.sum_cons]
                have hfr : ∀ (p : Order) (q : Nat),
                    (p.fill q).remaining_quantity = p.remaining_quantity - q :=
                  fun _ _ => rfl
                rcases le_total o.remaining_quantity
                    sell_order.remaining_quantity with hmin | hmin
                · rw [min_eq_left hmin]
                  have main : ∀ b2 : OrderBook,
                      o.remaining_quantity +
                        (List.map Trade.quantity (matchBuyFuel ts n b2
                          (o.fill o.remaining_quantity)).2.2.1).sum =
                      o.remaining_quantity - (matchBuyFuel ts n b2
                        (o.fill o.remaining_quantity)).2.1.remaining_quantity := by
                    intro b2
                    have hihx := ih b2 (o.fill o.remaining_quantity)
                    have hle := matchBuyFuel_remaining_le ts n b2
                      (o.fill o.remaining_quantity)
                    simp only [sumQty] at hihx
                    rw [hfr] at hihx hle
                    revert hihx hle
                    generalize (List.map Trade.quantity (matchBuyFuel ts n b2
                      (o.fill o.remaining_quantity)).2.2.1).sum = S
                    generalize (matchBuyFuel ts n b2
                      (o.fill o.remaining_quantity)).2.1.remaining_quantity = r
                    intro hihx hle
                    omega
                  exact main _
                · rw [min_eq_right hmin]
                  have main : ∀ b2 : OrderBook,
                      sell_order.remaining_quantity +
                        (List.map Trade.quantity (matchBuyFuel ts n b2
                          (o.fill sell_order.remaining_quantity)).2.2.1).sum =
                      o.remaining_quantity - (matchBuyFuel ts n b2
                        (o.fill sell_order.remaining_quantity)).2.1.remaining_quantity := by
                    intro b2
                    have hihx := ih b2 (o.fill sell_order.remaining_quantity)
                    have hle := matchBuyFuel_remaining_le ts n b2
                      (o.fill sell_order.remaining_quantity)
                    simp only [sumQty] at hihx
                    rw [hfr] at hihx hle
                    revert hihx hle
                    generalize (List.map Trade.quantity (matchBuyFuel ts n b2
                      (o.fill sell_order.remaining_quantity)).2.2.1).sum = S
                    generalize (matchBuyFuel ts n b2
                      (o.fill sell_order.remaining_quantity)).2.1.remaining_quantity = r
                    intro hihx hle
                    omega
                  exact main _

/-- Conservation for the sell loop. -/
theorem matchSellFuel_qty_conservation (ts : Nat) (fuel : Nat)
    (book : OrderBook) (o : Order) :
    sumQty (matchSellFuel ts fuel book o).2.2.1 =
      o.remaining_quantity -
        (matchSellFuel ts fuel book o).2.1.remaining_quantity := by
  induction fuel generalizing book o with
  | zero => simp [matchSellFuel, sumQty]
  | succ n ih =>
    rw [matchSellFuel]
    dsimp only
    split
    case isFalse => simp [sumQty]
    case isTrue =>
      split
      case isFalse => simp [sumQty]
      case isTrue =>
        split
        case h_1 => simp [sumQty]
        case h_2 level hlevel =>
          split
          case isTrue => simp [sumQty]
          case isFalse =>
            split
            case h_1 => simp [sumQty]
            case h_2 bid hbid =>
              split
              case h_1 => simp [sumQty]
              case h_2 buy_order hbuy =>
                simp only [sumQty, List.map_cons, List.sum_cons]
                have hfr : ∀ (p : Order) (q : Nat),
                    (p.fill q).remaining_quantity = p.remaining_quantity - q :=
                  fun _ _ => rfl
                rcases le_total o.remaining_quantity
                    buy_order.remaining_quantity with hmin | hmin
                · rw [min_eq_left hmin]
                  have main : ∀ b2 : OrderBook,
                      o.remaining_quantity +
                        (List.map Trade.quantity (matchSellFuel ts n b2
                          (o.fill o.remaining_quantity)).2.2.1).sum =
                      o.remaining_quantity - (matchSellFuel ts n b2
                        (o.fill o.remaining_quantity)).2.1.remaining_quantity := by
                    intro b2
                    have hihx := ih b2 (o.fill o.remaining_quantity)
                    have hle := matchSellFuel_remaining_le ts n b2
                      (o.fill o.remaining_quantity)
                    simp only [sumQty] at hihx
                    rw [hfr] at hihx hle
                    revert hihx hle
                    generalize (List.map Trade.quantity (matchSellFuel ts n b2
                      (o.fill o.remaining_quantity)).2.2.1).sum = S
                    generalize (matchSellFuel ts n b2
                      (o.fill o.remaining_quantity)).2.1.remaining_quantity = r
                    intro hihx hle
                    omega
                  exact main _
                · rw [min_eq_right hmin]
                  have main : ∀ b2 : OrderBook,
                      buy_order.remaining_quantity +
                        (List.map Trade.quantity (matchSellFuel ts n b2
                          (o.fill buy_order.remaining_quantity)).2.2.1).sum =
                      o.remaining_quantity - (matchSellFuel ts n b2
                        (o.fill buy_order.remaining_quantity)).2.1.remaining_quantity := by
                    intro b2
                    have hihx := ih b2 (o.fill buy_order.remaining_quantity)
                    have hle := matchSellFuel_remaining_le ts n b2
                      (o.fill buy_order.remaining_quantity)
                    simp only [sumQty] at hihx
                    rw [hfr] at hihx hle
                    revert hihx hle
                    generalize (List.map Trade.quantity (matchSellFuel ts n b2
                      (o.fill buy_order.remaining_quantity)).2.2.1).sum = S
                    generalize (matchSellFuel ts n b2
                      (o.fill buy_order.remaining_quantity)).2.1.remaining_quantity = r
                    intro hihx hle
                    omega
                  exact main _

theorem match_order_qty_conservation (book : OrderBook) (o : Order)
    (ts : Nat) :
    sumQty (MatchingEngine.match_order book o ts).2.2.1 =
      o.remaining_quantity -
        (MatchingEngine.match_order book o ts).2.1.remaining_quantity := by
  unfold MatchingEngine.match_order MatchingEngine.match_buy_order
    MatchingEngine.match_sell_order
  split
  · exact matchBuyFuel_qty_conservation _ _ _ _
  · exact matchSellFuel_qty_conservation _ _ _ _

theorem match_order_remaining_le (book : OrderBook) (o : Order)
    (ts : Nat) :
    (MatchingEngine.match_order book o ts).2.1.remaining_quantity ≤
      o.remaining_quantity := by
  unfold MatchingEngine.match_order MatchingEngine.match_buy_order
    MatchingEngine.match_sell_order
  split
  · exact matchBuyFuel_remaining_le _ _ _ _
  · exact matchSellFuel_remaining_le _ _ _ _

/-- Core conservation behavior of process_add_order: unless a FOK
residual clears them, the returned trades sum to the filled portion. -/
theorem process_add_qty_spec (e e1 : MatchingEngine) (req : OrderRequest)
    (ts : Nat) (book : OrderBook)
    (hbe : e.get_or_create_book req.order.symbol = (book, e1))
    (hnz : ¬ e1.available = 0)
    (hq : req.order.remaining_quantity = req.order.quantity)
    (hfok : req.order.is_fok = true →
      addFinalRemaining book req.order ts = 0) :
    sumQty (e.process_add_order req ts).1.trades =
      req.order.quantity - addFinalRemaining book req.order ts := by
  simp only [Order.is_fok] at hfok
  unfold MatchingEngine.process_add_order
  dsimp only
  rw [hbe]
  dsimp only
  rw [if_neg hnz]
  cases hcr : crossesBook book req.order with
  | false =>
    unfold addFinalRemaining
    simp only [hcr, Bool.false_eq_true, if_false]
    rw [hq]
    split
    · simp [sumQty]
    · split
      · simp [sumQty]
      · split
        · simp [sumQty]
        · simp [sumQty]
  | true =>
    have hc := match_order_qty_conservation book req.order ts
    have hqeq := match_order_incoming_eq book req.order ts
    unfold addFinalRemaining
    simp only [hcr, if_true]
    rw [hqeq]
    dsimp only
    rw [hq] at hc
    cases hf : req.order.fok with
    | false =>
      simp only [Order.is_ioc, Order.is_fok, hf, Bool.not_false, Bool.and_true,
        Bool.and_false, Bool.false_and, Bool.false_eq_true, if_false]
      split
      · exact hc
      · split
        · exact hc
        · exact hc
    | true =>
      have hr0 : addFinalRemaining book req.order ts = 0 := hfok hf
      unfold addFinalRemaining at hr0
      simp only [hcr, if_true] at hr0
      simp only [Order.is_ioc, Order.is_fok, hf, hr0, Bool.not_true,
        Bool.and_false, Bool.false_eq_true, if_false, decide_False,
        Bool.and_true, Bool.false_and, gt_iff_lt, lt_self_iff_false,
        decide_True, Bool.true_or, Bool.or_true, if_true]
      simp only [hr0] at hc
      exact hc

/-! Membership characterizations for the association-list maps. -/

theorem mem_keysA_of_mem {κ α : Type} (l : List (κ × α)) (x : κ × α)
    (h : x ∈ l) : x.1 ∈ keysA l := List.mem_map_of_mem Prod.fst h

theorem mem_setA_iff [DecidableEq κ] (l : List (κ × α)) (k : κ) (a : α)
    (x : κ × α) (hnd : (keysA l).Nodup) :
    x ∈ setA l k a ↔ x = (k, a) ∨ (x ∈ l ∧ x.1 ≠ k) := by
  induction l with
  | nil => simp [setA]
  | cons hd tl ih =>
    simp only [keysA, List.map_cons, List.nodup_cons] at hnd
    by_cases hh : hd.1 = k
    · subst hh
      simp only [setA, if_pos, List.mem_cons]
      constructor
      · rintro (he | hm)
        · exact Or.inl he
        · refine Or.inr ⟨Or.inr hm, ?_⟩
          intro hx
          exact hnd.1 (hx ▸ mem_keysA_of_mem tl x hm)
      · rintro (he | ⟨hm, hne⟩)
        · exact Or.inl he
        · rcases hm with he2 | hm2
          · exact absurd (he2 ▸ rfl) hne
          · exact Or.inr hm2
    · simp only [setA, hh, if_neg, ne_eq, not_false_iff, List.mem_cons]
      rw [ih (by simpa [keysA] using hnd.2)]
      constructor
      · rintro (he | he | ⟨hm, hne⟩)
        · exact Or.inr ⟨Or.inl he, he ▸ hh⟩
        · exact Or.inl he
        · exact Or.inr ⟨Or.inr hm, hne⟩
      · rintro (he | ⟨hm, hne⟩)
        · exact Or.inr (Or.inl he)
        · rcases hm with he2 | hm2
          · exact Or.inl he2
          · exact Or.inr (Or.inr ⟨hm2, hne⟩)

theorem mem_eraseA_iff [DecidableEq κ] (l : List (κ × α)) (k : κ)
    (x : κ × α) (hnd : (keysA l).Nodup) :
    x ∈ eraseA l k ↔ x ∈ l ∧ x.1 ≠ k := by
  induction l with
  | nil => simp [eraseA]
  | cons hd tl ih =>
    simp only [keysA, List.map_cons, List.nodup_cons] at hnd
    by_cases hh : hd.1 = k
    · subst hh
      simp only [eraseA, if_pos, List.mem_cons]
      constructor
      · intro hm
        refine ⟨Or.inr hm, ?_⟩
        intro hx
        exact hnd.1 (hx ▸ mem_keysA_of_mem tl x hm)
      · rintro ⟨he | hm, hne⟩
        · exact absurd (he ▸ rfl) hne
        · exact hm
    · simp only [eraseA, hh, if_neg, ne_eq, not_false_iff, List.mem_cons]
      rw [ih (by simpa [keysA] using hnd.2)]
      constructor
      · rintro (he | ⟨hm, hne⟩)
        · exact ⟨Or.inl he, he ▸ hh⟩
        · exact ⟨Or.inr hm, hne⟩
      · rintro ⟨he | hm, hne⟩
        · exact Or.inl he
        · exact Or.inr ⟨hm, hne⟩

theorem ordersLinked_iff (b : OrderBook) :
    ordersLinked b ↔ ∀ p ∈ b.orders, p.2.id = p.1 ∧
      ∃ l, findA (sideLevels b p.2.side) p.2.price = some l ∧
        p.1 ∈ l.queue := by
  unfold ordersLinked
  refine forall_congr' fun p => forall_congr' fun hp =>
    and_congr_right fun _ => ?_
  split
  next l heq => simp [heq]
  next heq => simp [heq]

theorem levelsLinked_iff (levels : List (Int × PriceLevel))
    (orders : List (Nat × Order)) (s : Side) :
    levelsLinked levels orders s ↔ ∀ pl ∈ levels, ∀ oid ∈ pl.2.queue,
      ∃ o, findA orders oid = some o ∧ o.id = oid ∧ o.price = pl.1 ∧
        o.side = s := by
  unfold levelsLinked
  refine forall_congr' fun pl => forall_congr' fun hpl =>
    forall_congr' fun oid => forall_congr' fun hoid => ?_
  split
  next o heq => simp [heq]
  next heq => simp [heq]

theorem sideLevels_buy (b : OrderBook) : sideLevels b Side.Buy = b.buy_levels := rfl

theorem sideLevels_sell (b : OrderBook) : sideLevels b Side.Sell = b.sell_levels := rfl

/-! Specification of the best-price rescan folds. -/

theorem update_best_bid_go_spec (levels : List (Int × PriceLevel))
    (acc : Int × Bool) :
    ((levels.foldl (fun (acc : Int × Bool) pl =>
      if !pl.2.is_empty then
        (if !acc.2 || pl.1 > acc.1 then (pl.1, true) else acc)
      else acc) acc).2 = true ↔
      (acc.2 = true ∨ ∃ pl ∈ levels, pl.2.is_empty = false)) ∧
    ((levels.foldl (fun (acc : Int × Bool) pl =>
      if !pl.2.is_empty then
        (if !acc.2 || pl.1 > acc.1 then (pl.1, true) else acc)
      else acc) acc).2 = true →
      (((levels.foldl (fun (acc : Int × Bool) pl =>
        if !pl.2.is_empty then
          (if !acc.2 || pl.1 > acc.1 then (pl.1, true) else acc)
        else acc) acc).1 = acc.1 ∧ acc.2 = true) ∨
        ∃ pl ∈ levels, pl.2.is_empty = false ∧
          (levels.foldl (fun (acc : Int × Bool) pl =>
            if !pl.2.is_empty then
              (if !acc.2 || pl.1 > acc.1 then (pl.1, true) else acc)
            else acc) acc).1 = pl.1)) ∧
    (acc.2 = true → acc.1 ≤ (levels.foldl (fun (acc : Int × Bool) pl =>
      if !pl.2.is_empty then
        (if !acc.2 || pl.1 > acc.1 then (pl.1, true) else acc)
      else acc) acc).1) ∧
    (∀ pl ∈ levels, pl.2.is_empty = false →
      pl.1 ≤ (levels.foldl (fun (acc : Int × Bool) pl =>
        if !pl.2.is_empty then
          (if !acc.2 || pl.1 > acc.1 then (pl.1, true) else acc)
        else acc) acc).1) := by
  induction levels generalizing acc with
  | nil => simp
  | cons hd tl ih =>
    simp only [List.foldl_cons, List.mem_cons]
    by_cases hemp : hd.2.is_empty = true
    · simp only [hemp, Bool.not_true, Bool.false_eq_true, if_false]
      obtain ⟨i1, i2, i3, i4⟩ := ih acc
      refine ⟨?_, ?_, i3, ?_⟩
      · rw [i1]
        constructor
        · rintro (ha | ⟨pl, hm, hp⟩)
          · exact Or.inl ha
          · exact Or.inr ⟨pl, Or.inr hm, hp⟩
        · rintro (ha | ⟨pl, (he | hm), hp⟩)
          · exact Or.inl ha
          · rw [he] at hp
            rw [hp] at hemp
            cases hemp
          · exact Or.inr ⟨pl, hm, hp⟩
      · intro hr
        rcases i2 hr with hl | ⟨pl, hm, hp⟩
        · exact Or.inl hl
        · exact Or.inr ⟨pl, Or.inr hm, hp⟩
      · rintro pl (he | hm) hp
        · rw [he] at hp
          rw [hp] at hemp
          cases hemp
        · exact i4 pl hm hp
    · have hemp2 : hd.2.is_empty = false := by
        cases h : hd.2.is_empty
        · rfl
        · exact absurd h hemp
      simp only [hemp2, Bool.not_false, if_true]
      by_cases hcond : (!acc.2 || decide (hd.1 > acc.1)) = true
      · simp only [hcond, if_true]
        obtain ⟨i1, i2, i3, i4⟩ := ih (hd.1, true)
        have hacc2 : ((hd.1, true) : Int × Bool).2 = true := rfl
        refine ⟨?_, ?_, ?_, ?_⟩
        · rw [i1]
          constructor
          · intro _
            exact Or.inr ⟨hd, Or.inl rfl, hemp2⟩
          · intro _
            exact Or.inl rfl
        · intro hr
          rcases i2 hr with ⟨hl, _⟩ | ⟨pl, hm, hp⟩
          · exact Or.inr ⟨hd, Or.inl rfl, hemp2, hl⟩
          · exact Or.inr ⟨pl, Or.inr hm, hp⟩
        · intro ha
          have hle1 : acc.1 ≤ hd.1 := by
            rcases Bool.or_eq_true_iff.mp hcond with hna | hgt
            · rw [ha] at hna
              cases hna
            · exact le_of_lt (of_decide_eq_true hgt)
          exact le_trans hle1 (i3 hacc2)
        · rintro pl (he | hm) hp
          · rw [he]
            exact i3 hacc2
          · exact i4 pl hm hp
      · have hacc : acc.2 = true := by
          cases h : acc.2
          · rw [h] at hcond
            simp at hcond
          · rfl
        have hle0 : hd.1 ≤ acc.1 := by
          by_contra hlt
          push_neg at hlt
          exact hcond (by simp [hacc, decide_eq_true hlt])
        rw [if_neg hcond]
        obtain ⟨i1, i2, i3, i4⟩ := ih acc
        refine ⟨?_, ?_, i3, ?_⟩
        · rw [i1]
          simp [hacc]
        · intro hr
          rcases i2 hr with hl | ⟨pl, hm, hp⟩
          · exact Or.inl hl
          · exact Or.inr ⟨pl, Or.inr hm, hp⟩
        · rintro pl (he | hm) hp
          · rw [he]
            exact le_trans hle0 (i3 hacc)
          · exact i4 pl hm hp

theorem update_best_ask_go_spec (levels : List (Int × PriceLevel))
    (acc : Int × Bool) :
    ((levels.foldl (fun (acc : Int × Bool) pl =>
      if !pl.2.is_empty then
        (if !acc.2 || pl.1 < acc.1 then (pl.1, true) else acc)
      else acc) acc).2 = true ↔
      (acc.2 = true ∨ ∃ pl ∈ levels, pl.2.is_empty = false)) ∧
    ((levels.foldl (fun (acc : Int × Bool) pl =>
      if !pl.2.is_empty then
        (if !acc.2 || pl.1 < acc.1 then (pl.1, true) else acc)
      else acc) acc).2 = true →
      (((levels.foldl (fun (acc : Int × Bool) pl =>
        if !pl.2.is_empty then
          (if !acc.2 || pl.1 < acc.1 then (pl.1, true) else acc)
        else acc) acc).1 = acc.1 ∧ acc.2 = true) ∨
        ∃ pl ∈ levels, pl.2.is_empty = false ∧
          (levels.foldl (fun (acc : Int × Bool) pl =>
            if !pl.2.is_empty then
              (if !acc.2 || pl.1 < acc.1 then (pl.1, true) else acc)
            else acc) acc).1 = pl.1)) ∧
    (acc.2 = true → (levels.foldl (fun (acc : Int × Bool) pl =>
      if !pl.2.is_empty then
        (if !acc.2 || pl.1 < acc.1 then (pl.1, true) else acc)
      else acc) acc).1 ≤ acc.1) ∧
    (∀ pl ∈ levels, pl.2.is_empty = false →
      (levels.foldl (fun (acc : Int × Bool) pl =>
        if !pl.2.is_empty then
          (if !acc.2 || pl.1 < acc.1 then (pl.1, true) else acc)
        else acc) acc).1 ≤ pl.1) := by
  induction levels generalizing acc with
  | nil => simp
  | cons hd tl ih =>
    simp only [List.foldl_cons, List.mem_cons]
    by_cases hemp : hd.2.is_empty = true
    · simp only [hemp, Bool.not_true, Bool.false_eq_true, if_false]
      obtain ⟨i1, i2, i3, i4⟩ := ih acc
      refine ⟨?_, ?_, i3, ?_⟩
      · rw [i1]
        constructor
        · rintro (ha | ⟨pl, hm, hp⟩)
          · exact Or.inl ha
          · exact Or.inr ⟨pl, Or.inr hm, hp⟩
        · rintro (ha | ⟨pl, (he | hm), hp⟩)
          · exact Or.inl ha
          · rw [he] at hp
            rw [hp] at hemp
            cases hemp
          · exact Or.inr ⟨pl, hm, hp⟩
      · intro hr
        rcases i2 hr with hl | ⟨pl, hm, hp⟩
        · exact Or.inl hl
        · exact Or.inr ⟨pl, Or.inr hm, hp⟩
      · rintro pl (he | hm) hp
        · rw [he] at hp
          rw [hp] at hemp
          cases hemp
        · exact i4 pl hm hp
    · have hemp2 : hd.2.is_empty = false := by
        cases h : hd.2.is_empty
        · rfl
        · exact absurd h hemp
      simp only [hemp2, Bool.not_false, if_true]
      by_cases hcond : (!acc.2 || decide (hd.1 < acc.1)) = true
      · simp only [hcond, if_true]
        obtain ⟨i1, i2, i3, i4⟩ := ih (hd.1, true)
        have hacc2 : ((hd.1, true) : Int × Bool).2 = true := rfl
        refine ⟨?_, ?_, ?_, ?_⟩
        · rw [i1]
          constructor
          · intro _
            exact Or.inr ⟨hd, Or.inl rfl, hemp2⟩
          · intro _
            exact Or.inl rfl
        · intro hr
          rcases i2 hr with ⟨hl, _⟩ | ⟨pl, hm, hp⟩
          · exact Or.inr ⟨hd, Or.inl rfl, hemp2, hl⟩
          · exact Or.inr ⟨pl, Or.inr hm, hp⟩
        · intro ha
          have hle1 : hd.1 ≤ acc.1 := by
            rcases Bool.or_eq_true_iff.mp hcond with hna | hlt
            · rw [ha] at hna
              cases hna
            · exact le_of_lt (of_decide_eq_true hlt)
          exact le_trans (i3 hacc2) hle1
        · rintro pl (he | hm) hp
          · rw [he]
            exact i3 hacc2
          · exact i4 pl hm hp
      · have hacc : acc.2 = true := by
          cases h : acc.2
          · rw [h] at hcond
            simp at hcond
          · rfl
        have hle0 : acc.1 ≤ hd.1 := by
          by_contra hlt
          push_neg at hlt
          exact hcond (by simp [hacc, decide_eq_true hlt])
        rw [if_neg hcond]
        obtain ⟨i1, i2, i3, i4⟩ := ih acc
        refine ⟨?_, ?_, i3, ?_⟩
        · rw [i1]
          constructor
          · rintro (ha | ⟨pl, hm, hp⟩)
            · exact Or.inl ha
            · exact Or.inr ⟨pl, Or.inr hm, hp⟩
          · rintro (ha | ⟨pl, (he | hm), hp⟩)
            · exact Or.inl ha
            · exact Or.inl hacc
            · exact Or.inr ⟨pl, hm, hp⟩
        · intro hr
          rcases i2 hr with hl | ⟨pl, hm, hp⟩
          · exact Or.inl hl
          · exact Or.inr ⟨pl, Or.inr hm, hp⟩
        · rintro pl (he | hm) hp
          · rw [he]
            exact le_trans (i3 hacc) hle0
          · exact i4 pl hm hp

theorem findA_setA_cases [DecidableEq κ] (l : List (κ × α)) (k k' : κ)
    (a : α) :
    findA (setA l k a) k' = if k' = k then some a else findA l k' := by
  by_cases h : k' = k
  · rw [if_pos h, h]
    exact findA_setA_self l k a
  · rw [if_neg h]
    exact findA_setA_ne l k k' a h

/-- Replacing one level entry by another with the same emptiness at the
same key preserves the best-price characterization of a side. -/
theorem bestOn_setA_same (P : Int → Int → Prop)
    (levels : List (Int × PriceLevel)) (k : Int) (lv lv' : PriceLevel)
    (best : Int) (has : Bool)
    (hnd : (keysA levels).Nodup)
    (hfa : findA levels k = some lv)
    (hemp : lv'.is_empty = lv.is_empty)
    (h1 : has = true ↔ ∃ pl ∈ levels, pl.2.is_empty = false)
    (h2 : has = true → (∃ pl ∈ levels, pl.2.is_empty = false ∧ pl.1 = best) ∧
      ∀ pl ∈ levels, pl.2.is_empty = false → P pl.1 best) :
    (has = true ↔ ∃ pl ∈ setA levels k lv', pl.2.is_empty = false) ∧
    (has = true →
      (∃ pl ∈ setA levels k lv', pl.2.is_empty = false ∧ pl.1 = best) ∧
      ∀ pl ∈ setA levels k lv', pl.2.is_empty = false → P pl.1 best) := by
  have hklv : ∀ L : PriceLevel, (k, L) ∈ levels → L = lv := by
    intro L hm
    have := findA_eq_some_of_mem levels k L hnd hm
    rw [hfa] at this
    cases this
    rfl
  constructor
  · rw [h1]
    constructor
    · rintro ⟨pl, hm, hp⟩
      by_cases hk : pl.1 = k
      · refine ⟨(k, lv'), ?_, ?_⟩
        · rw [mem_setA_iff _ _ _ _ hnd]
          exact Or.inl rfl
        · have : pl.2 = lv := hklv pl.2 (by
            have : pl = (k, pl.2) := by
              rw [← hk]
            rw [← this]
            exact hm)
          rw [hemp, ← this]
          exact hp
      · exact ⟨pl, by
          rw [mem_setA_iff _ _ _ _ hnd]
          exact Or.inr ⟨hm, hk⟩, hp⟩
    · rintro ⟨pl, hm, hp⟩
      rw [mem_setA_iff _ _ _ _ hnd] at hm
      rcases hm with he | ⟨hm, _⟩
      · refine ⟨(k, lv), mem_of_findA_eq_some _ _ _ hfa, ?_⟩
        rw [he] at hp
        rw [← hemp]
        exact hp
      · exact ⟨pl, hm, hp⟩
  · intro hr
    obtain ⟨⟨pb, hmb, hpb, hbb⟩, hbound⟩ := h2 hr
    constructor
    · by_cases hk : pb.1 = k
      · refine ⟨(k, lv'), ?_, ?_, ?_⟩
        · rw [mem_setA_iff _ _ _ _ hnd]
          exact Or.inl rfl
        · have : pb.2 = lv := hklv pb.2 (by
            have h3 : pb = (k, pb.2) := by
              rw [← hk]
            rw [← h3]
            exact hmb)
          rw [hemp, ← this]
          exact hpb
        · rw [← hk]
          exact hbb
      · refine ⟨pb, ?_, hpb, hbb⟩
        rw [mem_setA_iff _ _ _ _ hnd]
        exact Or.inr ⟨hmb, hk⟩
    · intro pl hm hp
      rw [mem_setA_iff _ _ _ _ hnd] at hm
      rcases hm with he | ⟨hm, _⟩
      · rw [he] at hp ⊢
        have h4 : lv.is_empty = false := by
          rw [← hemp]
          exact hp
        exact hbound (k, lv) (mem_of_findA_eq_some _ _ _ hfa) h4
      · exact hbound pl hm hp

/-- Fresh books are well formed. -/
theorem wfBook_new (s : Nat) : wfBook (OrderBook.new s) := by
  refine ⟨?_, ?_, ?_, ?_, ?_, ?_, ?_, ?_, ?_, ?_⟩ <;>
    simp [OrderBook.new, keysA, ordersLinked, levelsLinked, levelsCounted,
      bestBidOK, bestAskOK]

/-- OrderBook::clear produces a well-formed book. -/
theorem wf_clear (b : OrderBook) : wfBook b.clear := by
  refine ⟨?_, ?_, ?_, ?_, ?_, ?_, ?_, ?_, ?_, ?_⟩ <;>
    simp [OrderBook.clear, keysA, ordersLinked, levelsLinked, levelsCounted,
      bestBidOK, bestAskOK]

/-- OrderBook::update_order_quantity preserves well-formedness. -/
theorem wf_update (b : OrderBook) (i : Nat) (old : Nat) (hwf : wfBook b) :
    wfBook (b.update_order_quantity i old) := by
  obtain ⟨w1, w2, w3, w4, w5, w6, w7, w8, w9, w10⟩ := hwf
  rw [ordersLinked_iff] at w4
  rw [levelsLinked_iff] at w5 w6
  unfold OrderBook.update_order_quantity
  cases hfa : findA b.orders i with
  | none =>
    exact ⟨w1, w2, w3, (ordersLinked_iff b).mpr w4,
      (levelsLinked_iff _ _ _).mpr w5, (levelsLinked_iff _ _ _).mpr w6,
      w7, w8, w9, w10⟩
  | some o =>
    obtain ⟨hid, l0, hl0, hql0⟩ := w4 (i, o) (mem_of_findA_eq_some _ _ _ hfa)
    dsimp only at hid hl0 hql0
    dsimp only
    cases hside : o.side with
    | Buy =>
      rw [hside, sideLevels_buy] at hl0
      have hbuy : o.is_buy = true := by simp [Order.is_buy, hside]
      rw [if_pos hbuy]
      rw [hl0]
      dsimp only [Option.getD]
      have hemp : (l0.update_quantity o old).is_empty = l0.is_empty := rfl
      have hqq : (l0.update_quantity o old).queue = l0.queue := rfl
      refine ⟨w1, ?_, w3, ?_, ?_, ?_, ?_, w8, ?_, w10⟩
      · exact nodup_keysA_setA _ _ _ w2
      · rw [ordersLinked_iff]
        intro p hp
        obtain ⟨hid2, l1, hl1, hql1⟩ := w4 p hp
        refine ⟨hid2, ?_⟩
        cases hside2 : p.2.side with
        | Buy =>
          rw [hside2, sideLevels_buy] at hl1
          rw [sideLevels_buy]
          dsimp only
          by_cases hk : p.2.price = o.price
          · rw [hk, findA_setA_self]
            refine ⟨_, rfl, ?_⟩
            rw [hqq]
            rw [hk, hl0] at hl1
            cases hl1
            exact hql1
          · rw [findA_setA_ne _ _ _ _ hk]
            exact ⟨l1, hl1, hql1⟩
        | Sell =>
          rw [hside2, sideLevels_sell] at hl1
          rw [sideLevels_sell]
          exact ⟨l1, hl1, hql1⟩
      · rw [levelsLinked_iff]
        intro pl hm
        rw [mem_setA_iff _ _ _ _ w2] at hm
        rcases hm with he | ⟨hm, _⟩
        · intro oid hoid
          rw [he] at hoid
          dsimp only at hoid
          rw [hqq] at hoid
          have := w5 (o.price, l0) (mem_of_findA_eq_some _ _ _ hl0) oid hoid
          rw [he]
          exact this
        · exact w5 pl hm
      · rw [levelsLinked_iff]
        exact w6
      · intro pl hm
        rw [mem_setA_iff _ _ _ _ w2] at hm
        rcases hm with he | ⟨hm, _⟩
        · rw [he]
          dsimp only
          rw [hqq]
          exact ⟨(w7 (o.price, l0) (mem_of_findA_eq_some _ _ _ hl0)).1,
            (w7 (o.price, l0) (mem_of_findA_eq_some _ _ _ hl0)).2⟩
        · exact w7 pl hm
      · exact bestOn_setA_same _ b.buy_levels o.price l0 _ b.best_bid
          b.has_best_bid w2 hl0 hemp w9.1 w9.2
    | Sell =>
      rw [hside, sideLevels_sell] at hl0
      have hbuy : o.is_buy = false := by simp [Order.is_buy, hside]
      rw [if_neg (by simp [hbuy])]
      rw [hl0]
      dsimp only [Option.getD]
      have hemp : (l0.update_quantity o old).is_empty = l0.is_empty := rfl
      have hqq : (l0.update_quantity o old).queue = l0.queue := rfl
      refine ⟨w1, w2, ?_, ?_, ?_, ?_, w7, ?_, w9, ?_⟩
      · exact nodup_keysA_setA _ _ _ w3
      · rw [ordersLinked_iff]
        intro p hp
        obtain ⟨hid2, l1, hl1, hql1⟩ := w4 p hp
        refine ⟨hid2, ?_⟩
        cases hside2 : p.2.side with
        | Buy =>
          rw [hside2, sideLevels_buy] at hl1
          rw [sideLevels_buy]
          exact ⟨l1, hl1, hql1⟩
        | Sell =>
          rw [hside2, sideLevels_sell] at hl1
          rw [sideLevels_sell]
          dsimp only
          by_cases hk : p.2.price = o.price
          · rw [hk, findA_setA_self]
            refine ⟨_, rfl, ?_⟩
            rw [hqq]
            rw [hk, hl0] at hl1
            cases hl1
            exact hql1
          · rw [findA_setA_ne _ _ _ _ hk]
            exact ⟨l1, hl1, hql1⟩
      · rw [levelsLinked_iff]
        exact w5
      · rw [levelsLinked_iff]
        intro pl hm
        rw [mem_setA_iff _ _ _ _ w3] at hm
        rcases hm with he | ⟨hm, _⟩
        · intro oid hoid
          rw [he] at hoid
          dsimp only at hoid
          rw [hqq] at hoid
          have := w6 (o.price, l0) (mem_of_findA_eq_some _ _ _ hl0) oid hoid
          rw [he]
          exact this
        · exact w6 pl hm
      · intro pl hm
        rw [mem_setA_iff _ _ _ _ w3] at hm
        rcases hm with he | ⟨hm, _⟩
        · rw [he]
          dsimp only
          rw [hqq]
          exact ⟨(w8 (o.price, l0) (mem_of_findA_eq_some _ _ _ hl0)).1,
            (w8 (o.price, l0) (mem_of_findA_eq_some _ _ _ hl0)).2⟩
        · exact w8 pl hm
      · exact bestOn_setA_same _ b.sell_levels o.price l0 _ b.best_ask
          b.has_best_ask w3 hl0 hemp w10.1 w10.2

/-- OrderBook::add_order preserves well-formedness. -/
theorem wf_add (b : OrderBook) (o : Order) (hwf : wfBook b) :
    wfBook (b.add_order o).2 := by
  obtain ⟨w1, w2, w3, w4, w5, w6, w7, w8, w9, w10⟩ := hwf
  rw [ordersLinked_iff] at w4
  rw [levelsLinked_iff] at w5 w6
  unfold OrderBook.add_order
  cases hdup : findA b.orders o.id with
  | some x =>
    rw [if_pos (by rfl)]
    exact ⟨w1, w2, w3, (ordersLinked_iff b).mpr w4,
      (levelsLinked_iff _ _ _).mpr w5, (levelsLinked_iff _ _ _).mpr w6,
      w7, w8, w9, w10⟩
  | none =>
    rw [if_neg (by simp)]
    cases hside : o.side with
    | Buy =>
      have hbuy : o.is_buy = true := by simp [Order.is_buy, hside]
      rw [if_pos hbuy]
      dsimp only
      have hq0 : (∀ oid ∈ ((findA b.buy_levels o.price).getD
            PriceLevel.default).queue,
          ∃ ord, findA b.orders oid = some ord ∧ ord.id = oid ∧
            ord.price = o.price ∧ ord.side = Side.Buy) ∧
          ((findA b.buy_levels o.price).getD
            PriceLevel.default).order_count =
            ((findA b.buy_levels o.price).getD
              PriceLevel.default).queue.length ∧
          ((findA b.buy_levels o.price).getD
            PriceLevel.default).queue.Nodup := by
        cases hfal : findA b.buy_levels o.price with
        | none => simp [PriceLevel.default, Option.getD]
        | some l1 =>
          have hm1 := mem_of_findA_eq_some _ _ _ hfal
          exact ⟨fun oid hq => w5 (o.price, l1) hm1 oid hq,
            (w7 _ hm1).1, (w7 _ hm1).2⟩
      have hfreshq : o.id ∉ ((findA b.buy_levels o.price).getD
          PriceLevel.default).queue := by
        intro hq
        obtain ⟨ord, hfo, _⟩ := hq0.1 o.id hq
        rw [hdup] at hfo
        cases hfo
      have hno : (keysA (setA b.orders o.id o)).Nodup :=
        nodup_keysA_setA _ _ _ w1
      have hnb : (keysA (setA b.buy_levels o.price
          (({ (findA b.buy_levels o.price).getD PriceLevel.default with
            price := o.price }).add_order o))).Nodup :=
        nodup_keysA_setA _ _ _ w2
      have hol : ∀ p ∈ setA b.orders o.id o, p.2.id = p.1 ∧
          ∃ l, findA (sideLevels { b with
            orders := setA b.orders o.id o,
            buy_levels := setA b.buy_levels o.price
              (({ (findA b.buy_levels o.price).getD PriceLevel.default with
                price := o.price }).add_order o) } p.2.side) p.2.price =
            some l ∧ p.1 ∈ l.queue := by
        intro p hp
        rw [mem_setA_iff _ _ _ _ w1] at hp
        rcases hp with he | ⟨hp, hne⟩
        · rw [he]
          dsimp only
          refine ⟨rfl, ?_⟩
          rw [hside, sideLevels_buy]
          dsimp only
          rw [findA_setA_self]
          refine ⟨_, rfl, ?_⟩
          simp [PriceLevel.add_order]
        · obtain ⟨hid2, l1, hl1, hql1⟩ := w4 p hp
          refine ⟨hid2, ?_⟩
          cases hside2 : p.2.side with
          | Buy =>
            rw [hside2, sideLevels_buy] at hl1
            rw [sideLevels_buy]
            dsimp only
            by_cases hk : p.2.price = o.price
            · rw [hk, findA_setA_self]
              refine ⟨_, rfl, ?_⟩
              rw [hk] at hl1
              rw [hl1]
              dsimp only [Option.getD, PriceLevel.add_order]
              exact List.mem_append_left _ hql1
            · rw [findA_setA_ne _ _ _ _ hk]
              exact ⟨l1, hl1, hql1⟩
          | Sell =>
            rw [hside2, sideLevels_sell] at hl1
            rw [sideLevels_sell]
            exact ⟨l1, hl1, hql1⟩
      have hll : ∀ pl ∈ setA b.buy_levels o.price
          (({ (findA b.buy_levels o.price).getD PriceLevel.default with
            price := o.price }).add_order o),
          ∀ oid ∈ pl.2.queue, ∃ ord,
            findA (setA b.orders o.id o) oid = some ord ∧ ord.id = oid ∧
              ord.price = pl.1 ∧ ord.side = Side.Buy := by
        intro pl hm
        rw [mem_setA_iff _ _ _ _ w2] at hm
        rcases hm with he | ⟨hm, hne⟩
        · intro oid hoid
          rw [he] at hoid ⊢
          dsimp only [PriceLevel.add_order] at hoid
          rcases List.mem_append.mp hoid with hin | hin
          · obtain ⟨ord, hfo, hi, hp, hs⟩ := hq0.1 oid hin
            refine ⟨ord, ?_, hi, hp, hs⟩
            have hne2 : oid ≠ o.id := by
              intro hx
              rw [hx, hdup] at hfo
              cases hfo
            rw [findA_setA_ne _ _ _ _ hne2]
            exact hfo
          · have : oid = o.id := by simpa using hin
            rw [this, findA_setA_self]
            exact ⟨o, rfl, rfl, rfl, by simp [hside]⟩
        · intro oid hoid
          obtain ⟨ord, hfo, hi, hp, hs⟩ := w5 pl hm oid hoid
          refine ⟨ord, ?_, hi, hp, hs⟩
          have hne2 : oid ≠ o.id := by
            intro hx
            rw [hx, hdup] at hfo
            cases hfo
          rw [findA_setA_ne _ _ _ _ hne2]
          exact hfo
      have hlc : levelsCounted (setA b.buy_levels o.price
          (({ (findA b.buy_levels o.price).getD PriceLevel.default with
            price := o.price }).add_order o)) := by
        intro pl hm
        rw [mem_setA_iff _ _ _ _ w2] at hm
        rcases hm with he | ⟨hm, _⟩
        · rw [he]
          dsimp only [PriceLevel.add_order]
          constructor
          · simp [hq0.2.1]
          · simp only [List.nodup_append, List.nodup_cons, List.nodup_nil]
            exact ⟨hq0.2.2, ⟨by simp, trivial⟩, by
              intro a ha hb
              have : a = o.id := by simpa using hb
              rw [this] at ha
              exact hfreshq ha⟩
        · exact w7 pl hm
      have hl2ne : (({ (findA b.buy_levels o.price).getD
          PriceLevel.default with price := o.price }).add_order
            o).is_empty = false := by
        simp [PriceLevel.add_order, PriceLevel.is_empty]
      have hmem2 : ((o.price, (({ (findA b.buy_levels o.price).getD
          PriceLevel.default with price := o.price }).add_order o)) :
            Int × PriceLevel) ∈ setA b.buy_levels o.price
          (({ (findA b.buy_levels o.price).getD PriceLevel.default with
            price := o.price }).add_order o) := by
        rw [mem_setA_iff _ _ _ _ w2]
        exact Or.inl rfl
      split
      next hcond =>
        refine ⟨hno, hnb, w3, (ordersLinked_iff _).mpr hol,
          (levelsLinked_iff _ _ _).mpr hll, (levelsLinked_iff _ _ _).mpr
            (fun pl hm oid hoid => by
              obtain ⟨ord, hfo, hi, hp, hs⟩ := w6 pl hm oid hoid
              refine ⟨ord, ?_, hi, hp, hs⟩
              have hne2 : oid ≠ o.id := by
                intro hx
                rw [hx, hdup] at hfo
                cases hfo
              rw [findA_setA_ne _ _ _ _ hne2]
              exact hfo),
          hlc, w8, ?_, w10⟩
        constructor
        · constructor
          · intro _
            exact ⟨_, hmem2, hl2ne⟩
          · intro _
            rfl
        · intro _
          constructor
          · exact ⟨_, hmem2, hl2ne, rfl⟩
          · intro pl hm hp
            rw [mem_setA_iff _ _ _ _ w2] at hm
            rcases hm with he | ⟨hm, hne⟩
            · rw [he]
            · cases hhas : b.has_best_bid with
              | false =>
                exact absurd (w9.1.mpr ⟨pl, hm, hp⟩) (by rw [hhas]; simp)
              | true =>
                have hgt : b.best_bid < o.price := by
                  rcases Bool.or_eq_true_iff.mp hcond with hna | hgt
                  · rw [hhas] at hna
                    cases hna
                  · exact of_decide_eq_true hgt
                exact le_of_lt (lt_of_le_of_lt
                  ((w9.2 hhas).2 pl hm hp) hgt)
      next hcond =>
        have hhas : b.has_best_bid = true := by
          cases h : b.has_best_bid
          · rw [h] at hcond
            simp at hcond
          · rfl
        have hle : o.price ≤ b.best_bid := by
          by_contra hlt
          push_neg at hlt
          exact hcond (by simp [hhas, decide_eq_true hlt])
        refine ⟨hno, hnb, w3, (ordersLinked_iff _).mpr hol,
          (levelsLinked_iff _ _ _).mpr hll, (levelsLinked_iff _ _ _).mpr
            (fun pl hm oid hoid => by
              obtain ⟨ord, hfo, hi, hp, hs⟩ := w6 pl hm oid hoid
              refine ⟨ord, ?_, hi, hp, hs⟩
              have hne2 : oid ≠ o.id := by
                intro hx
                rw [hx, hdup] at hfo
                cases hfo
              rw [findA_setA_ne _ _ _ _ hne2]
              exact hfo),
          hlc, w8, ?_, w10⟩
        constructor
        · constructor
          · intro _
            exact ⟨_, hmem2, hl2ne⟩
          · intro _
            exact hhas
        · intro _
          obtain ⟨⟨pb, hmb, hpb, hbb⟩, hbound⟩ := w9.2 hhas
          constructor
          · by_cases hk : pb.1 = o.price
            · refine ⟨_, hmem2, hl2ne, ?_⟩
              rw [← hk]
              exact hbb
            · refine ⟨pb, ?_, hpb, hbb⟩
              rw [mem_setA_iff _ _ _ _ w2]
              exact Or.inr ⟨hmb, hk⟩
          · intro pl hm hp
            rw [mem_setA_iff _ _ _ _ w2] at hm
            rcases hm with he | ⟨hm, hne⟩
            · rw [he]
              exact hle
            · exact hbound pl hm hp
    | Sell =>
      have hbuy : o.is_buy = false := by simp [Order.is_buy, hside]
      rw [if_neg (by simp [hbuy])]
      dsimp only
      have hq0 : (∀ oid ∈ ((findA b.sell_levels o.price).getD
            PriceLevel.default).queue,
          ∃ ord, findA b.orders oid = some ord ∧ ord.id = oid ∧
            ord.price = o.price ∧ ord.side = Side.Sell) ∧
          ((findA b.sell_levels o.price).getD
            PriceLevel.default).order_count =
            ((findA b.sell_levels o.price).getD
              PriceLevel.default).queue.length ∧
          ((findA b.sell_levels o.price).getD
            PriceLevel.default).queue.Nodup := by
        cases hfal : findA b.sell_levels o.price with
        | none => simp [PriceLevel.default, Option.getD]
        | some l1 =>
          have hm1 := mem_of_findA_eq_some _ _ _ hfal
          exact ⟨fun oid hq => w6 (o.price, l1) hm1 oid hq,
            (w8 _ hm1).1, (w8 _ hm1).2⟩
      have hfreshq : o.id ∉ ((findA b.sell_levels o.price).getD
          PriceLevel.default).queue := by
        intro hq
        obtain ⟨ord, hfo, _⟩ := hq0.1 o.id hq
        rw [hdup] at hfo
        cases hfo
      have hno : (keysA (setA b.orders o.id o)).Nodup :=
        nodup_keysA_setA _ _ _ w1
      have hnb : (keysA (setA b.sell_levels o.price
          (({ (findA b.sell_levels o.price).getD PriceLevel.default with
            price := o.price }).add_order o))).Nodup :=
        nodup_keysA_setA _ _ _ w3
      have hol : ∀ p ∈ setA b.orders o.id o, p.2.id = p.1 ∧
          ∃ l, findA (sideLevels { b with
            orders := setA b.orders o.id o,
            sell_levels := setA b.sell_levels o.price
              (({ (findA b.sell_levels o.price).getD PriceLevel.default with
                price := o.price }).add_order o) } p.2.side) p.2.price =
            some l ∧ p.1 ∈ l.queue := by
        intro p hp
        rw [mem_setA_iff _ _ _ _ w1] at hp
        rcases hp with he | ⟨hp, hne⟩
        · rw [he]
          dsimp only
          refine ⟨rfl, ?_⟩
          rw [hside, sideLevels_sell]
          dsimp only
          rw [findA_setA_self]
          refine ⟨_, rfl, ?_⟩
          simp [PriceLevel.add_order]
        · obtain ⟨hid2, l1, hl1, hql1⟩ := w4 p hp
          refine ⟨hid2, ?_⟩
          cases hside2 : p.2.side with
          | Buy =>
            rw [hside2, sideLevels_buy] at hl1
            rw [sideLevels_buy]
            exact ⟨l1, hl1, hql1⟩
          | Sell =>
            rw [hside2, sideLevels_sell] at hl1
            rw [sideLevels_sell]
            dsimp only
            by_cases hk : p.2.price = o.price
            · rw [hk, findA_setA_self]
              refine ⟨_, rfl, ?_⟩
              rw [hk] at hl1
              rw [hl1]
              dsimp only [Option.getD, PriceLevel.add_order]
              exact List.mem_append_left _ hql1
            · rw [findA_setA_ne _ _ _ _ hk]
              exact ⟨l1, hl1, hql1⟩
      have hll : ∀ pl ∈ setA b.sell_levels o.price
          (({ (findA b.sell_levels o.price).getD PriceLevel.default with
            price := o.price }).add_order o),
          ∀ oid ∈ pl.2.queue, ∃ ord,
            findA (setA b.orders o.id o) oid = some ord ∧ ord.id = oid ∧
              ord.price = pl.1 ∧ ord.side = Side.Sell := by
        intro pl hm
        rw [mem_setA_iff _ _ _ _ w3] at hm
        rcases hm with he | ⟨hm, hne⟩
        · intro oid hoid
          rw [he] at hoid ⊢
          dsimp only [PriceLevel.add_order] at hoid
          rcases List.mem_append.mp hoid with hin | hin
          · obtain ⟨ord, hfo, hi, hp, hs⟩ := hq0.1 oid hin
            refine ⟨ord, ?_, hi, hp, hs⟩
            have hne2 : oid ≠ o.id := by
              intro hx
              rw [hx, hdup] at hfo
              cases hfo
            rw [findA_setA_ne _ _ _ _ hne2]
            exact hfo
          · have : oid = o.id := by simpa using hin
            rw [this, findA_setA_self]
            exact ⟨o, rfl, rfl, rfl, by simp [hside]⟩
        · intro oid hoid
          obtain ⟨ord, hfo, hi, hp, hs⟩ := w6 pl hm oid hoid
          refine ⟨ord, ?_, hi, hp, hs⟩
          have hne2 : oid ≠ o.id := by
            intro hx
            rw [hx, hdup] at hfo
            cases hfo
          rw [findA_setA_ne _ _ _ _ hne2]
          exact hfo
      have hlc : levelsCounted (setA b.sell_levels o.price
          (({ (findA b.sell_levels o.price).getD PriceLevel.default with
            price := o.price }).add_order o)) := by
        intro pl hm
        rw [mem_setA_iff _ _ _ _ w3] at hm
        rcases hm with he | ⟨hm, _⟩
        · rw [he]
          dsimp only [PriceLevel.add_order]
          constructor
          · simp [hq0.2.1]
          · simp only [List.nodup_append, List.nodup_cons, List.nodup_nil]
            exact ⟨hq0.2.2, ⟨by simp, trivial⟩, by
              intro a ha hb
              have : a = o.id := by simpa using hb
              rw [this] at ha
              exact hfreshq ha⟩
        · exact w8 pl hm
      have hl2ne : (({ (findA b.sell_levels o.price).getD
          PriceLevel.default with price := o.price }).add_order
            o).is_empty = false := by
        simp [PriceLevel.add_order, PriceLevel.is_empty]
      have hmem2 : ((o.price, (({ (findA b.sell_levels o.price).getD
          PriceLevel.default with price := o.price }).add_order o)) :
            Int × PriceLevel) ∈ setA b.sell_levels o.price
          (({ (findA b.sell_levels o.price).getD PriceLevel.default with
            price := o.price }).add_order o) := by
        rw [mem_setA_iff _ _ _ _ w3]
        exact Or.inl rfl
      split
      next hcond =>
        refine ⟨hno, w2, hnb, (ordersLinked_iff _).mpr hol,
          (levelsLinked_iff _ _ _).mpr
            (fun pl hm oid hoid => by
              obtain ⟨ord, hfo, hi, hp, hs⟩ := w5 pl hm oid hoid
              refine ⟨ord, ?_, hi, hp, hs⟩
              have hne2 : oid ≠ o.id := by
                intro hx
                rw [hx, hdup] at hfo
                cases hfo
              rw [findA_setA_ne _ _ _ _ hne2]
              exact hfo),
          (levelsLinked_iff _ _ _).mpr hll,
          w7, hlc, w9, ?_⟩
        constructor
        · constructor
          · intro _
            exact ⟨_, hmem2, hl2ne⟩
          · intro _
            rfl
        · intro _
          constructor
          · exact ⟨_, hmem2, hl2ne, rfl⟩
          · intro pl hm hp
            rw [mem_setA_iff _ _ _ _ w3] at hm
            rcases hm with he | ⟨hm, hne⟩
            · rw [he]
            · cases hhas : b.has_best_ask with
              | false =>
                exact absurd (w10.1.mpr ⟨pl, hm, hp⟩) (by rw [hhas]; simp)
              | true =>
                have hgt : o.price < b.best_ask := by
                  rcases Bool.or_eq_true_iff.mp hcond with hna | hgt
                  · rw [hhas] at hna
                    cases hna
                  · exact of_decide_eq_true hgt
                exact le_of_lt (lt_of_lt_of_le hgt
                  ((w10.2 hhas).2 pl hm hp))
      next hcond =>
        have hhas : b.has_best_ask = true := by
          cases h : b.has_best_ask
          · rw [h] at hcond
            simp at hcond
          · rfl
        have hle : b.best_ask ≤ o.price := by
          by_contra hlt
          push_neg at hlt
          exact hcond (by simp [hhas, decide_eq_true hlt])
        refine ⟨hno, w2, hnb, (ordersLinked_iff _).mpr hol,
          (levelsLinked_iff _ _ _).mpr
            (fun pl hm oid hoid => by
              obtain ⟨ord, hfo, hi, hp, hs⟩ := w5 pl hm oid hoid
              refine ⟨ord, ?_, hi, hp, hs⟩
              have hne2 : oid ≠ o.id := by
                intro hx
                rw [hx, hdup] at hfo
                cases hfo
              rw [findA_setA_ne _ _ _ _ hne2]
              exact hfo),
          (levelsLinked_iff _ _ _).mpr hll,
          w7, hlc, w9, ?_⟩
        constructor
        · constructor
          · intro _
            exact ⟨_, hmem2, hl2ne⟩
          · intro _
            exact hhas
        · intro _
          obtain ⟨⟨pb, hmb, hpb, hbb⟩, hbound⟩ := w10.2 hhas
          constructor
          · by_cases hk : pb.1 = o.price
            · refine ⟨_, hmem2, hl2ne, ?_⟩
              rw [← hk]
              exact hbb
            · refine ⟨pb, ?_, hpb, hbb⟩
              rw [mem_setA_iff _ _ _ _ w3]
              exact Or.inr ⟨hmb, hk⟩
          · intro pl hm hp
            rw [mem_setA_iff _ _ _ _ w3] at hm
            rcases hm with he | ⟨hm, hne⟩
            · rw [he]
              exact hle
            · exact hbound pl hm hp


theorem eraseA_setA_self [DecidableEq κ] (l : List (κ × α)) (k : κ)
    (a b0 : α) (h : findA l k = some b0) :
    eraseA (setA l k a) k = eraseA l k := by
  induction l with
  | nil => simp [findA] at h
  | cons hd tl ih =>
    by_cases hh : hd.1 = k
    · simp [setA, eraseA, hh]
    · simp only [findA, hh, if_neg, ne_eq, not_false_iff] at h
      simp [setA, eraseA, hh, ih h]

/-- The rescanned best bid satisfies the best-price characterization
unconditionally. -/
theorem bestBidOK_update_best_bid (b : OrderBook) :
    bestBidOK b.update_best_bid := by
  obtain ⟨i1, i2, i3, i4⟩ := update_best_bid_go_spec b.buy_levels ((0 : Int), false)
  unfold bestBidOK OrderBook.update_best_bid
  dsimp only
  constructor
  · rw [i1]
    simp
  · intro hr
    constructor
    · rcases i2 hr with ⟨_, hf⟩ | ⟨pl, hm, hp, he⟩
      · cases hf
      · exact ⟨pl, hm, hp, he.symm⟩
    · exact i4

/-- The rescanned best ask satisfies the best-price characterization
unconditionally. -/
theorem bestAskOK_update_best_ask (b : OrderBook) :
    bestAskOK b.update_best_ask := by
  obtain ⟨i1, i2, i3, i4⟩ := update_best_ask_go_spec b.sell_levels ((0 : Int), false)
  unfold bestAskOK OrderBook.update_best_ask
  dsimp only
  constructor
  · rw [i1]
    simp
  · intro hr
    constructor
    · rcases i2 hr with ⟨_, hf⟩ | ⟨pl, hm, hp, he⟩
      · cases hf
      · exact ⟨pl, hm, hp, he.symm⟩
    · exact i4

/-- OrderBook::remove_order preserves well-formedness. -/
theorem wf_remove (b : OrderBook) (i : Nat) (hwf : wfBook b) :
    wfBook (b.remove_order i).2 := by
  obtain ⟨w1, w2, w3, w4, w5, w6, w7, w8, w9, w10⟩ := hwf
  rw [ordersLinked_iff] at w4
  rw [levelsLinked_iff] at w5 w6
  unfold OrderBook.remove_order
  cases hfa : findA b.orders i with
  | none =>
    exact ⟨w1, w2, w3, (ordersLinked_iff b).mpr w4,
      (levelsLinked_iff _ _ _).mpr w5, (levelsLinked_iff _ _ _).mpr w6,
      w7, w8, w9, w10⟩
  | some o =>
    obtain ⟨hid, l0, hl0, hql0⟩ := w4 (i, o) (mem_of_findA_eq_some _ _ _ hfa)
    dsimp only at hid hl0 hql0
    dsimp only
    cases hside : o.side with
    | Buy =>
      rw [hside, sideLevels_buy] at hl0
      have hbuy : o.is_buy = true := by simp [Order.is_buy, hside]
      rw [if_pos hbuy]
      rw [hl0]
      dsimp only [Option.getD]
      have hc0 : l0.order_count = l0.queue.length ∧ l0.queue.Nodup :=
        w7 (o.price, l0) (mem_of_findA_eq_some _ _ _ hl0)
      have hqer : ∀ x ∈ (l0.remove_order o).queue, x ∈ l0.queue ∧ x ≠ i := by
        intro x hx
        dsimp only [PriceLevel.remove_order] at hx
        have h2 := (List.Nodup.mem_erase_iff hc0.2).mp hx
        exact ⟨h2.2, by rw [← hid]; exact h2.1⟩
      have hmemq : ∀ x ∈ l0.queue, x ≠ i → x ∈ (l0.remove_order o).queue := by
        intro x hx hne
        dsimp only [PriceLevel.remove_order]
        exact (List.Nodup.mem_erase_iff hc0.2).mpr ⟨by rw [hid]; exact hne, hx⟩
      have hlen : (l0.remove_order o).queue.length + 1 = l0.queue.length := by
        dsimp only [PriceLevel.remove_order]
        rw [List.length_erase_of_mem (by rw [hid]; exact hql0)]
        have hpos : 0 < l0.queue.length :=
          List.length_pos.mpr (List.ne_nil_of_mem hql0)
        omega
      have hcount : (l0.remove_order o).order_count =
          (l0.remove_order o).queue.length := by
        show l0.order_count - 1 = (l0.remove_order o).queue.length
        rw [hc0.1, ← hlen]
        simp
      have hnodq : (l0.remove_order o).queue.Nodup := hc0.2.erase _
      have hl0ne : l0.is_empty = false := by
        simp only [PriceLevel.is_empty, hc0.1]
        simp [List.length_eq_zero, List.ne_nil_of_mem hql0]
      have hhasb : b.has_best_bid = true :=
        w9.1.mpr ⟨(o.price, l0), mem_of_findA_eq_some _ _ _ hl0, hl0ne⟩
      have hneqi : ∀ pl ∈ b.buy_levels, pl.1 ≠ o.price →
          ∀ oid ∈ pl.2.queue, oid ≠ i := by
        intro pl hm hne oid hoid hx
        obtain ⟨ord, hfo, hi2, hp2, hs2⟩ := w5 pl hm oid hoid
        rw [hx, hfa] at hfo
        cases hfo
        exact hne (hp2 ▸ rfl)
      have hneqis : ∀ pl ∈ b.sell_levels, ∀ oid ∈ pl.2.queue, oid ≠ i := by
        intro pl hm oid hoid hx
        obtain ⟨ord, hfo, hi2, hp2, hs2⟩ := w6 pl hm oid hoid
        rw [hx, hfa] at hfo
        cases hfo
        rw [hside] at hs2
        cases hs2
      have hLLs : ∀ pl ∈ b.sell_levels, ∀ oid ∈ pl.2.queue,
          ∃ ord, findA (eraseA b.orders i) oid = some ord ∧ ord.id = oid ∧
            ord.price = pl.1 ∧ ord.side = Side.Sell := by
        intro pl hm oid hoid
        obtain ⟨ord, hfo, hi2, hp2, hs2⟩ := w6 pl hm oid hoid
        refine ⟨ord, ?_, hi2, hp2, hs2⟩
        rw [findA_eraseA_ne _ _ _ (hneqis pl hm oid hoid)]
        exact hfo
      split
      next hempty =>
        have hc0z : (l0.remove_order o).order_count = 0 := by
          simpa [PriceLevel.is_empty] using hempty
        have hqnil : (l0.remove_order o).queue = [] :=
          List.eq_nil_of_length_eq_zero (by rw [← hcount]; exact hc0z)
        have honly : ∀ x ∈ l0.queue, x = i := by
          intro x hx
          by_contra hne
          have := hmemq x hx hne
          rw [hqnil] at this
          cases this
        have hclean : cleanup_empty_level
            (setA b.buy_levels o.price (l0.remove_order o)) o.price =
            eraseA b.buy_levels o.price := by
          unfold cleanup_empty_level
          rw [findA_setA_self]
          dsimp only
          rw [if_pos hempty]
          exact eraseA_setA_self _ _ _ l0 hl0
        rw [hclean]
        have g1 : (keysA (eraseA b.orders i)).Nodup := nodup_keysA_eraseA _ _ w1
        have g2 : (keysA (eraseA b.buy_levels o.price)).Nodup :=
          nodup_keysA_eraseA _ _ w2
        have g4 : ∀ p ∈ eraseA b.orders i, p.2.id = p.1 ∧
            ∃ l, findA (match p.2.side with
              | Side.Buy => eraseA b.buy_levels o.price
              | Side.Sell => b.sell_levels) p.2.price = some l ∧
              p.1 ∈ l.queue := by
          intro p hp
          rw [mem_eraseA_iff _ _ _ w1] at hp
          obtain ⟨hp, hpne⟩ := hp
          obtain ⟨hid2, l1, hl1, hql1⟩ := w4 p hp
          refine ⟨hid2, ?_⟩
          cases hside2 : p.2.side with
          | Buy =>
            rw [hside2, sideLevels_buy] at hl1
            dsimp only
            by_cases hk : p.2.price = o.price
            · rw [hk, hl0] at hl1
              cases hl1
              exact absurd (honly p.1 hql1) hpne
            · rw [findA_eraseA_ne _ _ _ hk]
              exact ⟨l1, hl1, hql1⟩
          | Sell =>
            rw [hside2, sideLevels_sell] at hl1
            dsimp only
            exact ⟨l1, hl1, hql1⟩
        have g5 : ∀ pl ∈ eraseA b.buy_levels o.price, ∀ oid ∈ pl.2.queue,
            ∃ ord, findA (eraseA b.orders i) oid = some ord ∧ ord.id = oid ∧
              ord.price = pl.1 ∧ ord.side = Side.Buy := by
          intro pl hm
          rw [mem_eraseA_iff _ _ _ w2] at hm
          obtain ⟨hm, hne⟩ := hm
          intro oid hoid
          obtain ⟨ord, hfo, hi2, hp2, hs2⟩ := w5 pl hm oid hoid
          refine ⟨ord, ?_, hi2, hp2, hs2⟩
          rw [findA_eraseA_ne _ _ _ (hneqi pl hm hne oid hoid)]
          exact hfo
        have g7 : levelsCounted (eraseA b.buy_levels o.price) := by
          intro pl hm
          rw [mem_eraseA_iff _ _ _ w2] at hm
          exact w7 pl hm.1
        split
        next hcond2 =>
          exact ⟨g1, g2, w3, (ordersLinked_iff _).mpr g4,
            (levelsLinked_iff _ _ _).mpr g5, (levelsLinked_iff _ _ _).mpr hLLs,
            g7, w8, bestBidOK_update_best_bid _, w10⟩
        next hcond2 =>
          have hpneq : o.price ≠ b.best_bid := by
            intro hx
            exact hcond2 (by simp [hhasb, hx])
          refine ⟨g1, g2, w3, (ordersLinked_iff _).mpr g4,
            (levelsLinked_iff _ _ _).mpr g5, (levelsLinked_iff _ _ _).mpr hLLs,
            g7, w8, ?_, w10⟩
          obtain ⟨⟨pb, hmb, hpb, hbb⟩, hbound⟩ := w9.2 hhasb
          refine ⟨?_, ?_⟩
          · constructor
            · intro _
              refine ⟨pb, ?_, hpb⟩
              rw [mem_eraseA_iff _ _ _ w2]
              exact ⟨hmb, by rw [hbb]; exact fun hx => hpneq hx.symm⟩
            · intro _
              exact hhasb
          · intro _
            constructor
            · refine ⟨pb, ?_, hpb, hbb⟩
              rw [mem_eraseA_iff _ _ _ w2]
              exact ⟨hmb, by rw [hbb]; exact fun hx => hpneq hx.symm⟩
            · intro pl hm hp
              rw [mem_eraseA_iff _ _ _ w2] at hm
              exact hbound pl hm.1 hp
      next hnemark =>
        have hLne : (l0.remove_order o).is_empty = false := by
          simpa using hnemark
        refine ⟨nodup_keysA_eraseA _ _ w1, nodup_keysA_setA _ _ _ w2, w3,
          (ordersLinked_iff _).mpr ?_, (levelsLinked_iff _ _ _).mpr ?_,
          (levelsLinked_iff _ _ _).mpr hLLs, ?_, w8, ?_, w10⟩
        · intro p hp
          rw [mem_eraseA_iff _ _ _ w1] at hp
          obtain ⟨hp, hpne⟩ := hp
          obtain ⟨hid2, l1, hl1, hql1⟩ := w4 p hp
          refine ⟨hid2, ?_⟩
          cases hside2 : p.2.side with
          | Buy =>
            rw [hside2, sideLevels_buy] at hl1
            rw [sideLevels_buy]
            dsimp only
            by_cases hk : p.2.price = o.price
            · rw [hk, findA_setA_self]
              refine ⟨_, rfl, ?_⟩
              rw [hk, hl0] at hl1
              cases hl1
              exact hmemq p.1 hql1 hpne
            · rw [findA_setA_ne _ _ _ _ hk]
              exact ⟨l1, hl1, hql1⟩
          | Sell =>
            rw [hside2, sideLevels_sell] at hl1
            rw [sideLevels_sell]
            exact ⟨l1, hl1, hql1⟩
        · intro pl hm
          rw [mem_setA_iff _ _ _ _ w2] at hm
          rcases hm with he | ⟨hm, hne⟩
          · intro oid hoid
            rw [he] at hoid
            dsimp only at hoid
            obtain ⟨hin, hne2⟩ := hqer oid hoid
            obtain ⟨ord, hfo, hi2, hp2, hs2⟩ :=
              w5 (o.price, l0) (mem_of_findA_eq_some _ _ _ hl0) oid hin
            refine ⟨ord, ?_, hi2, by rw [he]; exact hp2, hs2⟩
            rw [findA_eraseA_ne _ _ _ hne2]
            exact hfo
          · intro oid hoid
            obtain ⟨ord, hfo, hi2, hp2, hs2⟩ := w5 pl hm oid hoid
            refine ⟨ord, ?_, hi2, hp2, hs2⟩
            rw [findA_eraseA_ne _ _ _ (hneqi pl hm hne oid hoid)]
            exact hfo
        · intro pl hm
          rw [mem_setA_iff _ _ _ _ w2] at hm
          rcases hm with he | ⟨hm, hne⟩
          · rw [he]
            exact ⟨hcount, hnodq⟩
          · exact w7 pl hm
        · exact bestOn_setA_same _ b.buy_levels o.price l0 _ b.best_bid
            b.has_best_bid w2 hl0 (by rw [hLne, hl0ne]) w9.1 w9.2
    | Sell =>
      rw [hside, sideLevels_sell] at hl0
      have hbuy : o.is_buy = false := by simp [Order.is_buy, hside]
      rw [if_neg (by simp [hbuy])]
      rw [hl0]
      dsimp only [Option.getD]
      have hc0 : l0.order_count = l0.queue.length ∧ l0.queue.Nodup :=
        w8 (o.price, l0) (mem_of_findA_eq_some _ _ _ hl0)
      have hqer : ∀ x ∈ (l0.remove_order o).queue, x ∈ l0.queue ∧ x ≠ i := by
        intro x hx
        dsimp only [PriceLevel.remove_order] at hx
        have h2 := (List.Nodup.mem_erase_iff hc0.2).mp hx
        exact ⟨h2.2, by rw [← hid]; exact h2.1⟩
      have hmemq : ∀ x ∈ l0.queue, x ≠ i → x ∈ (l0.remove_order o).queue := by
        intro x hx hne
        dsimp only [PriceLevel.remove_order]
        exact (List.Nodup.mem_erase_iff hc0.2).mpr ⟨by rw [hid]; exact hne, hx⟩
      have hlen : (l0.remove_order o).queue.length + 1 = l0.queue.length := by
        dsimp only [PriceLevel.remove_order]
        rw [List.length_erase_of_mem (by rw [hid]; exact hql0)]
        have hpos : 0 < l0.queue.length :=
          List.length_pos.mpr (List.ne_nil_of_mem hql0)
        omega
      have hcount : (l0.remove_order o).order_count =
          (l0.remove_order o).queue.length := by
        show l0.order_count - 1 = (l0.remove_order o).queue.length
        rw [hc0.1, ← hlen]
        simp
      have hnodq : (l0.remove_order o).queue.Nodup := hc0.2.erase _
      have hl0ne : l0.is_empty = false := by
        simp only [PriceLevel.is_empty, hc0.1]
        simp [List.length_eq_zero, List.ne_nil_of_mem hql0]
      have hhasb : b.has_best_ask = true :=
        w10.1.mpr ⟨(o.price, l0), mem_of_findA_eq_some _ _ _ hl0, hl0ne⟩
      have hneqi : ∀ pl ∈ b.sell_levels, pl.1 ≠ o.price →
          ∀ oid ∈ pl.2.queue, oid ≠ i := by
        intro pl hm hne oid hoid hx
        obtain ⟨ord, hfo, hi2, hp2, hs2⟩ := w6 pl hm oid hoid
        rw [hx, hfa] at hfo
        cases hfo
        exact hne (hp2 ▸ rfl)
      have hneqis : ∀ pl ∈ b.buy_levels, ∀ oid ∈ pl.2.queue, oid ≠ i := by
        intro pl hm oid hoid hx
        obtain ⟨ord, hfo, hi2, hp2, hs2⟩ := w5 pl hm oid hoid
        rw [hx, hfa] at hfo
        cases hfo
        rw [hside] at hs2
        cases hs2
      have hLLs : ∀ pl ∈ b.buy_levels, ∀ oid ∈ pl.2.queue,
          ∃ ord, findA (eraseA b.orders i) oid = some ord ∧ ord.id = oid ∧
            ord.price = pl.1 ∧ ord.side = Side.Buy := by
        intro pl hm oid hoid
        obtain ⟨ord, hfo, hi2, hp2, hs2⟩ := w5 pl hm oid hoid
        refine ⟨ord, ?_, hi2, hp2, hs2⟩
        rw [findA_eraseA_ne _ _ _ (hneqis pl hm oid hoid)]
        exact hfo
      split
      next hempty =>
        have hc0z : (l0.remove_order o).order_count = 0 := by
          simpa [PriceLevel.is_empty] using hempty
        have hqnil : (l0.remove_order o).queue = [] :=
          List.eq_nil_of_length_eq_zero (by rw [← hcount]; exact hc0z)
        have honly : ∀ x ∈ l0.queue, x = i := by
          intro x hx
          by_contra hne
          have := hmemq x hx hne
          rw [hqnil] at this
          cases this
        have hclean : cleanup_empty_level
            (setA b.sell_levels o.price (l0.remove_order o)) o.price =
            eraseA b.sell_levels o.price := by
          unfold cleanup_empty_level
          rw [findA_setA_self]
          dsimp only
          rw [if_pos hempty]
          exact eraseA_setA_self _ _ _ l0 hl0
        rw [hclean]
        have g1 : (keysA (eraseA b.orders i)).Nodup := nodup_keysA_eraseA _ _ w1
        have g2 : (keysA (eraseA b.sell_levels o.price)).Nodup :=
          nodup_keysA_eraseA _ _ w3
        have g4 : ∀ p ∈ eraseA b.orders i, p.2.id = p.1 ∧
            ∃ l, findA (match p.2.side with
              | Side.Buy => b.buy_levels
              | Side.Sell => eraseA b.sell_levels o.price) p.2.price = some l ∧
              p.1 ∈ l.queue := by
          intro p hp
          rw [mem_eraseA_iff _ _ _ w1] at hp
          obtain ⟨hp, hpne⟩ := hp
          obtain ⟨hid2, l1, hl1, hql1⟩ := w4 p hp
          refine ⟨hid2, ?_⟩
          cases hside2 : p.2.side with
          | Sell =>
            rw [hside2, sideLevels_sell] at hl1
            dsimp only
            by_cases hk : p.2.price = o.price
            · rw [hk, hl0] at hl1
              cases hl1
              exact absurd (honly p.1 hql1) hpne
            · rw [findA_eraseA_ne _ _ _ hk]
              exact ⟨l1, hl1, hql1⟩
          | Buy =>
            rw [hside2, sideLevels_buy] at hl1
            dsimp only
            exact ⟨l1, hl1, hql1⟩
        have g5 : ∀ pl ∈ eraseA b.sell_levels o.price, ∀ oid ∈ pl.2.queue,
            ∃ ord, findA (eraseA b.orders i) oid = some ord ∧ ord.id = oid ∧
              ord.price = pl.1 ∧ ord.side = Side.Sell := by
          intro pl hm
          rw [mem_eraseA_iff _ _ _ w3] at hm
          obtain ⟨hm, hne⟩ := hm
          intro oid hoid
          obtain ⟨ord, hfo, hi2, hp2, hs2⟩ := w6 pl hm oid hoid
          refine ⟨ord, ?_, hi2, hp2, hs2⟩
          rw [findA_eraseA_ne _ _ _ (hneqi pl hm hne oid hoid)]
          exact hfo
        have g7 : levelsCounted (eraseA b.sell_levels o.price) := by
          intro pl hm
          rw [mem_eraseA_iff _ _ _ w3] at hm
          exact w8 pl hm.1
        split
        next hcond2 =>
          exact ⟨g1, w2, g2, (ordersLinked_iff _).mpr g4,
            (levelsLinked_iff _ _ _).mpr hLLs, (levelsLinked_iff _ _ _).mpr g5,
            w7, g7, w9, bestAskOK_update_best_ask _⟩
        next hcond2 =>
          have hpneq : o.price ≠ b.best_ask := by
            intro hx
            exact hcond2 (by simp [hhasb, hx])
          refine ⟨g1, w2, g2, (ordersLinked_iff _).mpr g4,
            (levelsLinked_iff _ _ _).mpr hLLs, (levelsLinked_iff _ _ _).mpr g5,
            w7, g7, w9, ?_⟩
          obtain ⟨⟨pb, hmb, hpb, hbb⟩, hbound⟩ := w10.2 hhasb
          refine ⟨?_, ?_⟩
          · constructor
            · intro _
              refine ⟨pb, ?_, hpb⟩
              rw [mem_eraseA_iff _ _ _ w3]
              exact ⟨hmb, by rw [hbb]; exact fun hx => hpneq hx.symm⟩
            · intro _
              exact hhasb
          · intro _
            constructor
            · refine ⟨pb, ?_, hpb, hbb⟩
              rw [mem_eraseA_iff _ _ _ w3]
              exact ⟨hmb, by rw [hbb]; exact fun hx => hpneq hx.symm⟩
            · intro pl hm hp
              rw [mem_eraseA_iff _ _ _ w3] at hm
              exact hbound pl hm.1 hp
      next hnemark =>
        have hLne : (l0.remove_order o).is_empty = false := by
          simpa using hnemark
        refine ⟨nodup_keysA_eraseA _ _ w1, w2, nodup_keysA_setA _ _ _ w3,
          (ordersLinked_iff _).mpr ?_, (levelsLinked_iff _ _ _).mpr hLLs,
          (levelsLinked_iff _ _ _).mpr ?_, w7, ?_, w9, ?_⟩
        · intro p hp
          rw [mem_eraseA_iff _ _ _ w1] at hp
          obtain ⟨hp, hpne⟩ := hp
          obtain ⟨hid2, l1, hl1, hql1⟩ := w4 p hp
          refine ⟨hid2, ?_⟩
          cases hside2 : p.2.side with
          | Sell =>
            rw [hside2, sideLevels_sell] at hl1
            rw [sideLevels_sell]
            dsimp only
            by_cases hk : p.2.price = o.price
            · rw [hk, findA_setA_self]
              refine ⟨_, rfl, ?_⟩
              rw [hk, hl0] at hl1
              cases hl1
              exact hmemq p.1 hql1 hpne
            · rw [findA_setA_ne _ _ _ _ hk]
              exact ⟨l1, hl1, hql1⟩
          | Buy =>
            rw [hside2, sideLevels_buy] at hl1
            rw [sideLevels_buy]
            exact ⟨l1, hl1, hql1⟩
        · intro pl hm
          rw [mem_setA_iff _ _ _ _ w3] at hm
          rcases hm with he | ⟨hm, hne⟩
          · intro oid hoid
            rw [he] at hoid
            dsimp only at hoid
            obtain ⟨hin, hne2⟩ := hqer oid hoid
            obtain ⟨ord, hfo, hi2, hp2, hs2⟩ :=
              w6 (o.price, l0) (mem_of_findA_eq_some _ _ _ hl0) oid hin
            refine ⟨ord, ?_, hi2, by rw [he]; exact hp2, hs2⟩
            rw [findA_eraseA_ne _ _ _ hne2]
            exact hfo
          · intro oid hoid
            obtain ⟨ord, hfo, hi2, hp2, hs2⟩ := w6 pl hm oid hoid
            refine ⟨ord, ?_, hi2, hp2, hs2⟩
            rw [findA_eraseA_ne _ _ _ (hneqi pl hm hne oid hoid)]
            exact hfo
        · intro pl hm
          rw [mem_setA_iff _ _ _ _ w3] at hm
          rcases hm with he | ⟨hm, hne⟩
          · rw [he]
            exact ⟨hcount, hnodq⟩
          · exact w8 pl hm
        · exact bestOn_setA_same _ b.sell_levels o.price l0 _ b.best_ask
            b.has_best_ask w3 hl0 (by rw [hLne, hl0ne]) w10.1 w10.2

/-- Every single OrderBook mutator preserves well-formedness. -/
theorem wf_applyBookOp (b : OrderBook) (op : BookOp) (hwf : wfBook b) :
    wfBook (applyBookOp b op) := by
  cases op with
  | addOp o => exact wf_add b o hwf
  | removeOp oid => exact wf_remove b oid hwf
  | updateOp oid old => exact wf_update b oid old hwf
  | clearOp => exact wf_clear b

/-- Any sequence of mutators preserves well-formedness. -/
theorem wf_applyBookOps (b : OrderBook) (ops : List BookOp)
    (hwf : wfBook b) : wfBook (applyBookOps b ops) := by
  induction ops generalizing b with
  | nil => exact hwf
  | cons op rest ih => exact ih _ (wf_applyBookOp b op hwf)


/-! Ring-buffer arithmetic and FIFO simulation. -/

/-- Wrap-around size with both cursors in range, case-split on cursor
order. -/
theorem ring_size_mod (S h t : Nat) (hh : h < S) (ht : t < S) :
    (t + S - h) % S = if h ≤ t then t - h else t + S - h := by
  rcases le_or_lt h t with hle | hlt
  · rw [if_pos hle]
    have he : t + S - h = (t - h) + S := by omega
    rw [he, Nat.add_mod_right, Nat.mod_eq_of_lt (by omega)]
  · rw [if_neg (not_le.mpr hlt)]
    exact Nat.mod_eq_of_lt (by omega)

/-- Masked increment of an in-range cursor. -/
theorem ring_succ_mod (S t : Nat) (ht : t < S) :
    (t + 1) % S = if t + 1 = S then 0 else t + 1 := by
  rcases Nat.lt_or_ge (t + 1) S with hlt | hge
  · rw [if_neg (by omega), Nat.mod_eq_of_lt hlt]
  · have he : t + 1 = S := by omega
    rw [if_pos he, he, Nat.mod_self]

/-- The one-slot-empty full test coincides with size = S - 1. -/
theorem ring_full_iff (S h t : Nat) (hh : h < S) (ht : t < S) :
    (t + 1) % S = h ↔ (t + S - h) % S = S - 1 := by
  rw [ring_size_mod S h t hh ht, ring_succ_mod S t ht]
  split <;> split <;> omega

/-- The cursor-equality empty test coincides with size = 0. -/
theorem ring_empty_iff (S h t : Nat) (hh : h < S) (ht : t < S) :
    h = t ↔ (t + S - h) % S = 0 := by
  rw [ring_size_mod S h t hh ht]
  split <;> omega

/-- The queued-contents abstraction has length size. -/
theorem toList_length {α : Type} {Size : Nat} (rb : SPSCRingBuffer α Size) :
    rb.toList.length = rb.size := by
  simp [SPSCRingBuffer.toList]

/-- The queued contents are empty exactly when size is zero. -/
theorem toList_eq_nil_iff {α : Type} {Size : Nat}
    (rb : SPSCRingBuffer α Size) : rb.toList = [] ↔ rb.size = 0 := by
  unfold SPSCRingBuffer.toList
  constructor
  · intro h
    have h2 := congrArg List.length h
    simpa using h2
  · intro h
    rw [h]
    rfl

/-- try_push rejects exactly on a full ring. -/
theorem try_push_none_iff {α : Type} {Size : Nat}
    (rb : SPSCRingBuffer α Size) (v : α) (hwf : rb.wf) :
    rb.try_push v = none ↔ rb.size = Size - 1 := by
  unfold SPSCRingBuffer.try_push SPSCRingBuffer.size
  dsimp only
  constructor
  · intro hp
    have hcond : (rb.tail + 1) % Size = rb.head := by
      by_contra hx
      rw [if_neg hx] at hp
      cases hp
    exact (ring_full_iff Size rb.head rb.tail hwf.1 hwf.2).mp hcond
  · intro hsz
    rw [if_pos ((ring_full_iff Size rb.head rb.tail hwf.1 hwf.2).mpr hsz)]

/-- try_pop rejects exactly on an empty ring. -/
theorem try_pop_none_iff {α : Type} {Size : Nat}
    (rb : SPSCRingBuffer α Size) (hwf : rb.wf) :
    rb.try_pop = none ↔ rb.size = 0 := by
  unfold SPSCRingBuffer.try_pop SPSCRingBuffer.size
  constructor
  · intro hp
    have hcond : rb.head = rb.tail := by
      by_contra hx
      rw [if_neg hx] at hp
      cases hp
    exact (ring_empty_iff Size rb.head rb.tail hwf.1 hwf.2).mp hcond
  · intro hsz
    rw [if_pos ((ring_empty_iff Size rb.head rb.tail hwf.1 hwf.2).mpr hsz)]

/-- A successful push appends the value to the queued contents,
preserves cursor bounds and grows the size by one. -/
theorem toList_try_push {α : Type} {Size : Nat} (rb : SPSCRingBuffer α Size)
    (v : α) (rb2 : SPSCRingBuffer α Size) (hwf : rb.wf)
    (hp : rb.try_push v = some rb2) :
    rb2.toList = rb.toList ++ [v] ∧ rb2.wf ∧ rb2.size = rb.size + 1 := by
  obtain ⟨hh, ht⟩ := hwf
  have hS : 0 < Size := Nat.lt_of_le_of_lt (Nat.zero_le _) hh
  unfold SPSCRingBuffer.try_push at hp
  dsimp only at hp
  by_cases hc : (rb.tail + 1) % Size = rb.head
  · rw [if_pos hc] at hp
    cases hp
  · rw [if_neg hc] at hp
    have hsz2 : ((rb.tail + 1) % Size + Size - rb.head) % Size =
        (rb.tail + Size - rb.head) % Size + 1 := by
      rcases Nat.lt_or_ge (rb.tail + 1) Size with h1 | h1
      · rw [Nat.mod_eq_of_lt h1] at hc ⊢
        rw [ring_size_mod Size rb.head (rb.tail + 1) hh h1,
          ring_size_mod Size rb.head rb.tail hh ht]
        split <;> split <;> omega
      · have he : rb.tail + 1 = Size := by omega
        rw [he, Nat.mod_self] at hc ⊢
        rw [ring_size_mod Size rb.head 0 hh hS,
          ring_size_mod Size rb.head rb.tail hh ht]
        split <;> split <;> omega
    have hkey : ∀ i, i < (rb.tail + Size - rb.head) % Size →
        (rb.head + i) % Size ≠ rb.tail := by
      intro i hi
      rw [ring_size_mod Size rb.head rb.tail hh ht] at hi
      rcases Nat.lt_or_ge (rb.head + i) Size with h2 | h2
      · rw [Nat.mod_eq_of_lt h2]
        split at hi <;> omega
      · have h4 : rb.head + i - Size < Size := by
          split at hi <;> omega
        have h3 : (rb.head + i) % Size = rb.head + i - Size := by
          rw [Nat.mod_eq_sub_mod h2, Nat.mod_eq_of_lt h4]
        rw [h3]
        split at hi <;> omega
    have hend : (rb.head + (rb.tail + Size - rb.head) % Size) % Size =
        rb.tail := by
      rw [ring_size_mod Size rb.head rb.tail hh ht]
      rcases le_or_lt rb.head rb.tail with h2 | h2
      · rw [if_pos h2]
        have h3 : rb.head + (rb.tail - rb.head) = rb.tail := by omega
        rw [h3, Nat.mod_eq_of_lt ht]
      · rw [if_neg (not_le.mpr h2)]
        have h3 : rb.head + (rb.tail + Size - rb.head) = rb.tail + Size := by
          omega
        rw [h3, Nat.add_mod_right, Nat.mod_eq_of_lt ht]
    injection hp with h2
    subst h2
    refine ⟨?_, ⟨hh, Nat.mod_lt _ hS⟩, hsz2⟩
    unfold SPSCRingBuffer.toList SPSCRingBuffer.size
    dsimp only
    rw [hsz2, List.range_succ, List.map_append]
    congr 1
    · apply List.map_congr_left
      intro i hi
      rw [List.mem_range] at hi
      dsimp only
      rw [if_neg (hkey i hi)]
    · simp only [List.map_cons, List.map_nil]
      rw [if_pos hend]

/-- A successful pop returns the head of the queued contents,
preserves cursor bounds and shrinks the size by one. -/
theorem toList_try_pop {α : Type} {Size : Nat} (rb : SPSCRingBuffer α Size)
    (x : α) (rb2 : SPSCRingBuffer α Size) (hwf : rb.wf)
    (hp : rb.try_pop = some (x, rb2)) :
    rb.toList = x :: rb2.toList ∧ rb2.wf ∧ rb.size = rb2.size + 1 := by
  obtain ⟨hh, ht⟩ := hwf
  have hS : 0 < Size := Nat.lt_of_le_of_lt (Nat.zero_le _) hh
  unfold SPSCRingBuffer.try_pop at hp
  by_cases hc : rb.head = rb.tail
  · rw [if_pos hc] at hp
    cases hp
  · rw [if_neg hc] at hp
    injection hp with h2
    injection h2 with h3 h4
    subst h4
    subst h3
    have hsz2 : (rb.tail + Size - rb.head) % Size =
        (rb.tail + Size - (rb.head + 1) % Size) % Size + 1 := by
      rcases Nat.lt_or_ge (rb.head + 1) Size with h1 | h1
      · rw [Nat.mod_eq_of_lt h1]
        rw [ring_size_mod Size rb.head rb.tail hh ht,
          ring_size_mod Size (rb.head + 1) rb.tail h1 ht]
        split <;> split <;> omega
      · have he : rb.head + 1 = Size := by omega
        rw [he, Nat.mod_self]
        rw [ring_size_mod Size rb.head rb.tail hh ht,
          ring_size_mod Size 0 rb.tail hS ht]
        split <;> split <;> omega
    refine ⟨?_, ⟨Nat.mod_lt _ hS, ht⟩, hsz2⟩
    unfold SPSCRingBuffer.toList SPSCRingBuffer.size
    dsimp only
    rw [hsz2, List.range_succ_eq_map, List.map_cons, List.map_map]
    congr 1
    · rw [Nat.add_zero, Nat.mod_eq_of_lt hh]
    · apply List.map_congr_left
      intro i hi
      simp only [Function.comp_apply]
      have h5 : ((rb.head + 1) % Size + i) % Size =
          (rb.head + Nat.succ i) % Size := by
        rw [Nat.mod_add_mod]
        congr 1
        omega
      rw [h5]

/-- The ring implements the bounded FIFO queue of capacity Size - 1:
the popped values of any push/pop history agree. -/
theorem runRing_eq_runQueue {α : Type} {Size : Nat}
    (ops : List (RingOp α)) (rb : SPSCRingBuffer α Size) (hwf : rb.wf) :
    (runRing rb ops).2 = (runQueue (Size - 1) rb.toList ops).2 := by
  induction ops generalizing rb with
  | nil => rfl
  | cons op rest ih =>
    cases op with
    | push v =>
      simp only [runRing, runQueue]
      cases hp : rb.try_push v with
      | none =>
        have hfull : rb.size = Size - 1 := (try_push_none_iff rb v hwf).mp hp
        dsimp only
        rw [if_pos (by rw [toList_length]; exact hfull)]
        exact ih rb hwf
      | some rb2 =>
        obtain ⟨hl, hwf2, hsz⟩ := toList_try_push rb v rb2 hwf hp
        dsimp only
        have hne : ¬ rb.toList.length = Size - 1 := by
          rw [toList_length]
          intro hx
          rw [(try_push_none_iff rb v hwf).mpr hx] at hp
          cases hp
        rw [if_neg hne, ← hl]
        exact ih rb2 hwf2
    | pop =>
      simp only [runRing, runQueue]
      cases hp : rb.try_pop with
      | none =>
        have hemp : rb.size = 0 := (try_pop_none_iff rb hwf).mp hp
        have hnil : rb.toList = [] := (toList_eq_nil_iff rb).mpr hemp
        dsimp only
        rw [hnil]
        have h6 := ih rb hwf
        rw [hnil] at h6
        exact h6
      | some xrb =>
        obtain ⟨x, rb2⟩ := xrb
        obtain ⟨hl, hwf2, hsz⟩ := toList_try_pop rb x rb2 hwf hp
        dsimp only
        rw [hl]
        dsimp only
        exact congrArg (List.cons x) (ih rb2 hwf2)

/-- A freshly constructed ring has in-range cursors. -/
theorem init_wf {α : Type} (Size : Nat) (a : α) (hS : 0 < Size) :
    (SPSCRingBuffer.init Size a).wf := by
  unfold SPSCRingBuffer.wf SPSCRingBuffer.init
  exact ⟨hS, hS⟩

/-- A freshly constructed ring holds no values. -/
theorem init_toList {α : Type} (Size : Nat) (a : α) :
    (SPSCRingBuffer.init Size a).toList = [] := by
  unfold SPSCRingBuffer.toList SPSCRingBuffer.size SPSCRingBuffer.init
  simp [Nat.mod_self]


/-! Matching-loop maker/price lemmas (claim C7 support). -/

/-- Elements of setA come from the inserted pair or the original list
(no key-uniqueness needed). -/
theorem mem_setA_sub [DecidableEq κ] (l : List (κ × α)) (k : κ) (a : α)
    (p : κ × α) (hp : p ∈ setA l k a) : p = (k, a) ∨ p ∈ l := by
  induction l with
  | nil =>
    unfold setA at hp
    exact Or.inl (List.mem_singleton.mp hp)
  | cons hd tl ih =>
    obtain ⟨hk, ha⟩ := hd
    simp only [setA] at hp
    by_cases he : hk = k
    · rw [if_pos he] at hp
      rcases List.mem_cons.mp hp with h1 | h1
      · exact Or.inl h1
      · exact Or.inr (List.mem_cons_of_mem _ h1)
    · rw [if_neg he] at hp
      rcases List.mem_cons.mp hp with h1 | h1
      · exact Or.inr (h1 ▸ List.mem_cons_self _ _)
      · rcases ih h1 with h2 | h2
        · exact Or.inl h2
        · exact Or.inr (List.mem_cons_of_mem _ h2)

/-- Elements of eraseA come from the original list. -/
theorem mem_eraseA_sub [DecidableEq κ] (l : List (κ × α)) (k : κ)
    (p : κ × α) (hp : p ∈ eraseA l k) : p ∈ l := by
  induction l with
  | nil => simp [eraseA] at hp
  | cons hd tl ih =>
    obtain ⟨hk, ha⟩ := hd
    simp only [eraseA] at hp
    by_cases he : hk = k
    · rw [if_pos he] at hp
      exact List.mem_cons_of_mem _ hp
    · rw [if_neg he] at hp
      rcases List.mem_cons.mp hp with h1 | h1
      · exact h1 ▸ List.mem_cons_self _ _
      · exact List.mem_cons_of_mem _ (ih h1)

/-- Elements survive cleanup only if present before. -/
theorem mem_cleanup_sub (levels : List (Int × PriceLevel)) (p : Int)
    (x : Int × PriceLevel) (hx : x ∈ cleanup_empty_level levels p) :
    x ∈ levels := by
  unfold cleanup_empty_level at hx
  cases hfa : findA levels p with
  | none =>
    rw [hfa] at hx
    exact hx
  | some l =>
    rw [hfa] at hx
    dsimp only at hx
    split at hx
    · exact mem_eraseA_sub _ _ _ hx
    · exact hx

/-- The buy loop is inert on an exhausted incoming order. -/
theorem matchBuyFuel_zero_rem (ts fuel : Nat) (book : OrderBook) (o : Order)
    (h : o.remaining_quantity = 0) :
    matchBuyFuel ts fuel book o = (book, o, [], 0) := by
  cases fuel with
  | zero => rfl
  | succ n =>
    rw [matchBuyFuel]
    dsimp only
    rw [if_neg (by simp [h])]

/-- The sell loop is inert on an exhausted incoming order. -/
theorem matchSellFuel_zero_rem (ts fuel : Nat) (book : OrderBook) (o : Order)
    (h : o.remaining_quantity = 0) :
    matchSellFuel ts fuel book o = (book, o, [], 0) := by
  cases fuel with
  | zero => rfl
  | succ n =>
    rw [matchSellFuel]
    dsimp only
    rw [if_neg (by simp [h])]

/-- update_order_quantity leaves all four cached best fields alone. -/
theorem update_order_quantity_best (b : OrderBook) (i old : Nat) :
    (b.update_order_quantity i old).has_best_ask = b.has_best_ask ∧
    (b.update_order_quantity i old).best_ask = b.best_ask ∧
    (b.update_order_quantity i old).has_best_bid = b.has_best_bid ∧
    (b.update_order_quantity i old).best_bid = b.best_bid := by
  unfold OrderBook.update_order_quantity
  cases hfa : findA b.orders i with
  | none => exact ⟨rfl, rfl, rfl, rfl⟩
  | some o =>
    dsimp only
    split
    · exact ⟨rfl, rfl, rfl, rfl⟩
    · exact ⟨rfl, rfl, rfl, rfl⟩

/-- write_order leaves both level maps alone. -/
theorem write_order_ask_queue (b : OrderBook) (i : Nat) (o : Order)
    (p : Int) : askQueueAt (b.write_order i o) p = askQueueAt b p := rfl

theorem write_order_bid_queue (b : OrderBook) (i : Nat) (o : Order)
    (p : Int) : bidQueueAt (b.write_order i o) p = bidQueueAt b p := rfl

/-- update_order_quantity never changes a level queue (only the cached
level total). -/
theorem update_order_quantity_ask_queue (b : OrderBook) (i old : Nat)
    (p : Int) :
    askQueueAt (b.update_order_quantity i old) p = askQueueAt b p := by
  unfold OrderBook.update_order_quantity
  cases hfa : findA b.orders i with
  | none => rfl
  | some o =>
    dsimp only
    split
    · rfl
    · unfold askQueueAt
      dsimp only
      by_cases hp : p = o.price
      · subst hp
        rw [findA_setA_self]
        dsimp only [PriceLevel.update_quantity]
        cases hfl : findA b.sell_levels o.price with
        | none => rfl
        | some l => rfl
      · rw [findA_setA_ne _ _ _ _ hp]

theorem update_order_quantity_bid_queue (b : OrderBook) (i old : Nat)
    (p : Int) :
    bidQueueAt (b.update_order_quantity i old) p = bidQueueAt b p := by
  unfold OrderBook.update_order_quantity
  cases hfa : findA b.orders i with
  | none => rfl
  | some o =>
    dsimp only
    split
    · unfold bidQueueAt
      dsimp only
      by_cases hp : p = o.price
      · subst hp
        rw [findA_setA_self]
        dsimp only [PriceLevel.update_quantity]
        cases hfl : findA b.buy_levels o.price with
        | none => rfl
        | some l => rfl
      · rw [findA_setA_ne _ _ _ _ hp]
    · rfl


/-- Best-price rescans touch only the cached best fields. -/
theorem update_best_ask_sell_levels (b : OrderBook) :
    b.update_best_ask.sell_levels = b.sell_levels := rfl

theorem update_best_ask_buy_levels (b : OrderBook) :
    b.update_best_ask.buy_levels = b.buy_levels := rfl

theorem update_best_bid_sell_levels (b : OrderBook) :
    b.update_best_bid.sell_levels = b.sell_levels := rfl

theorem update_best_bid_buy_levels (b : OrderBook) :
    b.update_best_bid.buy_levels = b.buy_levels := rfl

/-- A non-buy order rests on the sell side. -/
theorem side_of_not_buy (o : Order) (h : o.is_buy = false) :
    o.side = Side.Sell := by
  cases hq : o.side with
  | Buy =>
    rw [Order.is_buy, hq] at h
    simp at h
  | Sell => rfl

/-- A buy order rests on the buy side. -/
theorem side_of_buy (o : Order) (h : o.is_buy = true) :
    o.side = Side.Buy := by
  rw [Order.is_buy] at h
  simpa using h

/-- write_order with an order agreeing on id, price and side with the
stored one preserves well-formedness. -/
theorem wf_write_order (b : OrderBook) (i : Nat) (o0 o : Order)
    (hwf : wfBook b) (hf : findA b.orders i = some o0)
    (hid : o.id = o0.id) (hpr : o.price = o0.price)
    (hsd : o.side = o0.side) : wfBook (b.write_order i o) := by
  obtain ⟨w1, w2, w3, w4, w5, w6, w7, w8, w9, w10⟩ := hwf
  rw [ordersLinked_iff] at w4
  rw [levelsLinked_iff] at w5 w6
  have hkeys : keysA (setA b.orders i o) = keysA b.orders :=
    keysA_setA_some _ _ _ _ hf
  have hsl : ∀ s, sideLevels (b.write_order i o) s = sideLevels b s := by
    intro s
    cases s <;> rfl
  refine ⟨?_, w2, w3, (ordersLinked_iff _).mpr ?_,
    (levelsLinked_iff _ _ _).mpr ?_, (levelsLinked_iff _ _ _).mpr ?_,
    w7, w8, w9, w10⟩
  · rw [write_order_orders, hkeys]
    exact w1
  · intro p hp
    have hp2 : p ∈ setA b.orders i o := hp
    rw [mem_setA_iff _ _ _ _ w1] at hp2
    rcases hp2 with he | ⟨hp3, hne⟩
    · subst he
      dsimp only
      obtain ⟨hid0, l, hl, hql⟩ := w4 (i, o0) (mem_of_findA_eq_some _ _ _ hf)
      dsimp only at hid0 hl hql
      rw [hid, hpr, hsd, hsl o0.side]
      exact ⟨hid0, l, hl, hql⟩
    · obtain ⟨hid2, hrest⟩ := w4 p hp3
      rw [hsl p.2.side]
      exact ⟨hid2, hrest⟩
  · intro pl hm oid hoid
    obtain ⟨ord, hfo, hi2, hp2, hs2⟩ := w5 pl hm oid hoid
    by_cases he : oid = i
    · subst he
      rw [hfo] at hf
      injection hf with h9
      subst h9
      refine ⟨o, findA_setA_self _ _ _, ?_, ?_, ?_⟩
      · rw [hid, hi2]
      · rw [hpr, hp2]
      · rw [hsd, hs2]
    · refine ⟨ord, ?_, hi2, hp2, hs2⟩
      rw [show (b.write_order i o).orders = setA b.orders i o from rfl,
        findA_setA_ne _ _ _ _ he]
      exact hfo
  · intro pl hm oid hoid
    obtain ⟨ord, hfo, hi2, hp2, hs2⟩ := w6 pl hm oid hoid
    by_cases he : oid = i
    · subst he
      rw [hfo] at hf
      injection hf with h9
      subst h9
      refine ⟨o, findA_setA_self _ _ _, ?_, ?_, ?_⟩
      · rw [hid, hi2]
      · rw [hpr, hp2]
      · rw [hsd, hs2]
    · refine ⟨ord, ?_, hi2, hp2, hs2⟩
      rw [show (b.write_order i o).orders = setA b.orders i o from rfl,
        findA_setA_ne _ _ _ _ he]
      exact hfo

/-- Ask levels after remove_order come from the prior map or sit at the
removed order price. -/
theorem remove_order_sell_mem (b : OrderBook) (i : Nat)
    (pl : Int × PriceLevel) (hm : pl ∈ (b.remove_order i).2.sell_levels) :
    pl ∈ b.sell_levels ∨
      ∃ o2, findA b.orders i = some o2 ∧ pl.1 = o2.price := by
  unfold OrderBook.remove_order at hm
  cases hfa : findA b.orders i with
  | none =>
    rw [hfa] at hm
    exact Or.inl hm
  | some o =>
    rw [hfa] at hm
    dsimp only at hm
    split at hm
    · split at hm
      · split at hm
        · exact Or.inl hm
        · exact Or.inl hm
      · exact Or.inl hm
    · split at hm
      · split at hm
        · rw [show ∀ b2 : OrderBook,
              b2.update_best_ask.sell_levels = b2.sell_levels
              from fun b2 => rfl] at hm
          have h1 := mem_cleanup_sub _ _ _ hm
          rcases mem_setA_sub _ _ _ _ h1 with h2 | h2
          · exact Or.inr ⟨o, rfl, by rw [h2]⟩
          · exact Or.inl h2
        · have h1 := mem_cleanup_sub _ _ _ hm
          rcases mem_setA_sub _ _ _ _ h1 with h2 | h2
          · exact Or.inr ⟨o, rfl, by rw [h2]⟩
          · exact Or.inl h2
      · rcases mem_setA_sub _ _ _ _ hm with h2 | h2
        · exact Or.inr ⟨o, rfl, by rw [h2]⟩
        · exact Or.inl h2

/-- Bid levels after remove_order come from the prior map or sit at the
removed order price. -/
theorem remove_order_buy_mem (b : OrderBook) (i : Nat)
    (pl : Int × PriceLevel) (hm : pl ∈ (b.remove_order i).2.buy_levels) :
    pl ∈ b.buy_levels ∨
      ∃ o2, findA b.orders i = some o2 ∧ pl.1 = o2.price := by
  unfold OrderBook.remove_order at hm
  cases hfa : findA b.orders i with
  | none =>
    rw [hfa] at hm
    exact Or.inl hm
  | some o =>
    rw [hfa] at hm
    dsimp only at hm
    split at hm
    · split at hm
      · split at hm
        · rw [show ∀ b2 : OrderBook,
              b2.update_best_bid.buy_levels = b2.buy_levels
              from fun b2 => rfl] at hm
          have h1 := mem_cleanup_sub _ _ _ hm
          rcases mem_setA_sub _ _ _ _ h1 with h2 | h2
          · exact Or.inr ⟨o, rfl, by rw [h2]⟩
          · exact Or.inl h2
        · have h1 := mem_cleanup_sub _ _ _ hm
          rcases mem_setA_sub _ _ _ _ h1 with h2 | h2
          · exact Or.inr ⟨o, rfl, by rw [h2]⟩
          · exact Or.inl h2
      · rcases mem_setA_sub _ _ _ _ hm with h2 | h2
        · exact Or.inr ⟨o, rfl, by rw [h2]⟩
        · exact Or.inl h2
    · split at hm
      · split at hm
        · exact Or.inl hm
        · exact Or.inl hm
      · exact Or.inl hm

/-- Removing an order at or above the cached best ask can only raise
(or clear) the best ask. -/
theorem remove_order_best_ask_ge (b : OrderBook) (i : Nat) (hwf : wfBook b)
    (hhas : b.has_best_ask = true)
    (ho : ∀ o2, findA b.orders i = some o2 → b.best_ask ≤ o2.price)
    (hhas2 : (b.remove_order i).2.has_best_ask = true) :
    b.best_ask ≤ (b.remove_order i).2.best_ask := by
  have hwf2 := wf_remove b i hwf
  obtain ⟨-, -, -, -, -, -, -, -, -, w10'⟩ := hwf2
  obtain ⟨⟨pl, hm, hemp, hpe⟩, -⟩ := w10'.2 hhas2
  rw [← hpe]
  rcases remove_order_sell_mem b i pl hm with hold | ⟨o2, hfo, hpr⟩
  · obtain ⟨-, -, -, -, -, -, -, -, -, w10⟩ := hwf
    exact (w10.2 hhas).2 pl hold hemp
  · rw [hpr]
    exact ho o2 hfo

/-- Removing an order at or below the cached best bid can only lower
(or clear) the best bid. -/
theorem remove_order_best_bid_le (b : OrderBook) (i : Nat) (hwf : wfBook b)
    (hhas : b.has_best_bid = true)
    (ho : ∀ o2, findA b.orders i = some o2 → o2.price ≤ b.best_bid)
    (hhas2 : (b.remove_order i).2.has_best_bid = true) :
    (b.remove_order i).2.best_bid ≤ b.best_bid := by
  have hwf2 := wf_remove b i hwf
  obtain ⟨-, -, -, -, -, -, -, -, w9', -⟩ := hwf2
  obtain ⟨⟨pl, hm, hemp, hpe⟩, -⟩ := w9'.2 hhas2
  rw [← hpe]
  rcases remove_order_buy_mem b i pl hm with hold | ⟨o2, hfo, hpr⟩
  · obtain ⟨-, -, -, -, -, -, -, -, w9, -⟩ := hwf
    exact (w9.2 hhas).2 pl hold hemp
  · rw [hpr]
    exact ho o2 hfo


/-- Effect of remove_order on ask queues: for a resting sell order the
queue at its price loses exactly its id; every other ask queue is
untouched. -/
theorem remove_order_ask_queue (b : OrderBook) (i : Nat) (o2 : Order)
    (hwf : wfBook b) (hfa : findA b.orders i = some o2)
    (hs : o2.is_buy = false) :
    (∀ p, p ≠ o2.price →
      askQueueAt (b.remove_order i).2 p = askQueueAt b p) ∧
    askQueueAt (b.remove_order i).2 o2.price =
      (askQueueAt b o2.price).erase i := by
  obtain ⟨w1, w2, w3, w4, w5, w6, w7, w8, w9, w10⟩ := hwf
  rw [ordersLinked_iff] at w4
  obtain ⟨hid, l0, hl0, hql0⟩ := w4 (i, o2) (mem_of_findA_eq_some _ _ _ hfa)
  dsimp only at hid hl0 hql0
  rw [side_of_not_buy o2 hs, sideLevels_sell] at hl0
  have hc0 : l0.order_count = l0.queue.length ∧ l0.queue.Nodup :=
    w8 (o2.price, l0) (mem_of_findA_eq_some _ _ _ hl0)
  unfold OrderBook.remove_order
  simp only [hfa]
  rw [if_neg (by simp [hs])]
  dsimp only
  rw [hl0]
  dsimp only [Option.getD]
  split
  next hempty =>
    have hclean : cleanup_empty_level
        (setA b.sell_levels o2.price (l0.remove_order o2)) o2.price =
        eraseA b.sell_levels o2.price := by
      unfold cleanup_empty_level
      rw [findA_setA_self]
      dsimp only
      rw [if_pos hempty]
      exact eraseA_setA_self _ _ _ l0 hl0
    rw [hclean]
    have h1 : l0.order_count - 1 = 0 := by
      simpa [PriceLevel.is_empty, PriceLevel.remove_order] using hempty
    have h3 : (l0.queue.erase i).length = l0.queue.length - 1 :=
      List.length_erase_of_mem hql0
    have hqe : l0.queue.erase i = [] := by
      apply List.eq_nil_of_length_eq_zero
      rw [h3, ← hc0.1]
      exact h1
    split
    next hcond =>
      constructor
      · intro p hp
        unfold askQueueAt
        rw [update_best_ask_sell_levels]
        dsimp only
        rw [findA_eraseA_ne _ _ _ hp]
      · unfold askQueueAt
        rw [update_best_ask_sell_levels]
        dsimp only
        rw [findA_eraseA_self _ _ w3, hl0]
        dsimp only
        exact hqe.symm
    next hcond =>
      constructor
      · intro p hp
        unfold askQueueAt
        dsimp only
        rw [findA_eraseA_ne _ _ _ hp]
      · unfold askQueueAt
        dsimp only
        rw [findA_eraseA_self _ _ w3, hl0]
        dsimp only
        exact hqe.symm
  next hne =>
    constructor
    · intro p hp
      unfold askQueueAt
      dsimp only
      rw [findA_setA_ne _ _ _ _ hp]
    · unfold askQueueAt
      dsimp only
      rw [findA_setA_self, hl0]
      dsimp only [PriceLevel.remove_order]
      rw [hid]

/-- Effect of remove_order on bid queues: for a resting buy order the
queue at its price loses exactly its id; every other ask queue is
untouched. -/
theorem remove_order_bid_queue (b : OrderBook) (i : Nat) (o2 : Order)
    (hwf : wfBook b) (hfa : findA b.orders i = some o2)
    (hs : o2.is_buy = true) :
    (∀ p, p ≠ o2.price →
      bidQueueAt (b.remove_order i).2 p = bidQueueAt b p) ∧
    bidQueueAt (b.remove_order i).2 o2.price =
      (bidQueueAt b o2.price).erase i := by
  obtain ⟨w1, w2, w3, w4, w5, w6, w7, w8, w9, w10⟩ := hwf
  rw [ordersLinked_iff] at w4
  obtain ⟨hid, l0, hl0, hql0⟩ := w4 (i, o2) (mem_of_findA_eq_some _ _ _ hfa)
  dsimp only at hid hl0 hql0
  rw [side_of_buy o2 hs, sideLevels_buy] at hl0
  have hc0 : l0.order_count = l0.queue.length ∧ l0.queue.Nodup :=
    w7 (o2.price, l0) (mem_of_findA_eq_some _ _ _ hl0)
  unfold OrderBook.remove_order
  simp only [hfa]
  rw [if_pos hs]
  dsimp only
  rw [hl0]
  dsimp only [Option.getD]
  split
  next hempty =>
    have hclean : cleanup_empty_level
        (setA b.buy_levels o2.price (l0.remove_order o2)) o2.price =
        eraseA b.buy_levels o2.price := by
      unfold cleanup_empty_level
      rw [findA_setA_self]
      dsimp only
      rw [if_pos hempty]
      exact eraseA_setA_self _ _ _ l0 hl0
    rw [hclean]
    have h1 : l0.order_count - 1 = 0 := by
      simpa [PriceLevel.is_empty, PriceLevel.remove_order] using hempty
    have h3 : (l0.queue.erase i).length = l0.queue.length - 1 :=
      List.length_erase_of_mem hql0
    have hqe : l0.queue.erase i = [] := by
      apply List.eq_nil_of_length_eq_zero
      rw [h3, ← hc0.1]
      exact h1
    split
    next hcond =>
      constructor
      · intro p hp
        unfold bidQueueAt
        rw [update_best_bid_buy_levels]
        dsimp only
        rw [findA_eraseA_ne _ _ _ hp]
      · unfold bidQueueAt
        rw [update_best_bid_buy_levels]
        dsimp only
        rw [findA_eraseA_self _ _ w2, hl0]
        dsimp only
        exact hqe.symm
    next hcond =>
      constructor
      · intro p hp
        unfold bidQueueAt
        dsimp only
        rw [findA_eraseA_ne _ _ _ hp]
      · unfold bidQueueAt
        dsimp only
        rw [findA_eraseA_self _ _ w2, hl0]
        dsimp only
        exact hqe.symm
  next hne =>
    constructor
    · intro p hp
      unfold bidQueueAt
      dsimp only
      rw [findA_setA_ne _ _ _ _ hp]
    · unfold bidQueueAt
      dsimp only
      rw [findA_setA_self, hl0]
      dsimp only [PriceLevel.remove_order]
      rw [hid]


/-- makerIdsAt distributes over a cons whose head trades at p. -/
theorem makerIdsAt_cons_eq (p : Int) (t : Trade) (ts2 : List Trade)
    (h : t.price = p) :
    makerIdsAt p (t :: ts2) = t.maker_id :: makerIdsAt p ts2 := by
  unfold makerIdsAt
  rw [List.filter_cons, if_pos (by simp [h]), List.map_cons]

/-- makerIdsAt skips a cons whose head trades away from p. -/
theorem makerIdsAt_cons_ne (p : Int) (t : Trade) (ts2 : List Trade)
    (h : ¬ t.price = p) :
    makerIdsAt p (t :: ts2) = makerIdsAt p ts2 := by
  unfold makerIdsAt
  rw [List.filter_cons, if_neg (by simp [h])]

/-- Maker discipline of the buy loop: under the book invariant every
emitted trade prices at or above the pre-loop best ask, its maker
rests on the ask side of the pre-loop book at the trade price, trade
prices are non-decreasing along the list, and per price the maker ids
form a prefix of the pre-loop FIFO queue of that ask level. -/
theorem matchBuyFuel_maker_spec (ts fuel : Nat) (book : OrderBook)
    (o : Order) (hwf : wfBook book) :
    (∀ t ∈ (matchBuyFuel ts fuel book o).2.2.1,
      book.has_best_ask = true ∧ book.get_best_ask ≤ t.price ∧
      ∃ ord, findA book.orders t.maker_id = some ord ∧
        ord.id = t.maker_id ∧ ord.price = t.price ∧
        ord.side = Side.Sell) ∧
    List.Pairwise (fun t1 t2 => t1.price ≤ t2.price)
      (matchBuyFuel ts fuel book o).2.2.1 ∧
    ∀ p : Int, List.IsPrefix
      (makerIdsAt p (matchBuyFuel ts fuel book o).2.2.1)
      (askQueueAt book p) := by
  induction fuel generalizing book o with
  | zero =>
    exact ⟨fun t ht => absurd ht (List.not_mem_nil t), List.Pairwise.nil,
      fun p => List.nil_prefix⟩
  | succ n ih =>
    rw [matchBuyFuel]
    dsimp only
    split
    case isFalse =>
      exact ⟨fun t ht => absurd ht (List.not_mem_nil t), List.Pairwise.nil,
        fun p => List.nil_prefix⟩
    case isTrue hcond =>
      have hhas : book.has_best_ask = true := by
        simp only [Bool.and_eq_true] at hcond
        exact hcond.2
      split
      case isFalse =>
        exact ⟨fun t ht => absurd ht (List.not_mem_nil t), List.Pairwise.nil,
          fun p => List.nil_prefix⟩
      case isTrue hpr2 =>
        split
        case h_1 =>
          exact ⟨fun t ht => absurd ht (List.not_mem_nil t),
            List.Pairwise.nil, fun p => List.nil_prefix⟩
        case h_2 level hlevel =>
          split
          case isTrue =>
            exact ⟨fun t ht => absurd ht (List.not_mem_nil t),
              List.Pairwise.nil, fun p => List.nil_prefix⟩
          case isFalse hnemp =>
            split
            case h_1 =>
              exact ⟨fun t ht => absurd ht (List.not_mem_nil t),
                List.Pairwise.nil, fun p => List.nil_prefix⟩
            case h_2 sid hsid =>
              split
              case h_1 =>
                exact ⟨fun t ht => absurd ht (List.not_mem_nil t),
                  List.Pairwise.nil, fun p => List.nil_prefix⟩
              case h_2 sell_order hsell =>
                have hfo : findA book.orders sid = some sell_order := hsell
                have hlev : findA book.sell_levels book.get_best_ask =
                    some level := hlevel
                have hh0 : level.queue.head? = some sid := hsid
                obtain ⟨qrest, hq⟩ : ∃ qrest, level.queue = sid :: qrest := by
                  cases hql : level.queue with
                  | nil =>
                    rw [hql] at hh0
                    cases hh0
                  | cons a l2 =>
                    rw [hql, List.head?_cons] at hh0
                    injection hh0 with h9
                    exact ⟨l2, by rw [h9]⟩
                have hsidmem : sid ∈ level.queue := by
                  rw [hq]
                  exact List.mem_cons_self _ _
                have hwfc := hwf
                obtain ⟨w1, w2, w3, w4, w5, w6, w7, w8, w9, w10⟩ := hwfc
                rw [levelsLinked_iff] at w6
                obtain ⟨ord, hfo2, hi2, hp2, hs2⟩ :=
                  w6 (book.get_best_ask, level)
                    (mem_of_findA_eq_some _ _ _ hlev) sid hsidmem
                rw [hfo] at hfo2
                injection hfo2 with h9
                subst h9
                have hwf2 : wfBook (book.write_order sid (sell_order.fill
                    (min o.remaining_quantity
                      sell_order.remaining_quantity))) :=
                  wf_write_order book sid sell_order _ hwf hfo rfl rfl rfl
                have hfb2 : findA (book.write_order sid (sell_order.fill
                    (min o.remaining_quantity
                      sell_order.remaining_quantity))).orders sid =
                    some (sell_order.fill (min o.remaining_quantity
                      sell_order.remaining_quantity)) :=
                  findA_setA_self _ _ _
                have hga : book.get_best_ask = book.best_ask := by
                  unfold OrderBook.get_best_ask
                  rw [if_pos hhas]
                have haq : askQueueAt book book.get_best_ask =
                    sid :: qrest := by
                  unfold askQueueAt
                  rw [hlev]
                  exact hq
                have hsp : (sell_order.fill (min o.remaining_quantity
                    sell_order.remaining_quantity)).price =
                    book.get_best_ask := hp2
                split
                case isTrue hfill =>
                  have hwfS : wfBook (((book.write_order sid
                      (sell_order.fill (min o.remaining_quantity
                        sell_order.remaining_quantity))).remove_order
                          sid).2) :=
                    wf_remove _ sid hwf2
                  obtain ⟨ih1, ih2, ih3⟩ :=
                    ih _ (o.fill (min o.remaining_quantity
                      sell_order.remaining_quantity)) hwfS
                  have hsb : (sell_order.fill (min o.remaining_quantity
                      sell_order.remaining_quantity)).is_buy = false := by
                    simp [Order.is_buy, Order.fill, hs2]
                  have hrq := remove_order_ask_queue _ sid _ hwf2 hfb2 hsb
                  have htrans : ∀ j ord3,
                      findA (((book.write_order sid (sell_order.fill
                        (min o.remaining_quantity
                          sell_order.remaining_quantity))).remove_order
                            sid).2).orders j = some ord3 →
                      ∃ ord0, findA book.orders j = some ord0 ∧
                        ord0.id = ord3.id ∧ ord0.price = ord3.price ∧
                        ord0.side = ord3.side := by
                    intro j ord3 hj
                    rw [remove_order_orders_some _ _ _ hfb2] at hj
                    by_cases hji : j = sid
                    · subst hji
                      rw [findA_eraseA_self _ _ hwf2.1] at hj
                      cases hj
                    · rw [findA_eraseA_ne _ _ _ hji, write_order_orders,
                        findA_setA_ne _ _ _ _ hji] at hj
                      exact ⟨ord3, hj, rfl, rfl, rfl⟩
                  have hbestle : (((book.write_order sid (sell_order.fill
                      (min o.remaining_quantity
                        sell_order.remaining_quantity))).remove_order
                          sid).2).has_best_ask = true →
                      book.get_best_ask ≤
                      (((book.write_order sid (sell_order.fill
                        (min o.remaining_quantity
                          sell_order.remaining_quantity))).remove_order
                            sid).2).get_best_ask := by
                    intro hh2
                    have hox : ∀ o3, findA (book.write_order sid
                        (sell_order.fill (min o.remaining_quantity
                          sell_order.remaining_quantity))).orders sid =
                        some o3 →
                        (book.write_order sid (sell_order.fill
                          (min o.remaining_quantity
                            sell_order.remaining_quantity))).best_ask ≤
                          o3.price := by
                      intro o3 h3
                      rw [hfb2] at h3
                      injection h3 with h4
                      subst h4
                      show book.best_ask ≤ (sell_order.fill
                        (min o.remaining_quantity
                          sell_order.remaining_quantity)).price
                      rw [hsp, hga]
                    have hle := remove_order_best_ask_ge _ sid hwf2 hhas
                      hox hh2
                    have hga2 : (((book.write_order sid (sell_order.fill
                        (min o.remaining_quantity
                          sell_order.remaining_quantity))).remove_order
                            sid).2).get_best_ask =
                        (((book.write_order sid (sell_order.fill
                          (min o.remaining_quantity
                            sell_order.remaining_quantity))).remove_order
                              sid).2).best_ask := by
                      unfold OrderBook.get_best_ask
                      rw [if_pos hh2]
                    rw [hga, hga2]
                    exact hle
                  dsimp only
                  refine ⟨?_, ?_, ?_⟩
                  · intro t ht
                    rcases List.mem_cons.mp ht with he | hrest
                    · subst he
                      refine ⟨hhas, le_refl _, sell_order, ?_, rfl, hp2,
                        hs2⟩
                      show findA book.orders sell_order.id =
                        some sell_order
                      rw [hi2]
                      exact hfo
                    · obtain ⟨hhas3, hle3, ord3, hfo3, hi3, hp3, hs3⟩ :=
                        ih1 t hrest
                      obtain ⟨ord0, hf0, hid0, hpr0, hsd0⟩ :=
                        htrans t.maker_id ord3 hfo3
                      refine ⟨hhas, le_trans (hbestle hhas3) hle3, ord0,
                        hf0, ?_, ?_, ?_⟩
                      · rw [hid0, hi3]
                      · rw [hpr0, hp3]
                      · rw [hsd0, hs3]
                  · refine List.Pairwise.cons ?_ ih2
                    intro t2 ht2
                    obtain ⟨hhas3, hle3, -⟩ := ih1 t2 ht2
                    exact le_trans (hbestle hhas3) hle3
                  · intro p
                    by_cases hp : p = book.get_best_ask
                    · subst hp
                      rw [makerIdsAt_cons_eq book.get_best_ask
                        (Trade.mk sell_order.id o.id o.symbol
                        book.get_best_ask (min o.remaining_quantity
                          sell_order.remaining_quantity) ts) _ rfl]
                      obtain ⟨tl, htl⟩ := ih3 book.get_best_ask
                      refine ⟨tl, ?_⟩
                      rw [List.cons_append, htl, haq]
                      have h2 := hrq.2
                      rw [hsp, write_order_ask_queue, haq,
                        List.erase_cons_head] at h2
                      rw [h2]
                      congr 1
                    · rw [makerIdsAt_cons_ne p
                        (Trade.mk sell_order.id o.id o.symbol
                        book.get_best_ask (min o.remaining_quantity
                          sell_order.remaining_quantity) ts) _ (fun h => hp h.symm)]
                      have h2 := (hrq.1 p (fun hx => hp (hx.trans hsp))).trans
                        (write_order_ask_queue book sid _ p)
                      rw [← h2]
                      exact ih3 p
                case isFalse hnfill =>
                  have hwfS : wfBook ((book.write_order sid
                      (sell_order.fill (min o.remaining_quantity
                        sell_order.remaining_quantity))).update_order_quantity
                          sid sell_order.remaining_quantity) :=
                    wf_update _ sid _ hwf2
                  obtain ⟨ih1, ih2, ih3⟩ :=
                    ih _ (o.fill (min o.remaining_quantity
                      sell_order.remaining_quantity)) hwfS
                  have htrans : ∀ j ord3,
                      findA ((book.write_order sid (sell_order.fill
                        (min o.remaining_quantity
                          sell_order.remaining_quantity))).update_order_quantity
                            sid sell_order.remaining_quantity).orders j =
                        some ord3 →
                      ∃ ord0, findA book.orders j = some ord0 ∧
                        ord0.id = ord3.id ∧ ord0.price = ord3.price ∧
                        ord0.side = ord3.side := by
                    intro j ord3 hj
                    rw [update_order_quantity_orders, write_order_orders]
                      at hj
                    by_cases hji : j = sid
                    · subst hji
                      rw [findA_setA_self] at hj
                      injection hj with h4
                      subst h4
                      exact ⟨sell_order, hfo, rfl, rfl, rfl⟩
                    · rw [findA_setA_ne _ _ _ _ hji] at hj
                      exact ⟨ord3, hj, rfl, rfl, rfl⟩
                  have heq := update_order_quantity_best
                    (book.write_order sid (sell_order.fill
                      (min o.remaining_quantity
                        sell_order.remaining_quantity))) sid
                    sell_order.remaining_quantity
                  have hbestle : ((book.write_order sid (sell_order.fill
                      (min o.remaining_quantity
                        sell_order.remaining_quantity))).update_order_quantity
                          sid sell_order.remaining_quantity).has_best_ask =
                        true →
                      book.get_best_ask ≤
                      ((book.write_order sid (sell_order.fill
                        (min o.remaining_quantity
                          sell_order.remaining_quantity))).update_order_quantity
                            sid sell_order.remaining_quantity).get_best_ask := by
                    intro hh2
                    apply le_of_eq
                    unfold OrderBook.get_best_ask
                    rw [heq.1, heq.2.1]
                    rfl
                  have ho2 : (o.fill (min o.remaining_quantity
                      sell_order.remaining_quantity)).remaining_quantity =
                      0 := by
                    have hf2 : ¬ (sell_order.fill (min o.remaining_quantity
                        sell_order.remaining_quantity)).is_filled = true :=
                      hnfill
                    simp only [Order.is_filled, Order.fill,
                      decide_eq_true_eq] at hf2 ⊢
                    rcases le_total o.remaining_quantity
                      sell_order.remaining_quantity with h5 | h5
                    · rw [min_eq_left h5]
                      omega
                    · rw [min_eq_right h5] at hf2 ⊢
                      omega
                  have hrt : (matchBuyFuel ts n ((book.write_order sid
                      (sell_order.fill (min o.remaining_quantity
                        sell_order.remaining_quantity))).update_order_quantity
                          sid sell_order.remaining_quantity)
                      (o.fill (min o.remaining_quantity
                        sell_order.remaining_quantity))).2.2.1 = [] := by
                    rw [matchBuyFuel_zero_rem ts n _ _ ho2]
                  dsimp only
                  refine ⟨?_, ?_, ?_⟩
                  · intro t ht
                    rcases List.mem_cons.mp ht with he | hrest
                    · subst he
                      refine ⟨hhas, le_refl _, sell_order, ?_, rfl, hp2,
                        hs2⟩
                      show findA book.orders sell_order.id =
                        some sell_order
                      rw [hi2]
                      exact hfo
                    · rw [hrt] at hrest
                      cases hrest
                  · refine List.Pairwise.cons ?_ ?_
                    · intro t2 ht2
                      rw [hrt] at ht2
                      cases ht2
                    · rw [hrt]
                      exact List.Pairwise.nil
                  · intro p
                    by_cases hp : p = book.get_best_ask
                    · subst hp
                      rw [makerIdsAt_cons_eq book.get_best_ask
                        (Trade.mk sell_order.id o.id o.symbol
                        book.get_best_ask (min o.remaining_quantity
                          sell_order.remaining_quantity) ts) _ rfl, hrt]
                      refine ⟨qrest, ?_⟩
                      rw [haq]
                      rw [show makerIdsAt book.get_best_ask
                        ([] : List Trade) = [] from rfl]
                      simp only [List.cons_append, List.nil_append]
                      rw [hi2]
                    · rw [makerIdsAt_cons_ne p
                        (Trade.mk sell_order.id o.id o.symbol
                        book.get_best_ask (min o.remaining_quantity
                          sell_order.remaining_quantity) ts) _ (fun h => hp h.symm), hrt]
                      exact ⟨askQueueAt book p,
                        by rw [show makerIdsAt p ([] : List Trade) = []
                          from rfl, List.nil_append]⟩


/-- Maker discipline of the sell loop: under the book invariant every
emitted trade prices at or below the pre-loop best bid, its maker
rests on the bid side of the pre-loop book at the trade price, trade
prices are non-increasing along the list, and per price the maker ids
form a prefix of the pre-loop FIFO queue of that bid level. -/
theorem matchSellFuel_maker_spec (ts fuel : Nat) (book : OrderBook)
    (o : Order) (hwf : wfBook book) :
    (∀ t ∈ (matchSellFuel ts fuel book o).2.2.1,
      book.has_best_bid = true ∧ t.price ≤ book.get_best_bid ∧
      ∃ ord, findA book.orders t.maker_id = some ord ∧
        ord.id = t.maker_id ∧ ord.price = t.price ∧
        ord.side = Side.Buy) ∧
    List.Pairwise (fun t1 t2 => t2.price ≤ t1.price)
      (matchSellFuel ts fuel book o).2.2.1 ∧
    ∀ p : Int, List.IsPrefix
      (makerIdsAt p (matchSellFuel ts fuel book o).2.2.1)
      (bidQueueAt book p) := by
  induction fuel generalizing book o with
  | zero =>
    exact ⟨fun t ht => absurd ht (List.not_mem_nil t), List.Pairwise.nil,
      fun p => List.nil_prefix⟩
  | succ n ih =>
    rw [matchSellFuel]
    dsimp only
    split
    case isFalse =>
      exact ⟨fun t ht => absurd ht (List.not_mem_nil t), List.Pairwise.nil,
        fun p => List.nil_prefix⟩
    case isTrue hcond =>
      have hhas : book.has_best_bid = true := by
        simp only [Bool.and_eq_true] at hcond
        exact hcond.2
      split
      case isFalse =>
        exact ⟨fun t ht => absurd ht (List.not_mem_nil t), List.Pairwise.nil,
          fun p => List.nil_prefix⟩
      case isTrue hpr2 =>
        split
        case h_1 =>
          exact ⟨fun t ht => absurd ht (List.not_mem_nil t),
            List.Pairwise.nil, fun p => List.nil_prefix⟩
        case h_2 level hlevel =>
          split
          case isTrue =>
            exact ⟨fun t ht => absurd ht (List.not_mem_nil t),
              List.Pairwise.nil, fun p => List.nil_prefix⟩
          case isFalse hnemp =>
            split
            case h_1 =>
              exact ⟨fun t ht => absurd ht (List.not_mem_nil t),
                List.Pairwise.nil, fun p => List.nil_prefix⟩
            case h_2 sid hsid =>
              split
              case h_1 =>
                exact ⟨fun t ht => absurd ht (List.not_mem_nil t),
                  List.Pairwise.nil, fun p => List.nil_prefix⟩
              case h_2 buy_order hsell =>
                have hfo : findA book.orders sid = some buy_order := hsell
                have hlev : findA book.buy_levels book.get_best_bid =
                    some level := hlevel
                have hh0 : level.queue.head? = some sid := hsid
                obtain ⟨qrest, hq⟩ : ∃ qrest, level.queue = sid :: qrest := by
                  cases hql : level.queue with
                  | nil =>
                    rw [hql] at hh0
                    cases hh0
                  | cons a l2 =>
                    rw [hql, List.head?_cons] at hh0
                    injection hh0 with h9
                    exact ⟨l2, by rw [h9]⟩
                have hsidmem : sid ∈ level.queue := by
                  rw [hq]
                  exact List.mem_cons_self _ _
                have hwfc := hwf
                obtain ⟨w1, w2, w3, w4, w5, w6, w7, w8, w9, w10⟩ := hwfc
                rw [levelsLinked_iff] at w5
                obtain ⟨ord, hfo2, hi2, hp2, hs2⟩ :=
                  w5 (book.get_best_bid, level)
                    (mem_of_findA_eq_some _ _ _ hlev) sid hsidmem
                rw [hfo] at hfo2
                injection hfo2 with h9
                subst h9
                have hwf2 : wfBook (book.write_order sid (buy_order.fill
                    (min o.remaining_quantity
                      buy_order.remaining_quantity))) :=
                  wf_write_order book sid buy_order _ hwf hfo rfl rfl rfl
                have hfb2 : findA (book.write_order sid (buy_order.fill
                    (min o.remaining_quantity
                      buy_order.remaining_quantity))).orders sid =
                    some (buy_order.fill (min o.remaining_quantity
                      buy_order.remaining_quantity)) :=
                  findA_setA_self _ _ _
                have hga : book.get_best_bid = book.best_bid := by
                  unfold OrderBook.get_best_bid
                  rw [if_pos hhas]
                have haq : bidQueueAt book book.get_best_bid =
                    sid :: qrest := by
                  unfold bidQueueAt
                  rw [hlev]
                  exact hq
                have hsp : (buy_order.fill (min o.remaining_quantity
                    buy_order.remaining_quantity)).price =
                    book.get_best_bid := hp2
                split
                case isTrue hfill =>
                  have hwfS : wfBook (((book.write_order sid
                      (buy_order.fill (min o.remaining_quantity
                        buy_order.remaining_quantity))).remove_order
                          sid).2) :=
                    wf_remove _ sid hwf2
                  obtain ⟨ih1, ih2, ih3⟩ :=
                    ih _ (o.fill (min o.remaining_quantity
                      buy_order.remaining_quantity)) hwfS
                  have hsb : (buy_order.fill (min o.remaining_quantity
                      buy_order.remaining_quantity)).is_buy = true := by
                    simp [Order.is_buy, Order.fill, hs2]
                  have hrq := remove_order_bid_queue _ sid _ hwf2 hfb2 hsb
                  have htrans : ∀ j ord3,
                      findA (((book.write_order sid (buy_order.fill
                        (min o.remaining_quantity
                          buy_order.remaining_quantity))).remove_order
                            sid).2).orders j = some ord3 →
                      ∃ ord0, findA book.orders j = some ord0 ∧
                        ord0.id = ord3.id ∧ ord0.price = ord3.price ∧
                        ord0.side = ord3.side := by
                    intro j ord3 hj
                    rw [remove_order_orders_some _ _ _ hfb2] at hj
                    by_cases hji : j = sid
                    · subst hji
                      rw [findA_eraseA_self _ _ hwf2.1] at hj
                      cases hj
                    · rw [findA_eraseA_ne _ _ _ hji, write_order_orders,
                        findA_setA_ne _ _ _ _ hji] at hj
                      exact ⟨ord3, hj, rfl, rfl, rfl⟩
                  have hbestle : (((book.write_order sid (buy_order.fill
                      (min o.remaining_quantity
                        buy_order.remaining_quantity))).remove_order
                          sid).2).has_best_bid = true →
                      (((book.write_order sid (buy_order.fill
                        (min o.remaining_quantity
                          buy_order.remaining_quantity))).remove_order
                            sid).2).get_best_bid ≤
                      book.get_best_bid := by
                    intro hh2
                    have hox : ∀ o3, findA (book.write_order sid
                        (buy_order.fill (min o.remaining_quantity
                          buy_order.remaining_quantity))).orders sid =
                        some o3 →
                        o3.price ≤
                        (book.write_order sid (buy_order.fill
                          (min o.remaining_quantity
                            buy_order.remaining_quantity))).best_bid := by
                      intro o3 h3
                      rw [hfb2] at h3
                      injection h3 with h4
                      subst h4
                      show (buy_order.fill
                        (min o.remaining_quantity
                          buy_order.remaining_quantity)).price ≤
                        book.best_bid
                      rw [hsp, hga]
                    have hle := remove_order_best_bid_le _ sid hwf2 hhas
                      hox hh2
                    have hga2 : (((book.write_order sid (buy_order.fill
                        (min o.remaining_quantity
                          buy_order.remaining_quantity))).remove_order
                            sid).2).get_best_bid =
                        (((book.write_order sid (buy_order.fill
                          (min o.remaining_quantity
                            buy_order.remaining_quantity))).remove_order
                              sid).2).best_bid := by
                      unfold OrderBook.get_best_bid
                      rw [if_pos hh2]
                    rw [hga, hga2]
                    exact hle
                  dsimp only
                  refine ⟨?_, ?_, ?_⟩
                  · intro t ht
                    rcases List.mem_cons.mp ht with he | hrest
                    · subst he
                      refine ⟨hhas, le_refl _, buy_order, ?_, rfl, hp2,
                        hs2⟩
                      show findA book.orders buy_order.id =
                        some buy_order
                      rw [hi2]
                      exact hfo
                    · obtain ⟨hhas3, hle3, ord3, hfo3, hi3, hp3, hs3⟩ :=
                        ih1 t hrest
                      obtain ⟨ord0, hf0, hid0, hpr0, hsd0⟩ :=
                        htrans t.maker_id ord3 hfo3
                      refine ⟨hhas, le_trans hle3 (hbestle hhas3), ord0,
                        hf0, ?_, ?_, ?_⟩
                      · rw [hid0, hi3]
                      · rw [hpr0, hp3]
                      · rw [hsd0, hs3]
                  · refine List.Pairwise.cons ?_ ih2
                    intro t2 ht2
                    obtain ⟨hhas3, hle3, -⟩ := ih1 t2 ht2
                    exact le_trans hle3 (hbestle hhas3)
                  · intro p
                    by_cases hp : p = book.get_best_bid
                    · subst hp
                      rw [makerIdsAt_cons_eq book.get_best_bid
                        (Trade.mk buy_order.id o.id o.symbol
                        book.get_best_bid (min o.remaining_quantity
                          buy_order.remaining_quantity) ts) _ rfl]
                      obtain ⟨tl, htl⟩ := ih3 book.get_best_bid
                      refine ⟨tl, ?_⟩
                      rw [List.cons_append, htl, haq]
                      have h2 := hrq.2
                      rw [hsp, write_order_bid_queue, haq,
                        List.erase_cons_head] at h2
                      rw [h2]
                      congr 1
                    · rw [makerIdsAt_cons_ne p
                        (Trade.mk buy_order.id o.id o.symbol
                        book.get_best_bid (min o.remaining_quantity
                          buy_order.remaining_quantity) ts) _ (fun h => hp h.symm)]
                      have h2 := (hrq.1 p (fun hx => hp (hx.trans hsp))).trans
                        (write_order_bid_queue book sid _ p)
                      rw [← h2]
                      exact ih3 p
                case isFalse hnfill =>
                  have hwfS : wfBook ((book.write_order sid
                      (buy_order.fill (min o.remaining_quantity
                        buy_order.remaining_quantity))).update_order_quantity
                          sid buy_order.remaining_quantity) :=
                    wf_update _ sid _ hwf2
                  obtain ⟨ih1, ih2, ih3⟩ :=
                    ih _ (o.fill (min o.remaining_quantity
                      buy_order.remaining_quantity)) hwfS
                  have htrans : ∀ j ord3,
                      findA ((book.write_order sid (buy_order.fill
                        (min o.remaining_quantity
                          buy_order.remaining_quantity))).update_order_quantity
                            sid buy_order.remaining_quantity).orders j =
                        some ord3 →
                      ∃ ord0, findA book.orders j = some ord0 ∧
                        ord0.id = ord3.id ∧ ord0.price = ord3.price ∧
                        ord0.side = ord3.side := by
                    intro j ord3 hj
                    rw [update_order_quantity_orders, write_order_orders]
                      at hj
                    by_cases hji : j = sid
                    · subst hji
                      rw [findA_setA_self] at hj
                      injection hj with h4
                      subst h4
                      exact ⟨buy_order, hfo, rfl, rfl, rfl⟩
                    · rw [findA_setA_ne _ _ _ _ hji] at hj
                      exact ⟨ord3, hj, rfl, rfl, rfl⟩
                  have heq := update_order_quantity_best
                    (book.write_order sid (buy_order.fill
                      (min o.remaining_quantity
                        buy_order.remaining_quantity))) sid
                    buy_order.remaining_quantity
                  have hbestle : ((book.write_order sid (buy_order.fill
                      (min o.remaining_quantity
                        buy_order.remaining_quantity))).update_order_quantity
                          sid buy_order.remaining_quantity).has_best_bid =
                        true →
                      ((book.write_order sid (buy_order.fill
                        (min o.remaining_quantity
                          buy_order.remaining_quantity))).update_order_quantity
                            sid buy_order.remaining_quantity).get_best_bid ≤
                      book.get_best_bid := by
                    intro hh2
                    apply le_of_eq
                    unfold OrderBook.get_best_bid
                    rw [heq.2.2.1, heq.2.2.2]
                    rfl
                  have ho2 : (o.fill (min o.remaining_quantity
                      buy_order.remaining_quantity)).remaining_quantity =
                      0 := by
                    have hf2 : ¬ (buy_order.fill (min o.remaining_quantity
                        buy_order.remaining_quantity)).is_filled = true :=
                      hnfill
                    simp only [Order.is_filled, Order.fill,
                      decide_eq_true_eq] at hf2 ⊢
                    rcases le_total o.remaining_quantity
                      buy_order.remaining_quantity with h5 | h5
                    · rw [min_eq_left h5]
                      omega
                    · rw [min_eq_right h5] at hf2 ⊢
                      omega
                  have hrt : (matchSellFuel ts n ((book.write_order sid
                      (buy_order.fill (min o.remaining_quantity
                        buy_order.remaining_quantity))).update_order_quantity
                          sid buy_order.remaining_quantity)
                      (o.fill (min o.remaining_quantity
                        buy_order.remaining_quantity))).2.2.1 = [] := by
                    rw [matchSellFuel_zero_rem ts n _ _ ho2]
                  dsimp only
                  refine ⟨?_, ?_, ?_⟩
                  · intro t ht
                    rcases List.mem_cons.mp ht with he | hrest
                    · subst he
                      refine ⟨hhas, le_refl _, buy_order, ?_, rfl, hp2,
                        hs2⟩
                      show findA book.orders buy_order.id =
                        some buy_order
                      rw [hi2]
                      exact hfo
                    · rw [hrt] at hrest
                      cases hrest
                  · refine List.Pairwise.cons ?_ ?_
                    · intro t2 ht2
                      rw [hrt] at ht2
                      cases ht2
                    · rw [hrt]
                      exact List.Pairwise.nil
                  · intro p
                    by_cases hp : p = book.get_best_bid
                    · subst hp
                      rw [makerIdsAt_cons_eq book.get_best_bid
                        (Trade.mk buy_order.id o.id o.symbol
                        book.get_best_bid (min o.remaining_quantity
                          buy_order.remaining_quantity) ts) _ rfl, hrt]
                      refine ⟨qrest, ?_⟩
                      rw [haq]
                      rw [show makerIdsAt book.get_best_bid
                        ([] : List Trade) = [] from rfl]
                      simp only [List.cons_append, List.nil_append]
                      rw [hi2]
                    · rw [makerIdsAt_cons_ne p
                        (Trade.mk buy_order.id o.id o.symbol
                        book.get_best_bid (min o.remaining_quantity
                          buy_order.remaining_quantity) ts) _ (fun h => hp h.symm), hrt]
                      exact ⟨bidQueueAt book p,
                        by rw [show makerIdsAt p ([] : List Trade) = []
                          from rfl, List.nil_append]⟩


/-! Claim theorems. -/

/-- Claim C10: immediately after clear_all_books, the book count, the
total resting-order count, and the processed-orders counter are all
zero (the counter reset is the implicit extra effect). -/
theorem claim_C10_clear_resets (e : MatchingEngine) :
    e.clear_all_books.get_order_book_count = 0 ∧
    e.clear_all_books.get_total_orders = 0 ∧
    e.clear_all_books.get_processed_orders = 0 :=
  ⟨rfl, rfl, rfl⟩

/-- Claim C9: a Cancel or Modify addressed to a symbol with no book yet
is Rejected, but get_or_create_book has installed a fresh empty book
for that symbol as a side effect: the book is now non-null and the book
count grew by one. -/
theorem claim_C9_lazy_book_creation (e : MatchingEngine) (req : OrderRequest)
    (ts : Nat)
    (habs : findA e.order_books req.order.symbol = none)
    (hty : req.type = OrderRequest.Type.Cancel ∨
      req.type = OrderRequest.Type.Modify) :
    (e.dispatch req ts).1.status = MatchResult.Status.Rejected ∧
    (e.dispatch req ts).2.get_order_book req.order.symbol =
      some (OrderBook.new req.order.symbol) ∧
    (e.dispatch req ts).2.get_order_book_count = e.get_order_book_count + 1 := by
  have hget : (OrderBook.new req.order.symbol).get_order req.order.id = none := rfl
  rcases hty with h | h <;>
  · simp only [MatchingEngine.dispatch, h, MatchingEngine.process_cancel_order,
      MatchingEngine.process_modify_order, MatchingEngine.get_or_create_book,
      habs, hget]
    refine ⟨by trivial, ?_, ?_⟩
    · simp only [MatchingEngine.get_order_book]
      exact findA_setA_self _ _ _
    · simp only [MatchingEngine.get_order_book_count]
      exact length_setA_none _ _ _ habs

/-- Witness for claim C9 at a concrete input: cancelling unknown id
9999 on unseen symbol 42 in a fresh engine. -/
theorem claim_C9_witness :
    (demoEngine.dispatch cancelUnknownReq 0).1.status =
      MatchResult.Status.Rejected ∧
    (demoEngine.dispatch cancelUnknownReq 0).2.get_order_book 42 =
      some (OrderBook.new 42) ∧
    (demoEngine.dispatch cancelUnknownReq 0).2.get_order_book_count =
      demoEngine.get_order_book_count + 1 :=
  claim_C9_lazy_book_creation demoEngine cancelUnknownReq 0 rfl (Or.inl rfl)

/-- Claim C1 failing input, scenario S5 of the spec: the unfillable FOK
buy is Rejected with an empty trade list as claimed, but the book is
NOT unchanged: resting sell id=7 was consumed and destroyed during the
greedy probe before the trades were cleared, so it is gone from the
book (the spec itself flags this greedy-then-undo pattern as a bug of
the reference implementation). -/
theorem claim_C1_fok_partial_effects :
    s5Run.1.status = MatchResult.Status.Rejected ∧
    s5Run.1.trades = [] ∧
    (s5Setup.get_order_book 1).map (fun b => (b.get_order 7).map
      Order.remaining_quantity) = some (some 100) ∧
    (s5Run.2.get_order_book 1).map (fun b => b.get_order 7) = some none ∧
    (s5Run.2.get_order_book 1).map OrderBook.get_order_count = some 0 := by
  decide

/-- Claim C4 failing input: with egress at capacity, process_orders
pops the Add request, applies its effects to the book, fails to push
the result and stops; afterwards the ingress is empty (the request is
not reprocessable), the egress still holds only the old result (the
produced MatchResult is lost), and the processed counter did not
advance, while the book shows the request was applied. -/
theorem claim_C4_egress_drop :
    egressFullRun.input_buffer = [] ∧
    egressFullRun.output_buffer = egressFullEngine.output_buffer ∧
    egressFullRun.processed_orders = 0 ∧
    (egressFullRun.get_order_book 1).map (fun b => (b.get_order 1).isSome) =
      some true := by
  decide

/-- Claim C2 counterexample: with order id=1 already resting, a second
Add with id=1 (non-crossing plain limit) makes add_order fail, but the
engine reports Added, not Rejected. -/
theorem claim_C2_counterexample :
    ((dupSetup.get_order_book 1).map (fun b => (b.get_order 1).isSome) =
      some true) ∧
    dupRun.1.status = MatchResult.Status.Added ∧
    dupRun.1.status ≠ MatchResult.Status.Rejected := by
  decide

/-- Claim C2 amended: OrderBook::add_order does return false exactly on
a duplicate id (true on a fresh id), but the engine ignores that return
value: a duplicate-id plain-limit Add that does not cross reports Added
with the book unchanged (and the pooled copy leaks one pool slot). -/
theorem claim_C2_amended (b : OrderBook) (o : Order) (e : MatchingEngine)
    (req : OrderRequest) (ts : Nat) (book : OrderBook)
    (hbook : findA e.order_books req.order.symbol = some book)
    (hdup : (findA book.orders req.order.id).isSome = true)
    (hava : 0 < e.available)
    (_hmkt : req.order.is_market = false)
    (hioc : req.order.is_ioc = false)
    (hfok : req.order.is_fok = false)
    (hcross : crossesBook book req.order = false)
    (hrem : 0 < req.order.remaining_quantity) :
    ((b.add_order o).1 = true ↔ findA b.orders o.id = none) ∧
    (e.process_add_order req ts).1.status = MatchResult.Status.Added ∧
    (e.process_add_order req ts).2.order_books = e.order_books ∧
    (e.process_add_order req ts).2.available = e.available - 1 := by
  have hnz : ¬ e.available = 0 := Nat.pos_iff_ne_zero.mp hava
  constructor
  · cases hfa : findA b.orders o.id with
    | none =>
      have ht : (b.add_order o).1 = true := by
        unfold OrderBook.add_order
        simp only [hfa, Option.isSome_none, Bool.false_eq_true, if_false]
        split
        · split <;> rfl
        · split <;> rfl
      simp [ht, hfa]
    | some x =>
      have ht : (b.add_order o).1 = false := by
        unfold OrderBook.add_order
        simp only [hfa, Option.isSome_some, if_true]
      simp [ht, hfa]
  · have haddo : book.add_order req.order = (false, book) := by
      unfold OrderBook.add_order
      rw [if_pos hdup]
    unfold MatchingEngine.process_add_order MatchingEngine.get_or_create_book
    simp only [hbook, hnz, if_false, hcross, Bool.false_eq_true, hioc, hfok,
      hrem, decide_eq_true_eq, Bool.not_false, Bool.and_true, haddo,
      List.isEmpty_nil, if_true, decide_True]
    refine ⟨by trivial, ?_, ?_⟩
    · show setA e.order_books req.order.symbol book = e.order_books
      exact setA_eq_of_findA _ _ _ hbook
    · simp [MatchingEngine.set_book]

/-- Witness for claim C2 at the duplicate scenario. -/
theorem claim_C2_witness :
    ((dupBook.add_order dupOrder).1 = true ↔
      findA dupBook.orders dupOrder.id = none) ∧
    (dupSetup.process_add_order (addReqOf dupOrder) 1).1.status =
      MatchResult.Status.Added ∧
    (dupSetup.process_add_order (addReqOf dupOrder) 1).2.order_books =
      dupSetup.order_books ∧
    (dupSetup.process_add_order (addReqOf dupOrder) 1).2.available =
      dupSetup.available - 1 :=
  claim_C2_amended dupBook dupOrder dupSetup (addReqOf dupOrder) 1 dupBook
    (by decide) (by decide) (by decide) (by decide) (by decide) (by decide)
    (by decide) (by decide)

/-- Claim C3 counterexample: an IOC buy on an empty book gets no fill;
the order is discarded, but the result status is Added, not the
Rejected the claim states. -/
theorem claim_C3_counterexample :
    iocNoFillRun.1.trades = [] ∧
    iocNoFillRun.1.status = MatchResult.Status.Added ∧
    iocNoFillRun.1.status ≠ MatchResult.Status.Rejected := by
  decide

/-- Claim C3 amended: an IOC Add never rests in the book (any residual
is discarded and the pooled order destroyed) and is Matched when at
least one fill occurred; with no fill the result is Added, not
Rejected. -/
theorem claim_C3_amended (e : MatchingEngine) (req : OrderRequest)
    (ts : Nat)
    (hioc : req.order.is_ioc = true)
    (hfok : req.order.is_fok = false)
    (hava : 0 < e.available)
    (hid : ∀ book, findA e.order_books req.order.symbol = some book →
      findA book.orders req.order.id = none) :
    ((e.process_add_order req ts).1.trades = [] →
      (e.process_add_order req ts).1.status = MatchResult.Status.Added) ∧
    ((e.process_add_order req ts).1.trades ≠ [] →
      (e.process_add_order req ts).1.status = MatchResult.Status.Matched) ∧
    (∀ book2, (e.process_add_order req ts).2.get_order_book
        req.order.symbol = some book2 →
      findA book2.orders req.order.id = none) := by
  have hnz : ¬ e.available = 0 := Nat.pos_iff_ne_zero.mp hava
  cases hfa : findA e.order_books req.order.symbol with
  | some book =>
    exact process_add_ioc_spec e e req ts book
      (get_or_create_book_of_some e _ book hfa) hnz hioc hfok (hid book hfa)
  | none =>
    exact process_add_ioc_spec e _ req ts (OrderBook.new req.order.symbol)
      (get_or_create_book_of_none e _ hfa) hnz hioc hfok rfl

/-- Witness for claim C3 at the no-fill IOC input. -/
theorem claim_C3_witness :
    ((demoEngine.process_add_order (addReqOf iocNoFillOrder) 0).1.trades = [] →
      (demoEngine.process_add_order (addReqOf iocNoFillOrder) 0).1.status =
        MatchResult.Status.Added) ∧
    ((demoEngine.process_add_order (addReqOf iocNoFillOrder) 0).1.trades ≠ [] →
      (demoEngine.process_add_order (addReqOf iocNoFillOrder) 0).1.status =
        MatchResult.Status.Matched) ∧
    (∀ book2, (demoEngine.process_add_order
        (addReqOf iocNoFillOrder) 0).2.get_order_book 1 = some book2 →
      findA book2.orders 1 = none) :=
  claim_C3_amended demoEngine (addReqOf iocNoFillOrder) 0 rfl rfl
    (by decide)
    (by
      intro book hb
      exact Option.noConfusion hb)

/-- Claim C6 counterexample: at scenario S5 the incoming FOK buy
crosses the book and fills 100 before matching stops, yet the returned
MatchResult carries zero total trade quantity because the FOK residual
cleared the trades: the sum does not equal the filled portion. -/
theorem claim_C6_counterexample :
    crossesBook s5SetupBook s5FokOrder = true ∧
    sumQty s5Run.1.trades = 0 ∧
    s5FokOrder.quantity - addFinalRemaining s5SetupBook s5FokOrder 1 = 100 ∧
    (100 : Nat) ≠ 0 := by
  decide

/-- Claim C6 amended: for every Add request that passes the pool check
(with remaining initialized to the original quantity, as the Order
constructor guarantees), the sum of the trade quantities in the
returned MatchResult equals the original quantity minus the remaining
quantity when matching stops — except for a FOK order left with a
residual, whose trades are cleared; the hypothesis excludes exactly
that case by requiring FOK orders to finish with zero residual. -/
theorem claim_C6_amended (e : MatchingEngine) (req : OrderRequest) (ts : Nat)
    (hava : 0 < e.available)
    (hq : req.order.remaining_quantity = req.order.quantity)
    (hfok : req.order.is_fok = true →
      addFinalRemaining (e.get_or_create_book req.order.symbol).1
        req.order ts = 0) :
    sumQty (e.process_add_order req ts).1.trades =
      req.order.quantity -
        addFinalRemaining (e.get_or_create_book req.order.symbol).1
          req.order ts := by
  have hnz : ¬ e.available = 0 := Nat.pos_iff_ne_zero.mp hava
  cases hfa : findA e.order_books req.order.symbol with
  | some book =>
    have hbe := get_or_create_book_of_some e req.order.symbol book hfa
    rw [hbe] at hfok ⊢
    exact process_add_qty_spec e e req ts book hbe hnz hq hfok
  | none =>
    have hbe := get_or_create_book_of_none e req.order.symbol hfa
    rw [hbe] at hfok ⊢
    exact process_add_qty_spec e _ req ts (OrderBook.new req.order.symbol)
      hbe hnz hq hfok

/-- Witness for claim C6: the plain-limit variant of S5 (Buy 500 at
101.00 against the resting Sell 100) books one trade of 100 and rests
the residual; the sum of trade quantities is 500 minus the remaining
400. -/
theorem claim_C6_witness :
    sumQty (s5Setup.process_add_order (addReqOf s5PlainOrder) 1).1.trades =
      s5PlainOrder.quantity -
        addFinalRemaining (s5Setup.get_or_create_book 1).1 s5PlainOrder 1 :=
  claim_C6_amended s5Setup (addReqOf s5PlainOrder) 1 (by decide) (by decide)
    (by decide)


/-- Claim C5: after every sequence of OrderBook operations starting
from a fresh book, has_best_bid holds exactly when some bid level is
non-empty and then get_best_bid is the maximum price over non-empty
bid levels (attained and an upper bound); symmetrically has_best_ask
and get_best_ask with the minimum over non-empty ask levels. -/
theorem claim_C5_best_price_invariant (s : Nat) (ops : List BookOp) :
    let b := applyBookOps (OrderBook.new s) ops
    (b.has_best_bid = true ↔ ∃ pl ∈ b.buy_levels, pl.2.is_empty = false) ∧
    (b.has_best_bid = true →
      (∃ pl ∈ b.buy_levels, pl.2.is_empty = false ∧ pl.1 = b.get_best_bid) ∧
      ∀ pl ∈ b.buy_levels, pl.2.is_empty = false → pl.1 ≤ b.get_best_bid) ∧
    (b.has_best_ask = true ↔ ∃ pl ∈ b.sell_levels, pl.2.is_empty = false) ∧
    (b.has_best_ask = true →
      (∃ pl ∈ b.sell_levels, pl.2.is_empty = false ∧ pl.1 = b.get_best_ask) ∧
      ∀ pl ∈ b.sell_levels, pl.2.is_empty = false → pl.1 ≥ b.get_best_ask) := by
  intro b
  obtain ⟨-, -, -, -, -, -, -, -, h9, h10⟩ :=
    wf_applyBookOps (OrderBook.new s) ops (wfBook_new s)
  refine ⟨h9.1, ?_, h10.1, ?_⟩
  · intro hh
    have hg : b.get_best_bid = b.best_bid := by
      simp [OrderBook.get_best_bid, hh]
    rw [hg]
    exact h9.2 hh
  · intro hh
    have hg : b.get_best_ask = b.best_ask := by
      simp [OrderBook.get_best_ask, hh]
    rw [hg]
    exact h10.2 hh


/-- Claim C8: for the power-of-two ring (Size = 2 ^ k), capacity is
Size - 1; try_push rejects (returning none, so the ring is unchanged)
exactly when Size - 1 values are queued; try_pop rejects exactly when
the ring is empty; a successful push appends the value to the queued
contents and a successful pop removes their head; and every
single-producer single-consumer history of pushes and pops, run from a
fresh ring, pops values in push order: its pops coincide with those of
the reference FIFO queue of capacity Size - 1. -/
theorem claim_C8_ring_fifo {α : Type} (k : Nat) (Size : Nat)
    (hS : Size = 2 ^ k) (rb : SPSCRingBuffer α Size) (v a : α)
    (hwf : rb.wf) (ops : List (RingOp α)) :
    rb.capacity = Size - 1 ∧
    (rb.try_push v = none ↔ rb.toList.length = Size - 1) ∧
    (rb.try_pop = none ↔ rb.toList = []) ∧
    (∀ rb2, rb.try_push v = some rb2 → rb2.toList = rb.toList ++ [v]) ∧
    (∀ x rb2, rb.try_pop = some (x, rb2) → rb.toList = x :: rb2.toList) ∧
    (runRing (SPSCRingBuffer.init Size a) ops).2 =
      (runQueue (Size - 1) [] ops).2 := by
  have hpos : 0 < Size := by
    rw [hS]
    positivity
  refine ⟨rfl, ?_, ?_, ?_, ?_, ?_⟩
  · rw [toList_length]
    exact try_push_none_iff rb v hwf
  · rw [toList_eq_nil_iff]
    exact try_pop_none_iff rb hwf
  · intro rb2 hp
    exact (toList_try_push rb v rb2 hwf hp).1
  · intro x rb2 hp
    exact (toList_try_pop rb x rb2 hwf hp).1
  · have h0 := runRing_eq_runQueue ops (SPSCRingBuffer.init Size a)
      (init_wf Size a hpos)
    rw [init_toList] at h0
    exact h0

/-- The C8 theorem at the concrete ring of size 4 = 2 ^ 2 over Nat
with a four-push three-pop history. -/
theorem claim_C8_witness :
    4 = 2 ^ 2 ∧ (SPSCRingBuffer.init 4 (0 : Nat)).wf ∧
    (runRing (SPSCRingBuffer.init 4 (0 : Nat))
        [RingOp.push 1, RingOp.push 2, RingOp.push 3, RingOp.push 4,
         RingOp.pop, RingOp.pop, RingOp.pop]).2 =
      (runQueue 3 []
        [RingOp.push 1, RingOp.push 2, RingOp.push 3, RingOp.push 4,
         RingOp.pop, RingOp.pop, RingOp.pop]).2 :=
  ⟨rfl, init_wf 4 0 (by decide),
    (claim_C8_ring_fifo 2 4 rfl (SPSCRingBuffer.init 4 (0 : Nat)) 0 0
      (init_wf 4 0 (by decide))
      [RingOp.push 1, RingOp.push 2, RingOp.push 3, RingOp.push 4,
       RingOp.pop, RingOp.pop, RingOp.pop]).2.2.2.2.2⟩


/-- Claim C7: price-time priority of the matching loop.  Under the book
invariant, for a buy order every trade executes at or above the
pre-match best ask against a maker resting on the ask side at the
trade price, trade prices are non-decreasing along the emitted list
(best price first), and per price the maker ids are consumed as a
prefix of that level's FIFO queue (arrival order); symmetrically a
sell order matches makers on the bid side at or below the best bid
with non-increasing prices. -/
theorem claim_C7_price_time_priority (book : OrderBook) (o : Order)
    (ts : Nat) (hwf : wfBook book) :
    (o.is_buy = true →
      (∀ t ∈ (MatchingEngine.match_order book o ts).2.2.1,
        book.has_best_ask = true ∧ book.get_best_ask ≤ t.price ∧
        ∃ ord, findA book.orders t.maker_id = some ord ∧
          ord.id = t.maker_id ∧ ord.price = t.price ∧
          ord.side = Side.Sell) ∧
      List.Pairwise (fun t1 t2 => t1.price ≤ t2.price)
        (MatchingEngine.match_order book o ts).2.2.1 ∧
      ∀ p : Int, List.IsPrefix
        (makerIdsAt p (MatchingEngine.match_order book o ts).2.2.1)
        (askQueueAt book p)) ∧
    (o.is_buy = false →
      (∀ t ∈ (MatchingEngine.match_order book o ts).2.2.1,
        book.has_best_bid = true ∧ t.price ≤ book.get_best_bid ∧
        ∃ ord, findA book.orders t.maker_id = some ord ∧
          ord.id = t.maker_id ∧ ord.price = t.price ∧
          ord.side = Side.Buy) ∧
      List.Pairwise (fun t1 t2 => t2.price ≤ t1.price)
        (MatchingEngine.match_order book o ts).2.2.1 ∧
      ∀ p : Int, List.IsPrefix
        (makerIdsAt p (MatchingEngine.match_order book o ts).2.2.1)
        (bidQueueAt book p)) := by
  constructor
  · intro hb
    unfold MatchingEngine.match_order MatchingEngine.match_buy_order
    rw [if_pos hb]
    exact matchBuyFuel_maker_spec ts (book.orders.length + 1) book o hwf
  · intro hb
    unfold MatchingEngine.match_order MatchingEngine.match_sell_order
    rw [if_neg (by simp [hb])]
    exact matchSellFuel_maker_spec ts (book.orders.length + 1) book o hwf

/-- The C7 theorem applied to the concrete one-resting-sell book and
the plain S5 buy order, extracting the FIFO-prefix clause. -/
theorem claim_C7_witness :
    wfBook wfWitnessBook ∧
    ∀ p : Int, List.IsPrefix
      (makerIdsAt p
        (MatchingEngine.match_order wfWitnessBook s5PlainOrder 0).2.2.1)
      (askQueueAt wfWitnessBook p) :=
  ⟨wf_add (OrderBook.new 1)
      (Order.mk7 7 1 101000000 100 Side.Sell OrderType.Limit 0)
      (wfBook_new 1),
    ((claim_C7_price_time_priority wfWitnessBook s5PlainOrder 0
        (wf_add (OrderBook.new 1)
          (Order.mk7 7 1 101000000 100 Side.Sell OrderType.Limit 0)
          (wfBook_new 1))).1 (by decide)).2.2⟩

end NanoTrader
